import Mathlib

/-!
# The arm64 ASID allocator (`arch/arm64/mm/context.c`)

A shallow embedding of the allocator and of the context-switch entry point
`check_and_switch_context`, executed sequentially (one call after the other,
as if every call held `cpu_asid_lock`).

* 64-bit machine words (`u64`, `unsigned long`, `atomic64_t`) are natural
  numbers; the one operation that can overflow, the addition to
  `asid_generation`, is reduced modulo `2 ^ 64`.
* Per-CPU variables are tables indexed by the CPU number; the possible CPUs
  are `0 .. ncpus - 1`.
* `asid_map` is a table of bits indexed by the bit number.
* Address spaces (`struct mm_struct`) are handles `0, 1, 2, ..`; the only
  field the allocator touches, `mm->context.id`, is the table `context_id`.
* `local_flush_tlb_all()` is recorded by a per-CPU counter.  The page-table
  switch, the branch-predictor hardening and the CNP reserved-TTBR0 write do
  not touch allocator state and are left out.
-/

namespace Asid

/-! ## Configuration and state -/

/-- Build and boot configuration: `kpti` is `CONFIG_UNMAP_KERNEL_AT_EL0`,
`ncpus` is `num_possible_cpus()`. -/
structure Config where
  kpti : Bool
  ncpus : Nat

/-- The static variables of `context.c`, the `context.id` field of every
address space, and the count of local TLB flushes issued per CPU. -/
@[ext] structure State where
  asid_bits : Nat
  asid_generation : Nat
  asid_map : Nat → Bool
  active_asids : Nat → Nat
  reserved_asids : Nat → Nat
  tlb_flush_pending : Nat → Bool
  cur_idx : Nat
  context_id : Nat → Nat
  local_tlb_flushes : Nat → Nat

/-- How a start-up routine can abort. -/
inductive Fault where
  | cpu_panic_kernel
  | panic_no_bitmap
  deriving DecidableEq, Repr

/-! ## Machine words and bitmaps -/

def BITS_PER_LONG : Nat := 64

/-- Bitwise complement of a 64-bit word (`~x`). -/
def not64 (x : Nat) : Nat := (2 ^ 64 - 1) ^^^ x

/-- Subtraction of 64-bit words. -/
def sub64 (a b : Nat) : Nat := (a + 2 ^ 64 - b % 2 ^ 64) % 2 ^ 64

/-- Modelled from the spec: `GENMASK(h, l)` of `include/linux/bits.h` is not
part of the sources at hand; the spec takes the local id to be the low
`asid_bits` bits of an identifier, which is what the kernel's definition
`((~0UL) - (1UL << l) + 1) & (~0UL >> (BITS_PER_LONG - 1 - h))`, written out
here, gives for `h = asid_bits - 1`, `l = 0`. -/
def GENMASK (h l : Nat) : Nat :=
  ((not64 0 + 2 ^ 64 - (1 <<< l) % 2 ^ 64 + 1) % 2 ^ 64) &&& (not64 0 >>> (BITS_PER_LONG - 1 - h))

/-- The macro `ASID_MASK`: `~GENMASK(asid_bits - 1, 0)`. -/
def ASID_MASK (bits : Nat) : Nat := not64 (GENMASK (bits - 1) 0)

/-- The macro `ASID_FIRST_VERSION`: `1UL << asid_bits`. -/
def ASID_FIRST_VERSION (bits : Nat) : Nat := (1 <<< bits) % 2 ^ 64

/-- The macro `NUM_USER_ASIDS`, in both build modes. -/
def NUM_USER_ASIDS (cfg : Config) (bits : Nat) : Nat :=
  if cfg.kpti then ASID_FIRST_VERSION bits >>> 1 else ASID_FIRST_VERSION bits

/-- The macro `asid2idx`, in both build modes. -/
def asid2idx (cfg : Config) (bits asid : Nat) : Nat :=
  if cfg.kpti then (asid &&& not64 (ASID_MASK bits)) >>> 1
  else asid &&& not64 (ASID_MASK bits)

/-- The macro `idx2asid`, in both build modes. -/
def idx2asid (cfg : Config) (bits idx : Nat) : Nat :=
  if cfg.kpti then ((idx <<< 1) % 2 ^ 64) &&& not64 (ASID_MASK bits)
  else asid2idx cfg bits idx

/-- The local id of an identifier: `asid & ~ASID_MASK`. -/
def local_id (bits asid : Nat) : Nat := asid &&& not64 (ASID_MASK bits)

/-- The staleness test of `check_and_switch_context`:
`(asid ^ atomic64_read(&asid_generation)) >> asid_bits`, as a truth value. -/
def is_stale (bits asid generation : Nat) : Bool :=
  (asid ^^^ generation) >>> bits != 0

/-- Clear `nbits` bits of a bitmap from `start` on (`bitmap_clear`). -/
def bitmap_clear (map : Nat → Bool) (start nbits : Nat) : Nat → Bool :=
  fun i => if start ≤ i ∧ i < start + nbits then false else map i

/-- Set one bit of a bitmap (`__set_bit`). -/
def __set_bit (nr : Nat) (map : Nat → Bool) : Nat → Bool :=
  Function.update map nr true

/-- Set one bit and return its old value (`__test_and_set_bit`). -/
def __test_and_set_bit (nr : Nat) (map : Nat → Bool) : Bool × (Nat → Bool) :=
  (map nr, Function.update map nr true)

/-- The first clear bit at or after `offset` and below `size`, or `size` when
there is none (`find_next_zero_bit`). -/
def find_next_zero_bit (map : Nat → Bool) (size offset : Nat) : Nat :=
  match (List.range' offset (size - offset)).find? (fun i => !map i) with
  | some i => i
  | none => size

/-- Sequential `atomic64_xchg`: the old value and the new content. -/
def atomic64_xchg (v new : Nat) : Nat × Nat := (v, new)

/-- Sequential `atomic64_cmpxchg`: the value found and the new content. -/
def atomic64_cmpxchg (v old new : Nat) : Nat × Nat :=
  if v = old then (v, new) else (v, v)

/-! ## Hardware query and start-up -/

/-- The body of `get_cpu_asid_bits` for a value `fld` of the ASID field of
`ID_AA64MMFR0_EL1`: the width, and whether the unknown-size warning is
printed. -/
def get_cpu_asid_bits (fld : Int) : Nat × Bool :=
  if fld = 0 then (8, false)
  else if fld = 2 then (16, false)
  else (8, true)

/-- The function `verify_cpu_asid_bits` on a CPU whose ASID field reads `fld`. -/
def verify_cpu_asid_bits (s : State) (fld : Int) : Except Fault State :=
  let asid := (get_cpu_asid_bits fld).1
  if asid < s.asid_bits then Except.error Fault.cpu_panic_kernel
  else Except.ok s

/-- The static initial values of the variables of `context.c`
(`cur_idx` starts at 1, everything else is zero), with every address space
still without identifier. -/
def boot : State where
  asid_bits := 0
  asid_generation := 0
  asid_map := fun _ => false
  active_asids := fun _ => 0
  reserved_asids := fun _ => 0
  tlb_flush_pending := fun _ => false
  cur_idx := 1
  context_id := fun _ => 0
  local_tlb_flushes := fun _ => 0

/-- What `asids_init` leaves behind when it returns 0: whether `WARN_ON`
fired, and the state. -/
structure InitResult where
  warned : Bool
  state : State

/-- The body of `asids_init` after `asid_bits = get_cpu_asid_bits()` gave
`bits`; `kcalloc_ok` tells whether the bitmap allocation succeeds. -/
def asids_init_bits (cfg : Config) (s : State) (bits : Nat) (kcalloc_ok : Bool) :
    Except Fault InitResult :=
  let s1 := { s with asid_bits := bits }
  let warned := decide (sub64 (NUM_USER_ASIDS cfg bits) 1 ≤ cfg.ncpus)
  let s2 := { s1 with asid_generation := ASID_FIRST_VERSION bits }
  if kcalloc_ok then
    Except.ok { warned := warned, state := { s2 with asid_map := fun _ => false } }
  else Except.error Fault.panic_no_bitmap

/-- The function `asids_init` on a boot CPU whose ASID field reads `fld`. -/
def asids_init (cfg : Config) (s : State) (fld : Int) (kcalloc_ok : Bool) :
    Except Fault InitResult :=
  asids_init_bits cfg s (get_cpu_asid_bits fld).1 kcalloc_ok

/-! ## Rollover -/

/-- One iteration of the `for_each_possible_cpu` loop of `flush_context`. -/
def flush_context_cpu (cfg : Config) (s : State) (i : Nat) : State :=
  let x := atomic64_xchg (s.active_asids i) 0
  let s1 := { s with active_asids := Function.update s.active_asids i x.2 }
  let asid := if x.1 = 0 then s1.reserved_asids i else x.1
  { s1 with
    asid_map := __set_bit (asid2idx cfg s1.asid_bits asid) s1.asid_map
    reserved_asids := Function.update s1.reserved_asids i asid }

/-- The function `flush_context`. -/
def flush_context (cfg : Config) (s : State) : State :=
  let s0 := { s with
    asid_map := bitmap_clear s.asid_map 0 (NUM_USER_ASIDS cfg s.asid_bits) }
  let s1 := (List.range cfg.ncpus).foldl (flush_context_cpu cfg) s0
  { s1 with tlb_flush_pending := fun _ => true }

/-- One iteration of the loop of `check_update_reserved_asid`. -/
def check_update_reserved_asid_cpu (asid newasid : Nat) (acc : Bool × State) (cpu : Nat) :
    Bool × State :=
  if acc.2.reserved_asids cpu = asid then
    (true, { acc.2 with
      reserved_asids := Function.update acc.2.reserved_asids cpu newasid })
  else acc

/-- The function `check_update_reserved_asid`: the `hit` flag and the state. -/
def check_update_reserved_asid (cfg : Config) (s : State) (asid newasid : Nat) :
    Bool × State :=
  (List.range cfg.ncpus).foldl (check_update_reserved_asid_cpu asid newasid) (false, s)

/-- Lines 189-191 of `new_context`: the generation advances by
`ASID_FIRST_VERSION` (64-bit addition) and `flush_context` runs. -/
def rollover (cfg : Config) (s : State) : State :=
  flush_context cfg
    { s with
      asid_generation := (s.asid_generation + ASID_FIRST_VERSION s.asid_bits) % 2 ^ 64 }

/-- The label `set_asid` of `new_context`: mark the index, move the cursor
(`cur_idx` is a `u32`), build the identifier. -/
def set_asid (cfg : Config) (s : State) (asid generation : Nat) : Nat × State :=
  (idx2asid cfg s.asid_bits asid ||| generation,
   { s with asid_map := __set_bit asid s.asid_map, cur_idx := asid % 2 ^ 32 })

/-- The second half of `new_context` (from the first `find_next_zero_bit`
on): allocate a free index, after a rollover if there is none. -/
def new_context_scan (cfg : Config) (s : State) : Nat × State :=
  let asid := find_next_zero_bit s.asid_map (NUM_USER_ASIDS cfg s.asid_bits) s.cur_idx
  if asid ≠ NUM_USER_ASIDS cfg s.asid_bits then
    set_asid cfg s asid s.asid_generation
  else
    let s1 := rollover cfg s
    let asid := find_next_zero_bit s1.asid_map (NUM_USER_ASIDS cfg s1.asid_bits) 1
    set_asid cfg s1 asid s1.asid_generation

/-- The function `new_context` for the address space `mm`: the identifier
returned and the state. -/
def new_context (cfg : Config) (s : State) (mm : Nat) : Nat × State :=
  let asid := s.context_id mm
  let generation := s.asid_generation
  if asid ≠ 0 then
    let newasid := generation ||| (asid &&& not64 (ASID_MASK s.asid_bits))
    let r := check_update_reserved_asid cfg s asid newasid
    if r.1 then (newasid, r.2)
    else
      let t := __test_and_set_bit (asid2idx cfg r.2.asid_bits asid) r.2.asid_map
      let s2 := { r.2 with asid_map := t.2 }
      if !t.1 then (newasid, s2) else new_context_scan cfg s2
  else new_context_scan cfg s

/-! ## Context switch -/

/-- Lines 244-248 of `check_and_switch_context`: re-read `mm->context.id`
and, if it is stale, replace it by what `new_context` returns.  The result is
the identifier to install and the state. -/
def renew_context (cfg : Config) (s : State) (mm : Nat) : Nat × State :=
  let asid := s.context_id mm
  if is_stale s.asid_bits asid s.asid_generation then
    let n := new_context cfg s mm
    (n.1, { n.2 with context_id := Function.update n.2.context_id mm n.1 })
  else (asid, s)

/-- Lines 251-252 of `check_and_switch_context`:
`cpumask_test_and_clear_cpu(cpu, &tlb_flush_pending)` and, if the bit was
set, `local_flush_tlb_all()`. -/
def flush_if_pending (s : State) (cpu : Nat) : State :=
  if s.tlb_flush_pending cpu then
    { s with
      tlb_flush_pending := Function.update s.tlb_flush_pending cpu false
      local_tlb_flushes :=
        Function.update s.local_tlb_flushes cpu (s.local_tlb_flushes cpu + 1) }
  else s

/-- The locked part of `check_and_switch_context`
(between `raw_spin_lock_irqsave` and `raw_spin_unlock_irqrestore`). -/
def switch_mm_slowpath (cfg : Config) (s : State) (mm cpu : Nat) : State :=
  let r := renew_context cfg s mm
  let s2 := flush_if_pending r.2 cpu
  { s2 with active_asids := Function.update s2.active_asids cpu r.1 }

/-- The function `check_and_switch_context` up to the label
`switch_mm_fastpath`. -/
def check_and_switch_context (cfg : Config) (s : State) (mm cpu : Nat) : State :=
  let asid := s.context_id mm
  let old_active_asid := s.active_asids cpu
  if old_active_asid ≠ 0 ∧ is_stale s.asid_bits asid s.asid_generation = false then
    let x := atomic64_cmpxchg (s.active_asids cpu) old_active_asid asid
    let s1 := { s with active_asids := Function.update s.active_asids cpu x.2 }
    if x.1 ≠ 0 then s1 else switch_mm_slowpath cfg s1 mm cpu
  else switch_mm_slowpath cfg s mm cpu

/-- Whether `check_and_switch_context` leaves by the lock-free path. -/
def takes_fastpath (s : State) (mm cpu : Nat) : Bool :=
  decide (s.active_asids cpu ≠ 0) && !is_stale s.asid_bits (s.context_id mm) s.asid_generation

/-! ## Reachable states -/

/-- The states the allocator can be in: what a successful `asids_init`
leaves, followed by any number of sequential context switches on possible
CPUs. -/
inductive Reachable (cfg : Config) : State → Prop where
  | init (fld : Int) (r : InitResult) :
      asids_init cfg boot fld true = Except.ok r → Reachable cfg r.state
  | switch (s : State) (mm cpu : Nat) :
      Reachable cfg s → cpu < cfg.ncpus →
      Reachable cfg (check_and_switch_context cfg s mm cpu)

/-! ## Auxiliary definitions used in the statements and proofs -/

/-- The identifier that `flush_context` keeps for CPU `i`: the active one, or
the old reserved one when the CPU has no active identifier. -/
def kept_asid (s : State) (i : Nat) : Nat :=
  if s.active_asids i = 0 then s.reserved_asids i else s.active_asids i

/-- The state after the first `n` iterations of the loop of `flush_context`,
written without the loop. -/
def flush_loop_result (cfg : Config) (s : State) (n : Nat) : State :=
  { s with
    active_asids := fun c => if c < n then 0 else s.active_asids c
    reserved_asids := fun c => if c < n then kept_asid s c else s.reserved_asids c
    asid_map := fun b =>
      s.asid_map b || decide (∃ i, i < n ∧ asid2idx cfg s.asid_bits (kept_asid s i) = b) }

/-- The state after the first `n` iterations of the loop of
`check_update_reserved_asid`, written without the loop. -/
def check_update_loop_result (s : State) (asid newasid n : Nat) : Bool × State :=
  (decide (∃ c, c < n ∧ s.reserved_asids c = asid),
   { s with
     reserved_asids := fun c =>
       if c < n ∧ s.reserved_asids c = asid then newasid else s.reserved_asids c })


/-- Whether `new_context` returns through one of its two reuse exits (the
reserved-ASID match or the still-clear old bit) instead of reaching the
bitmap scan. -/
def new_context_reuses (cfg : Config) (s : State) (mm : Nat) : Bool :=
  let asid := s.context_id mm
  let newasid := s.asid_generation ||| (asid &&& not64 (ASID_MASK s.asid_bits))
  decide (asid ≠ 0) &&
    ((check_update_reserved_asid cfg s asid newasid).1 ||
      !s.asid_map (asid2idx cfg s.asid_bits asid))

/-- Whether the bitmap scan of `new_context` finds no free index from
`cur_idx` on, so that a rollover is performed. -/
def scan_rolls_over (cfg : Config) (s : State) : Bool :=
  find_next_zero_bit s.asid_map (NUM_USER_ASIDS cfg s.asid_bits) s.cur_idx
    == NUM_USER_ASIDS cfg s.asid_bits

/-- The invariant of the allocator that the proofs below maintain. -/
structure Inv (cfg : Config) (s : State) : Prop where
  bits_lo : 1 ≤ s.asid_bits
  bits_hi : s.asid_bits < 32
  gen_dvd : 2 ^ s.asid_bits ∣ s.asid_generation
  gen_lt : s.asid_generation < 2 ^ 64
  cur_pos : 1 ≤ s.cur_idx
  reserved_marked : ∀ c, c < cfg.ncpus →
    asid2idx cfg s.asid_bits (s.reserved_asids c) = 0 ∨
      s.asid_map (asid2idx cfg s.asid_bits (s.reserved_asids c)) = true
  active_current : ∀ c, c < cfg.ncpus →
    s.active_asids c = 0 ∨ is_stale s.asid_bits (s.active_asids c) s.asid_generation = false

/-! ## Concrete configurations and states used as test inputs -/

/-- A kernel built with `CONFIG_UNMAP_KERNEL_AT_EL0` on four possible CPUs. -/
def example_cfg : Config := { kpti := true, ncpus := 4 }

/-- What `asids_init` leaves on such a kernel when the boot CPU has 8-bit
ASIDs: 128 usable indices, first generation 256. -/
def example_init : State := { boot with asid_bits := 8, asid_generation := 256 }

/-- Address space 0 switched in on CPU 0 right after start-up. -/
def example_one_switch : State := check_and_switch_context example_cfg example_init 0 0

/-- Address space 0 switched in on CPU 0 and then on CPU 1 (two threads of
one process). -/
def example_shared_mm : State := check_and_switch_context example_cfg example_one_switch 0 1

/-- `n` rollovers in a row (each one the generation advance followed by
`flush_context`) with no context switch in between. -/
def rollovers (cfg : Config) (n : Nat) (s : State) : State := (rollover cfg)^[n] s

/-- Address space 0 runs on CPU 0 while three rollovers happen. -/
def example_three_rollovers : State := rollovers example_cfg 3 example_one_switch

/-- The reachable states in whose history no switch started in the last
epoch of the 64-bit generation counter, so that no addition to
`asid_generation` has wrapped around `2 ^ 64`. -/
inductive ReachableNoWrap (cfg : Config) : State → Prop where
  | init (fld : Int) (r : InitResult) :
      asids_init cfg boot fld true = Except.ok r → ReachableNoWrap cfg r.state
  | switch (s : State) (mm cpu : Nat) :
      ReachableNoWrap cfg s → cpu < cfg.ncpus →
      s.asid_generation + 2 ^ s.asid_bits < 2 ^ 64 →
      ReachableNoWrap cfg (check_and_switch_context cfg s mm cpu)

/-- A kernel built with `CONFIG_UNMAP_KERNEL_AT_EL0` on 127 possible CPUs:
with 8-bit ASIDs, `NUM_USER_ASIDS - 1` is 127 as well. -/
def example_cfg_127 : Config := { kpti := true, ncpus := 127 }

/-- Address spaces 0 and 1 were switched in on CPU 0, in this order, and a
rollover followed: CPU 0 has reserved the identifier 260 of address space 1,
the identifier 258 of address space 0 is stale and its index 1 is free. -/
def example_after_rollover : State :=
  rollover example_cfg (check_and_switch_context example_cfg example_one_switch 1 0)

/-! ## Sequences of switches -/

/-- Address spaces `0, 1, .., n - 1`, none of them switched in before, are
switched in one after the other, the `k`-th of them on CPU `cpu_of k`. -/
def switch_fresh (cfg : Config) (cpu_of : Nat → Nat) (s : State) : Nat → State
  | 0 => s
  | n + 1 => check_and_switch_context cfg (switch_fresh cfg cpu_of s n) n (cpu_of n)

/-- What the body of `asids_init` leaves for 4-bit ASIDs: with
`CONFIG_UNMAP_KERNEL_AT_EL0` there are 8 usable indices, and the first
generation is 16. -/
def scenario_init : State := { boot with asid_bits := 4, asid_generation := 16 }

/-- The state of the allocator after `n` fresh address spaces have been given
the indices `1 .. n` of the first generation, with no rollover so far. -/
structure FreshAllocated (cfg : Config) (bits : Nat) (t : State) (n : Nat) : Prop where
  bits_eq : t.asid_bits = bits
  gen_eq : t.asid_generation = 2 ^ bits
  cur_eq : t.cur_idx = max n 1
  map_iff : ∀ i, t.asid_map i = true ↔ (1 ≤ i ∧ i ≤ n)
  ids_hi : ∀ j, n ≤ j → t.context_id j = 0
  ids_lo : ∀ j, j < n → t.context_id j = idx2asid cfg bits (j + 1) ||| 2 ^ bits

/-! ## The two paths of `check_and_switch_context` -/

/-- Whether `check_and_switch_context` executes `goto switch_mm_fastpath`:
the three-part condition of its `if`, the compare-and-swap included (it is
only attempted when the first two parts hold). -/
def goto_switch_mm_fastpath (s : State) (mm cpu : Nat) : Bool :=
  let asid := s.context_id mm
  let old_active_asid := s.active_asids cpu
  decide (old_active_asid ≠ 0) && !is_stale s.asid_bits asid s.asid_generation &&
    decide ((atomic64_cmpxchg (s.active_asids cpu) old_active_asid asid).1 ≠ 0)

/-- A sequence of context switches, each given as (address space, CPU),
executed one after the other. -/
def run_switches (cfg : Config) (s : State) : List (Nat × Nat) → State
  | [] => s
  | p :: rest => run_switches cfg (check_and_switch_context cfg s p.1 p.2) rest

/-- Whether every switch of the sequence leaves by the lock-free path. -/
def all_fastpath (cfg : Config) (s : State) : List (Nat × Nat) → Bool
  | [] => true
  | p :: rest =>
    goto_switch_mm_fastpath s p.1 p.2 &&
      all_fastpath cfg (check_and_switch_context cfg s p.1 p.2) rest

/-- The address space that the sequence of switches leaves running on `cpu`:
the one of the last switch on that CPU, if there is one. -/
def running (calls : List (Nat × Nat)) (cpu : Nat) : Option Nat :=
  match calls with
  | [] => none
  | p :: rest =>
    match running rest cpu with
    | some mm => some mm
    | none => if p.2 = cpu then some p.1 else none

/-- Whether `new_context`, called for `mm` on the locked path, performs a
rollover: the identifier is stale, no reuse exit applies and the scan finds
no free index. -/
def rollover_in_call (cfg : Config) (s : State) (mm : Nat) : Bool :=
  is_stale s.asid_bits (s.context_id mm) s.asid_generation &&
    !new_context_reuses cfg s mm && scan_rolls_over cfg s

/-- The states `s` and `t` agree on everything but `active_asids`: no bit of
`asid_map`, no generation, cursor, reserved identifier, pending flag or
context identifier differs, and no TLB flush was issued in between. -/
def same_but_active (s t : State) : Prop :=
  t.asid_bits = s.asid_bits ∧ t.asid_generation = s.asid_generation ∧
  t.asid_map = s.asid_map ∧ t.reserved_asids = s.reserved_asids ∧
  t.tlb_flush_pending = s.tlb_flush_pending ∧ t.cur_idx = s.cur_idx ∧
  t.context_id = s.context_id ∧ t.local_tlb_flushes = s.local_tlb_flushes

/-- Address space 0 runs on CPU 0 and address space 1 on CPU 1. -/
def example_two_cpus : State := check_and_switch_context example_cfg example_one_switch 1 1

/-! ## Invariants of the reachable states -/

/-- Pending flushes and active identifiers exclude each other: a CPU whose
bit in `tlb_flush_pending` is set has `active_asids == 0`, and so has every
CPU number that is not a possible CPU. -/
structure Quiet (cfg : Config) (s : State) : Prop where
  pending_idle : ∀ c, s.tlb_flush_pending c = true → s.active_asids c = 0
  impossible_idle : ∀ c, cfg.ncpus ≤ c → s.active_asids c = 0

/-- The cursor of the bitmap scan never passes a clear usable index: it stays
within `NUM_USER_ASIDS` and every index from 1 up to it is taken. -/
structure CursorInv (cfg : Config) (s : State) : Prop where
  cur_le : s.cur_idx ≤ NUM_USER_ASIDS cfg s.asid_bits
  below_set : ∀ i, 1 ≤ i → i < s.cur_idx → s.asid_map i = true

/-- Every set bit of `asid_map` below `NUM_USER_ASIDS` is accounted for: it
is the index of an address space whose identifier is of the current
generation, or the index of some possible CPU's reserved identifier. -/
def Covered (cfg : Config) (s : State) : Prop :=
  ∀ b, b < NUM_USER_ASIDS cfg s.asid_bits → s.asid_map b = true →
    (∃ mm, is_stale s.asid_bits (s.context_id mm) s.asid_generation = false ∧
      asid2idx cfg s.asid_bits (s.context_id mm) = b) ∨
    (∃ c, c < cfg.ncpus ∧ asid2idx cfg s.asid_bits (s.reserved_asids c) = b)

/-- The address space `mm` holds the index of its identifier: the identifier
is not 0 and it is of the current generation, or some possible CPU has it
reserved (so that the next switch to `mm` will renew it with the same
index). -/
def holds_index (cfg : Config) (s : State) (mm : Nat) : Prop :=
  s.context_id mm ≠ 0 ∧
  (is_stale s.asid_bits (s.context_id mm) s.asid_generation = false ∨
    ∃ c, c < cfg.ncpus ∧ s.reserved_asids c = s.context_id mm)

/-- Indices are owned exclusively: the index of every address space that
holds one is marked in `asid_map`, no two address spaces hold the same index,
and no identifier is of a generation after the current one. -/
structure Owned (cfg : Config) (s : State) : Prop where
  marked : ∀ mm, holds_index cfg s mm →
    s.asid_map (asid2idx cfg s.asid_bits (s.context_id mm)) = true
  unique : ∀ a b, holds_index cfg s a → holds_index cfg s b →
    asid2idx cfg s.asid_bits (s.context_id a) = asid2idx cfg s.asid_bits (s.context_id b) →
    a = b
  not_ahead : ∀ mm, s.context_id mm < s.asid_generation + 2 ^ s.asid_bits

/-! ## Exhausting the identifiers from start-up -/

/-- Every possible CPU `k` is switched to an address space of its own, the
address space `k`, starting in the state `s`: afterwards all possible CPUs
are busy with distinct address spaces. -/
def all_cpus_busy (cfg : Config) (s : State) : State :=
  switch_fresh cfg (fun k => k) s cfg.ncpus

/-- On the four-CPU kernel with 8-bit ASIDs, CPU 0 is switched to 128 fresh
address spaces in a row right after start-up: the 128th finds all 127 usable
indices taken and causes the first rollover. -/
def example_exhausted : State := switch_fresh example_cfg (fun _ => 0) example_init 128

/-- On the kernel with 127 possible CPUs and 8-bit ASIDs, every CPU runs an
address space of its own right after start-up, and then CPU 0 is switched to
one more fresh address space, the address space 127. -/
def example_overrun : State :=
  check_and_switch_context example_cfg_127 (all_cpus_busy example_cfg_127 example_init) 127 0

/-! ## Address spaces behind the active identifiers -/

/-- Every non-zero entry of `active_asids` is the identifier of an address
space: the one that was switched in on that CPU. -/
def Backed (s : State) : Prop :=
  ∀ c, s.active_asids c ≠ 0 → ∃ mm, s.context_id mm = s.active_asids c

/-- On the kernel with 127 possible CPUs and 8-bit ASIDs, after
`example_overrun` (every CPU has run an address space of its own, and CPU 0
has been switched to the address space 127, which got the identifier 512 of
index 128): CPU 0 goes back to the address space 0, CPU 1 is switched to the
fresh address space 128, and CPU 2 to the address space 127. -/
def example_tight_shared : State :=
  check_and_switch_context example_cfg_127
    (check_and_switch_context example_cfg_127
      (check_and_switch_context example_cfg_127 example_overrun 0 0) 128 1) 127 2

end Asid

/-!
# The energy model of CPUs (`kernel/power/energy_model.c`, `include/linux/energy_model.h`)

A shallow embedding of `em_create_pd`, `em_cpu_get`, `em_register_perf_domain`
and `em_pd_energy`.

* `unsigned long` and `u64` values are natural numbers; the two products
  that can overflow (`fmax * power` and `cost * sum_util`) are reduced
  modulo `2 ^ 64`, and so is `freq++`.
* A `cpumask_t` is the list of its CPUs in ascending order, `NULL` pointers
  are `none`, and the per-CPU pointer `em_data` is a table from CPU numbers
  to optional performance domains.
* The driver callback `active_power` is a function from the frequency it
  finds in `*freq` and the CPU to what it reports: its return value and the
  values it leaves in `*power` and `*freq`.
* The two allocations of `em_create_pd` succeed or fail as told by two
  flags.  Log messages and `em_pd_mutex` are left out.
-/

namespace EnergyModel

/-! ## Data -/

/-- The type `struct em_cap_state`. -/
structure em_cap_state where
  frequency : Nat
  power : Nat
  cost : Nat
  deriving DecidableEq, Repr

/-- The type `struct em_perf_domain`. -/
structure em_perf_domain where
  table : List em_cap_state
  nr_cap_states : Int
  cpus : List Nat
  deriving DecidableEq, Repr

/-- The constant `EM_CPU_MAX_POWER`. -/
def EM_CPU_MAX_POWER : Nat := 0xFFFF

/-- What one call of the driver callback `active_power` reports. -/
structure ActivePower where
  ret : Int
  power : Nat
  freq : Nat

/-- The type `struct em_data_callback`; a `NULL` function pointer is `none`. -/
structure em_data_callback where
  active_power : Option (Nat → Nat → ActivePower)

/-- What the functions take from the rest of the kernel: the number of CPU
ids, `arch_scale_cpu_capacity(NULL, cpu)` and `map_util_freq(util, freq,
cap)`, none of which is defined in the sources at hand. -/
structure Env where
  nr_cpu_ids : Nat
  arch_scale_cpu_capacity : Nat → Nat
  map_util_freq : Nat → Nat → Nat → Nat

/-- Modelled from the spec: the errno constant `EINVAL` is not defined in the
sources at hand, which only name it; it has its usual value. -/
def EINVAL : Int := 22

/-- Modelled from the spec: the errno constant `EEXIST` is not defined in the
sources at hand, which only name it; it has its usual value. -/
def EEXIST : Int := 17

/-- The first CPU of a mask, `nr_cpu_ids` for an empty mask
(`cpumask_first`). -/
def cpumask_first (env : Env) (span : List Nat) : Nat :=
  match span with
  | [] => env.nr_cpu_ids
  | cpu :: _ => cpu

/-- Unsigned 64-bit division (`div64_u64`). -/
def div64_u64 (dividend divisor : Nat) : Nat := dividend / divisor

/-- An `unsigned int` passed for an `int` parameter. -/
def int_of_unsigned (n : Nat) : Int :=
  if n % 2 ^ 32 < 2 ^ 31 then (n % 2 ^ 32 : Nat) else (n % 2 ^ 32 : Nat) - 2 ^ 32

/-! ## `em_create_pd` -/

/-- The first loop of `em_create_pd` with `n` iterations to go: `freq` and
`prev_freq` are the loop variables, `table` holds the entries written so
far; `none` stands for the exit through `free_cs_table`. -/
def em_build_table (ap : Nat → Nat → ActivePower) (cpu : Nat) :
    Nat → Nat → Nat → List em_cap_state → Option (List em_cap_state)
  | 0, _, _, table => some table
  | n + 1, freq, prev_freq, table =>
    let r := ap freq cpu
    if r.ret ≠ 0 then none
    else if r.freq ≤ prev_freq then none
    else if r.power = 0 ∨ r.power > EM_CPU_MAX_POWER then none
    else
      em_build_table ap cpu n ((r.freq + 1) % 2 ^ 64) r.freq
        (table ++ [{ frequency := r.freq, power := r.power, cost := 0 }])

/-- The second loop of `em_create_pd`: the cost of every capacity state. -/
def em_compute_costs (fmax : Nat) (table : List em_cap_state) : List em_cap_state :=
  table.map fun cs =>
    { cs with cost := div64_u64 ((fmax * cs.power) % 2 ^ 64) cs.frequency }

/-- The function `em_create_pd`; `none` is the `NULL` result.  `kzalloc_ok`
and `kcalloc_ok` tell whether the allocation of the domain and of the table
succeed; a negative `nr_states` makes the size of the table overflow, which
`kcalloc` refuses.  (For `nr_states = 0` the C code reads `table[-1]`; the
model reads a zero entry there.  The only caller passes `nr_states ≥ 1`.) -/
def em_create_pd (env : Env) (span : List Nat) (nr_states : Int) (cb : em_data_callback)
    (kzalloc_ok kcalloc_ok : Bool) : Option em_perf_domain :=
  let cpu := cpumask_first env span
  match cb.active_power with
  | none => none
  | some ap =>
    if !kzalloc_ok then none
    else if !kcalloc_ok || decide (nr_states < 0) then none
    else
      match em_build_table ap cpu nr_states.toNat 0 0 [] with
      | none => none
      | some table =>
        let fmax := (table.getD (nr_states - 1).toNat ⟨0, 0, 0⟩).frequency
        some { table := em_compute_costs fmax table, nr_cap_states := nr_states, cpus := span }

/-! ## `em_cpu_get` and `em_register_perf_domain` -/

/-- The function `em_cpu_get`, on the per-CPU table `em_data`. -/
def em_cpu_get (em_data : Nat → Option em_perf_domain) (cpu : Nat) : Option em_perf_domain :=
  em_data cpu

/-- The first loop of `em_register_perf_domain` over the CPUs still to visit,
with the loop variable `prev_cap`: the value of `ret` it ends with. -/
def em_check_span (env : Env) (em_data : Nat → Option em_perf_domain) :
    List Nat → Nat → Int
  | [], _ => 0
  | cpu :: rest, prev_cap =>
    if (em_data cpu).isSome then -EEXIST
    else
      let cap := env.arch_scale_cpu_capacity cpu
      if prev_cap ≠ 0 ∧ prev_cap ≠ cap then -EINVAL
      else em_check_span env em_data rest cap

/-- The function `em_register_perf_domain`: its return value and the per-CPU
table afterwards. -/
def em_register_perf_domain (env : Env) (em_data : Nat → Option em_perf_domain)
    (span : Option (List Nat)) (nr_states : Nat) (cb : Option em_data_callback)
    (kzalloc_ok kcalloc_ok : Bool) : Int × (Nat → Option em_perf_domain) :=
  match span, cb with
  | some span, some cb =>
    if nr_states = 0 then (-EINVAL, em_data)
    else
      let ret := em_check_span env em_data span 0
      if ret ≠ 0 then (ret, em_data)
      else
        match em_create_pd env span (int_of_unsigned nr_states) cb kzalloc_ok kcalloc_ok with
        | none => (-EINVAL, em_data)
        | some pd => (0, span.foldl (fun d cpu => Function.update d cpu (some pd)) em_data)
  | _, _ => (-EINVAL, em_data)

/-! ## `em_pd_energy` -/

/-- The loop of `em_pd_energy` over the entries still to visit: `cs` is the
entry selected so far. -/
def em_select (freq : Nat) : List em_cap_state → em_cap_state → em_cap_state
  | [], cs => cs
  | c :: rest, _ => if c.frequency ≥ freq then c else em_select freq rest c

/-- The function `em_pd_energy`; `none` stands for the division by a zero
`scale_cpu`. -/
def em_pd_energy (env : Env) (pd : em_perf_domain) (max_util sum_util : Nat) : Option Nat :=
  let cpu := cpumask_first env pd.cpus
  let scale_cpu := env.arch_scale_cpu_capacity cpu
  let cs0 := pd.table.getD (pd.nr_cap_states - 1).toNat ⟨0, 0, 0⟩
  let freq := env.map_util_freq max_util cs0.frequency scale_cpu
  let cs := em_select freq (pd.table.take pd.nr_cap_states.toNat) cs0
  if scale_cpu = 0 then none
  else some ((cs.cost * sum_util) % 2 ^ 64 / scale_cpu)

/-! ## The reports of the callback, state by state -/

/-- The value of `freq` that the callback finds in iteration `i` of the first
loop of `em_create_pd` (when the loop gets that far): 0 at first, then one
more than the frequency reported last. -/
def em_freq_in (ap : Nat → Nat → ActivePower) (cpu : Nat) : Nat → Nat
  | 0 => 0
  | i + 1 => ((ap (em_freq_in ap cpu i) cpu).freq + 1) % 2 ^ 64

/-- What the callback reports for state `i`. -/
def em_report (ap : Nat → Nat → ActivePower) (cpu i : Nat) : ActivePower :=
  ap (em_freq_in ap cpu i) cpu

/-- The value of `prev_freq` in iteration `i`: 0 at first, then the frequency
reported for the previous state. -/
def em_prev_freq (ap : Nat → Nat → ActivePower) (cpu : Nat) : Nat → Nat
  | 0 => 0
  | i + 1 => (em_report ap cpu i).freq

/-- Whether the report for state `i` is rejected: non-zero return value,
frequency not above the previous one, or power 0 or above
`EM_CPU_MAX_POWER`. -/
def em_rejected (ap : Nat → Nat → ActivePower) (cpu i : Nat) : Bool :=
  decide ((em_report ap cpu i).ret ≠ 0) ||
    decide ((em_report ap cpu i).freq ≤ em_prev_freq ap cpu i) ||
    decide ((em_report ap cpu i).power = 0) ||
    decide ((em_report ap cpu i).power > EM_CPU_MAX_POWER)

/-- The table entry for state `i`, before the costs are computed. -/
def em_entry (ap : Nat → Nat → ActivePower) (cpu i : Nat) : em_cap_state :=
  { frequency := (em_report ap cpu i).freq, power := (em_report ap cpu i).power, cost := 0 }

/-! ## Concrete inputs -/

/-- Four CPU ids, every CPU of capacity 1024, and the usual
`map_util_freq`: `(freq + (freq >> 2)) * util / cap`. -/
def example_env : Env :=
  { nr_cpu_ids := 4
    arch_scale_cpu_capacity := fun _ => 1024
    map_util_freq := fun util freq cap => (freq + (freq >>> 2)) * util / cap }

/-- A driver with the three operating points 500 MHz / 100 mW, 1 GHz / 300 mW
and 2 GHz / 900 mW. -/
def example_active_power (freq _cpu : Nat) : ActivePower :=
  if freq ≤ 500000 then { ret := 0, power := 100, freq := 500000 }
  else if freq ≤ 1000000 then { ret := 0, power := 300, freq := 1000000 }
  else if freq ≤ 2000000 then { ret := 0, power := 900, freq := 2000000 }
  else { ret := -22, power := 0, freq := freq }

/-- The callback structure of that driver. -/
def example_cb : em_data_callback := { active_power := some example_active_power }

/-- A driver reporting one operating point of `2 ^ 63` kHz and 2 mW. -/
def example_huge_cb : em_data_callback :=
  { active_power := some fun _ _ => { ret := 0, power := 2, freq := 2 ^ 63 } }

/-- No performance domain registered yet. -/
def example_em_data : Nat → Option em_perf_domain := fun _ => none

/-- The performance domain that `em_create_pd` builds for CPUs 0 and 1 from
the three operating points of `example_active_power`. -/
def example_pd : em_perf_domain :=
  { table := [⟨500000, 100, 400⟩, ⟨1000000, 300, 600⟩, ⟨2000000, 900, 900⟩]
    nr_cap_states := 3
    cpus := [0, 1] }

end EnergyModel

namespace Asid

/-! ## Words: masks, local ids and the staleness test -/

theorem not64_not64 (x : Nat) : not64 (not64 x) = x := by
  unfold not64
  rw [← Nat.xor_assoc, Nat.xor_self, Nat.zero_xor]

theorem GENMASK_low (b : Nat) (h1 : 1 ≤ b) (h2 : b ≤ 64) : GENMASK (b - 1) 0 = 2 ^ b - 1 := by
  apply Nat.eq_of_testBit_eq
  intro i
  have e : not64 0 = 2 ^ 64 - 1 := by simp [not64]
  have e2 : (2 ^ 64 - 1 + 2 ^ 64 - 1 % 2 ^ 64 + 1) % 2 ^ 64 = 2 ^ 64 - 1 := by norm_num
  unfold GENMASK BITS_PER_LONG
  rw [e, Nat.shiftLeft_zero, e2, Nat.testBit_and, Nat.testBit_shiftRight,
    Nat.testBit_two_pow_sub_one, Nat.testBit_two_pow_sub_one, Nat.testBit_two_pow_sub_one]
  by_cases hi : i < b
  · have : i < 64 := by omega
    have : 64 - 1 - (b - 1) + i < 64 := by omega
    simp [*]
  · have : ¬ (64 - 1 - (b - 1) + i < 64) := by omega
    simp [*]

theorem not64_ASID_MASK (b : Nat) (h1 : 1 ≤ b) (h2 : b ≤ 64) :
    not64 (ASID_MASK b) = 2 ^ b - 1 := by
  rw [ASID_MASK, not64_not64, GENMASK_low b h1 h2]

theorem local_id_eq_mod (b x : Nat) (h1 : 1 ≤ b) (h2 : b ≤ 64) :
    local_id b x = x % 2 ^ b := by
  rw [local_id, not64_ASID_MASK b h1 h2, Nat.and_pow_two_sub_one_eq_mod]

theorem and_low_eq_mod (b x : Nat) (h1 : 1 ≤ b) (h2 : b ≤ 64) :
    x &&& not64 (ASID_MASK b) = x % 2 ^ b := local_id_eq_mod b x h1 h2

theorem ASID_MASK_eq (b : Nat) (h1 : 1 ≤ b) (h2 : b ≤ 64) :
    ASID_MASK b = 2 ^ 64 - 2 ^ b := by
  have hle : 2 ^ b ≤ 2 ^ 64 := Nat.pow_le_pow_right (by norm_num) h2
  rw [ASID_MASK, GENMASK_low b h1 h2]
  apply Nat.eq_of_testBit_eq
  intro i
  have e : 2 ^ 64 - 2 ^ b = 2 ^ b * (2 ^ (64 - b) - 1) := by
    rw [Nat.mul_sub, ← pow_add, mul_one]
    congr 2
    omega
  rw [e, Nat.testBit_mul_pow_two, not64, Nat.testBit_xor, Nat.testBit_two_pow_sub_one,
    Nat.testBit_two_pow_sub_one, Nat.testBit_two_pow_sub_one]
  by_cases hi : i < b
  · have : i < 64 := by omega
    have : ¬ i ≥ b := by omega
    simp [*]
  · have hge : i ≥ b := by omega
    by_cases h64 : i < 64
    · have : i - b < 64 - b := by omega
      simp [*]
    · have : ¬ (i - b < 64 - b) := by omega
      simp [*]

theorem and_ASID_MASK (b x : Nat) (h1 : 1 ≤ b) (h2 : b ≤ 64) (hx : x < 2 ^ 64) :
    x &&& ASID_MASK b = x / 2 ^ b * 2 ^ b := by
  have e : 2 ^ 64 - 2 ^ b = 2 ^ b * (2 ^ (64 - b) - 1) := by
    rw [Nat.mul_sub, ← pow_add, mul_one]
    congr 2
    omega
  rw [ASID_MASK_eq b h1 h2, e, Nat.mul_comm (x / 2 ^ b)]
  apply Nat.eq_of_testBit_eq
  intro i
  rw [Nat.testBit_and, Nat.testBit_mul_pow_two, Nat.testBit_mul_pow_two,
    Nat.testBit_two_pow_sub_one, ← Nat.shiftRight_eq_div_pow, Nat.testBit_shiftRight]
  by_cases hi : i ≥ b
  · have e3 : b + (i - b) = i := by omega
    rw [e3]
    by_cases h64 : i < 64
    · have : i - b < 64 - b := by omega
      simp [*]
    · have : x.testBit i = false :=
        Nat.testBit_lt_two_pow (lt_of_lt_of_le hx (Nat.pow_le_pow_right (by norm_num) (by omega)))
      simp [*]
  · simp [hi]

theorem is_stale_eq_false_iff (b x g : Nat) :
    is_stale b x g = false ↔ x / 2 ^ b = g / 2 ^ b := by
  unfold is_stale
  rw [Nat.shiftRight_eq_div_pow]
  constructor
  · intro h
    have h0 : (x ^^^ g) / 2 ^ b = 0 := by simpa using h
    apply Nat.eq_of_testBit_eq
    intro i
    have := congrArg (fun n => Nat.testBit n i) h0
    simp only [← Nat.shiftRight_eq_div_pow, Nat.testBit_shiftRight, Nat.testBit_xor,
      Nat.zero_testBit] at this ⊢
    revert this
    cases x.testBit (b + i) <;> cases g.testBit (b + i) <;> simp
  · intro h
    have : (x ^^^ g) / 2 ^ b = 0 := by
      apply Nat.eq_of_testBit_eq
      intro i
      have := congrArg (fun n => Nat.testBit n i) h
      simp only [← Nat.shiftRight_eq_div_pow, Nat.testBit_shiftRight, Nat.testBit_xor,
        Nat.zero_testBit] at this ⊢
      rw [this]; simp
    simp [this]

theorem is_stale_eq_true_iff (b x g : Nat) :
    is_stale b x g = true ↔ x / 2 ^ b ≠ g / 2 ^ b := by
  rw [Ne, ← is_stale_eq_false_iff]; cases is_stale b x g <;> simp

theorem or_low_eq_add (b g l : Nat) (hg : 2 ^ b ∣ g) (hl : l < 2 ^ b) : g ||| l = g + l := by
  obtain ⟨k, rfl⟩ := hg
  exact (Nat.mul_add_lt_is_or hl k).symm

theorem ASID_FIRST_VERSION_eq (b : Nat) (h : b < 64) : ASID_FIRST_VERSION b = 2 ^ b := by
  unfold ASID_FIRST_VERSION
  rw [Nat.shiftLeft_eq, one_mul]
  exact Nat.mod_eq_of_lt (Nat.pow_lt_pow_right (by norm_num) h)

theorem NUM_USER_ASIDS_eq (cfg : Config) (b : Nat) (h1 : 1 ≤ b) (h : b < 64) :
    NUM_USER_ASIDS cfg b = if cfg.kpti then 2 ^ (b - 1) else 2 ^ b := by
  unfold NUM_USER_ASIDS
  rw [ASID_FIRST_VERSION_eq b h, Nat.shiftRight_eq_div_pow]
  obtain ⟨k, rfl⟩ : ∃ k, b = k + 1 := ⟨b - 1, by omega⟩
  simp [pow_succ]

theorem NUM_USER_ASIDS_pos (cfg : Config) (b : Nat) (h1 : 1 ≤ b) (h : b < 64) :
    0 < NUM_USER_ASIDS cfg b := by
  rw [NUM_USER_ASIDS_eq cfg b h1 h]
  split <;> exact Nat.pow_pos (by norm_num)

theorem NUM_USER_ASIDS_le (cfg : Config) (b : Nat) (h1 : 1 ≤ b) (h : b < 64) :
    NUM_USER_ASIDS cfg b ≤ 2 ^ b := by
  rw [NUM_USER_ASIDS_eq cfg b h1 h]
  split
  · exact Nat.pow_le_pow_right (by norm_num) (by omega)
  · exact le_rfl

theorem asid2idx_eq (cfg : Config) (b x : Nat) (h1 : 1 ≤ b) (h2 : b ≤ 64) :
    asid2idx cfg b x = if cfg.kpti then x % 2 ^ b / 2 else x % 2 ^ b := by
  unfold asid2idx
  rw [and_low_eq_mod b x h1 h2, Nat.shiftRight_eq_div_pow, pow_one]

theorem idx2asid_eq (cfg : Config) (b i : Nat) (h1 : 1 ≤ b) (h2 : b ≤ 64) :
    idx2asid cfg b i = if cfg.kpti then 2 * i % 2 ^ b else i % 2 ^ b := by
  unfold idx2asid
  rw [asid2idx_eq cfg b i h1 h2, and_low_eq_mod b _ h1 h2, Nat.shiftLeft_eq, pow_one,
    Nat.mod_mod_of_dvd _ (Nat.pow_dvd_pow 2 h2), Nat.mul_comm]
  split <;> simp_all

theorem asid2idx_of_local_id (cfg : Config) (b x : Nat) :
    asid2idx cfg b x = if cfg.kpti then local_id b x >>> 1 else local_id b x := rfl

theorem asid2idx_lt (cfg : Config) (b x : Nat) (h1 : 1 ≤ b) (h : b < 64) :
    asid2idx cfg b x < NUM_USER_ASIDS cfg b := by
  rw [asid2idx_eq cfg b x h1 (by omega), NUM_USER_ASIDS_eq cfg b h1 h]
  have hx : x % 2 ^ b < 2 ^ b := Nat.mod_lt _ (Nat.pow_pos (by norm_num))
  split
  · obtain ⟨k, rfl⟩ : ∃ k, b = k + 1 := ⟨b - 1, by omega⟩
    rw [pow_succ] at hx
    simp only [Nat.add_sub_cancel]
    omega
  · exact hx

theorem idx2asid_lt (cfg : Config) (b i : Nat) (h1 : 1 ≤ b) (h2 : b ≤ 64) :
    idx2asid cfg b i < 2 ^ b := by
  rw [idx2asid_eq cfg b i h1 h2]
  split <;> exact Nat.mod_lt _ (Nat.pow_pos (by norm_num))

theorem asid2idx_idx2asid (cfg : Config) (b i : Nat) (h1 : 1 ≤ b) (h : b < 64)
    (hi : i < NUM_USER_ASIDS cfg b) : asid2idx cfg b (idx2asid cfg b i) = i := by
  rw [asid2idx_eq cfg b _ h1 (by omega), idx2asid_eq cfg b i h1 (by omega)]
  rw [NUM_USER_ASIDS_eq cfg b h1 h] at hi
  split
  · rename_i hk
    simp only [hk, if_true] at hi
    obtain ⟨k, rfl⟩ : ∃ k, b = k + 1 := ⟨b - 1, by omega⟩
    simp only [Nat.add_sub_cancel] at hi
    have : 2 * i < 2 ^ (k + 1) := by rw [pow_succ]; omega
    rw [Nat.mod_mod, Nat.mod_eq_of_lt this]
    omega
  · rename_i hk
    simp only [hk] at hi
    rw [Nat.mod_mod, Nat.mod_eq_of_lt (by simpa using hi)]

/-- The local id of `low | generation` is `low` when the generation carries
no local-id bits. -/
theorem local_id_or (b g l : Nat) (h1 : 1 ≤ b) (h2 : b ≤ 64) (hg : 2 ^ b ∣ g)
    (hl : l < 2 ^ b) : local_id b (l ||| g) = l := by
  rw [local_id_eq_mod b _ h1 h2, Nat.lor_comm, or_low_eq_add b g l hg hl]
  obtain ⟨k, rfl⟩ := hg
  rw [Nat.mul_add_mod, Nat.mod_eq_of_lt hl]

theorem or_low_not_stale (b g l : Nat) (hl : l < 2 ^ b) : is_stale b (g ||| l) g = false := by
  unfold is_stale
  have : ((g ||| l) ^^^ g) >>> b = 0 := by
    apply Nat.eq_of_testBit_eq
    intro i
    have hl2 : l.testBit (b + i) = false :=
      Nat.testBit_lt_two_pow (lt_of_lt_of_le hl (Nat.pow_le_pow_right (by norm_num) (by omega)))
    rw [Nat.testBit_shiftRight, Nat.testBit_xor, Nat.testBit_or, hl2]
    simp
  simp [this]

/-! ## The loops in closed form -/

theorem flush_loop_eq (cfg : Config) (s : State) (n : Nat) :
    (List.range n).foldl (flush_context_cpu cfg) s = flush_loop_result cfg s n := by
  induction n with
  | zero =>
    apply State.ext <;> simp [flush_loop_result]
  | succ n ih =>
    rw [List.range_succ, List.foldl_append, ih]
    simp only [List.foldl_cons, List.foldl_nil]
    apply State.ext
    · rfl
    · rfl
    · funext b
      simp only [flush_context_cpu, flush_loop_result, atomic64_xchg, __set_bit, kept_asid,
        lt_irrefl, if_false, Function.update_apply]
      by_cases hb : b = asid2idx cfg s.asid_bits
          (if s.active_asids n = 0 then s.reserved_asids n else s.active_asids n)
      · rw [if_pos hb]
        have : ∃ i, i < n + 1 ∧ asid2idx cfg s.asid_bits
            (if s.active_asids i = 0 then s.reserved_asids i else s.active_asids i) = b :=
          ⟨n, Nat.lt_succ_self n, hb.symm⟩
        simp [this]
      · rw [if_neg hb]
        congr 1
        apply decide_eq_decide.mpr
        constructor
        · rintro ⟨i, hi, e⟩
          exact ⟨i, Nat.lt_succ_of_lt hi, e⟩
        · rintro ⟨i, hi, e⟩
          rcases Nat.lt_succ_iff_lt_or_eq.mp hi with h | h
          · exact ⟨i, h, e⟩
          · subst h; exact absurd e.symm hb
    · funext c
      simp only [flush_context_cpu, flush_loop_result, atomic64_xchg, Function.update_apply]
      by_cases hc : c = n
      · subst hc; simp
      · by_cases h2 : c < n
        · have : c < n + 1 := by omega
          simp [hc, h2, this]
        · have : ¬ c < n + 1 := by omega
          simp [hc, h2, this]
    · funext c
      simp only [flush_context_cpu, flush_loop_result, atomic64_xchg, kept_asid,
        Function.update_apply, lt_irrefl, if_false]
      by_cases hc : c = n
      · subst hc; simp
      · by_cases h2 : c < n
        · have : c < n + 1 := by omega
          simp [hc, h2, this]
        · have : ¬ c < n + 1 := by omega
          simp [hc, h2, this]
    · rfl
    · rfl
    · rfl
    · rfl

/-- The function `flush_context` without its loop. -/
theorem flush_context_eq (cfg : Config) (s : State) :
    flush_context cfg s =
      { s with
        active_asids := fun c => if c < cfg.ncpus then 0 else s.active_asids c
        reserved_asids := fun c => if c < cfg.ncpus then kept_asid s c else s.reserved_asids c
        asid_map := fun b =>
          bitmap_clear s.asid_map 0 (NUM_USER_ASIDS cfg s.asid_bits) b ||
            decide (∃ i, i < cfg.ncpus ∧ asid2idx cfg s.asid_bits (kept_asid s i) = b)
        tlb_flush_pending := fun _ => true } := by
  unfold flush_context
  simp only [flush_loop_eq]
  rfl

theorem check_update_loop_eq (s : State) (asid newasid n : Nat) :
    (List.range n).foldl (check_update_reserved_asid_cpu asid newasid) (false, s) =
      check_update_loop_result s asid newasid n := by
  induction n with
  | zero =>
    simp only [List.range_zero, List.foldl_nil, check_update_loop_result]
    refine Prod.ext (by simp) ?_
    apply State.ext <;> simp
  | succ n ih =>
    rw [List.range_succ, List.foldl_append, ih]
    simp only [List.foldl_cons, List.foldl_nil, check_update_reserved_asid_cpu,
      check_update_loop_result, lt_irrefl, false_and, if_false]
    by_cases h : s.reserved_asids n = asid
    · rw [if_pos h]
      refine Prod.ext ?_ ?_
      · have : ∃ c, c < n + 1 ∧ s.reserved_asids c = asid := ⟨n, Nat.lt_succ_self n, h⟩
        simp [this]
      · apply State.ext <;> try rfl
        funext c
        simp only [Function.update_apply]
        by_cases hc : c = n
        · subst hc; simp [h]
        · by_cases h2 : c < n
          · have : c < n + 1 := by omega
            simp [hc, h2, this]
          · have : ¬ c < n + 1 := by omega
            simp [hc, h2, this]
    · rw [if_neg h]
      refine Prod.ext ?_ ?_
      · apply decide_eq_decide.mpr
        constructor
        · rintro ⟨i, hi, e⟩
          exact ⟨i, Nat.lt_succ_of_lt hi, e⟩
        · rintro ⟨i, hi, e⟩
          rcases Nat.lt_succ_iff_lt_or_eq.mp hi with h3 | h3
          · exact ⟨i, h3, e⟩
          · subst h3; exact absurd e h
      · apply State.ext <;> try rfl
        funext c
        by_cases hc : c = n
        · subst hc; simp [h]
        · by_cases h2 : c < n
          · have : c < n + 1 := by omega
            simp [hc, h2, this]
          · have : ¬ c < n + 1 := by omega
            simp [hc, h2, this]

/-- The function `check_update_reserved_asid` without its loop. -/
theorem check_update_reserved_asid_eq (cfg : Config) (s : State) (asid newasid : Nat) :
    check_update_reserved_asid cfg s asid newasid =
      (decide (∃ c, c < cfg.ncpus ∧ s.reserved_asids c = asid),
       { s with
         reserved_asids := fun c =>
           if c < cfg.ncpus ∧ s.reserved_asids c = asid then newasid
           else s.reserved_asids c }) := by
  unfold check_update_reserved_asid
  rw [check_update_loop_eq]
  rfl

/-! ## The bitmap scan -/

theorem find_range'_spec (p : Nat → Bool) (n : Nat) : ∀ off : Nat,
    match (List.range' off n).find? p with
    | some i => off ≤ i ∧ i < off + n ∧ p i = true ∧ ∀ j, off ≤ j → j < i → p j = false
    | none => ∀ j, off ≤ j → j < off + n → p j = false := by
  induction n with
  | zero =>
    intro off
    simp only [List.range'_zero, List.find?_nil]
    intro j h1 h2
    omega
  | succ n ih =>
    intro off
    rw [List.range'_succ, List.find?_cons]
    cases hp : p off with
    | true =>
      simp only
      exact ⟨le_rfl, by omega, hp, fun j h1 h2 => by omega⟩
    | false =>
      simp only
      have := ih (off + 1)
      cases hf : (List.range' (off + 1) n).find? p with
      | none =>
        rw [hf] at this
        simp only at this ⊢
        intro j h1 h2
        rcases Nat.eq_or_lt_of_le h1 with e | l
        · rw [← e]; exact hp
        · exact this j l (by omega)
      | some i =>
        rw [hf] at this
        simp only at this ⊢
        obtain ⟨a, b, c, d⟩ := this
        refine ⟨by omega, by omega, c, ?_⟩
        intro j h1 h2
        rcases Nat.eq_or_lt_of_le h1 with e | l
        · rw [← e]; exact hp
        · exact d j l h2

/-- What `find_next_zero_bit` returns: at most `size`; below `size` only a
clear bit at or after `offset`; and every bit from `offset` up to the result
is set. -/
theorem find_next_zero_bit_spec (map : Nat → Bool) (size off : Nat) :
    find_next_zero_bit map size off ≤ size ∧
    (find_next_zero_bit map size off < size →
      off ≤ find_next_zero_bit map size off ∧
        map (find_next_zero_bit map size off) = false) ∧
    (∀ j, off ≤ j → j < find_next_zero_bit map size off → map j = true) := by
  unfold find_next_zero_bit
  have := find_range'_spec (fun i => !map i) (size - off) off
  cases hf : (List.range' off (size - off)).find? (fun i => !map i) with
  | none =>
    rw [hf] at this
    simp only at this ⊢
    refine ⟨le_rfl, fun h => absurd h (lt_irrefl _), ?_⟩
    intro j h1 h2
    have := this j h1 (by omega)
    simpa using this
  | some i =>
    rw [hf] at this
    simp only at this ⊢
    obtain ⟨a, b, c, d⟩ := this
    refine ⟨by omega, fun _ => ⟨a, by simpa using c⟩, ?_⟩
    intro j h1 h2
    have := d j h1 h2
    simpa using this

theorem find_next_zero_bit_lt_of_clear (map : Nat → Bool) (size off i : Nat)
    (h1 : off ≤ i) (h2 : i < size) (h3 : map i = false) :
    find_next_zero_bit map size off < size := by
  obtain ⟨a, _, c⟩ := find_next_zero_bit_spec map size off
  rcases Nat.eq_or_lt_of_le a with e | l
  · have := c i h1 (by omega)
    rw [h3] at this
    exact absurd this (by simp)
  · exact l

/-! ## The exits of `new_context` -/

/-- The rollover without its loop. -/
theorem rollover_eq (cfg : Config) (s : State) :
    rollover cfg s =
      { s with
        asid_generation := (s.asid_generation + ASID_FIRST_VERSION s.asid_bits) % 2 ^ 64
        active_asids := fun c => if c < cfg.ncpus then 0 else s.active_asids c
        reserved_asids := fun c => if c < cfg.ncpus then kept_asid s c else s.reserved_asids c
        asid_map := fun b =>
          bitmap_clear s.asid_map 0 (NUM_USER_ASIDS cfg s.asid_bits) b ||
            decide (∃ i, i < cfg.ncpus ∧ asid2idx cfg s.asid_bits (kept_asid s i) = b)
        tlb_flush_pending := fun _ => true } := by
  unfold rollover
  rw [flush_context_eq]
  rfl

theorem rollover_generation (cfg : Config) (s : State) :
    (rollover cfg s).asid_generation =
      (s.asid_generation + ASID_FIRST_VERSION s.asid_bits) % 2 ^ 64 ∧
    (rollover cfg s).asid_bits = s.asid_bits := by
  rw [rollover_eq]
  exact ⟨rfl, rfl⟩

theorem check_update_miss (cfg : Config) (s : State) (asid newasid : Nat)
    (h : (check_update_reserved_asid cfg s asid newasid).1 = false) :
    (check_update_reserved_asid cfg s asid newasid).2 = s := by
  rw [check_update_reserved_asid_eq] at h ⊢
  simp only [decide_eq_false_iff_not, not_exists, not_and] at h
  apply State.ext <;> try rfl
  funext c
  simp only
  rw [if_neg]
  rintro ⟨h1, h2⟩
  exact h c h1 h2

/-- First exit of `new_context`: some CPU holds the old identifier as its
reserved one. -/
theorem new_context_of_hit (cfg : Config) (s : State) (mm : Nat)
    (h0 : s.context_id mm ≠ 0)
    (hit : ∃ c, c < cfg.ncpus ∧ s.reserved_asids c = s.context_id mm) :
    new_context cfg s mm =
      (s.asid_generation ||| (s.context_id mm &&& not64 (ASID_MASK s.asid_bits)),
       { s with
         reserved_asids := fun c =>
           if c < cfg.ncpus ∧ s.reserved_asids c = s.context_id mm then
             s.asid_generation ||| (s.context_id mm &&& not64 (ASID_MASK s.asid_bits))
           else s.reserved_asids c }) := by
  unfold new_context
  simp only [h0, ne_eq, not_false_eq_true, if_true, check_update_reserved_asid_eq,
    decide_eq_true hit]

/-- Second exit of `new_context`: no CPU has the old identifier reserved and
its bit is clear. -/
theorem new_context_of_clear (cfg : Config) (s : State) (mm : Nat)
    (h0 : s.context_id mm ≠ 0)
    (miss : ¬ ∃ c, c < cfg.ncpus ∧ s.reserved_asids c = s.context_id mm)
    (hclear : s.asid_map (asid2idx cfg s.asid_bits (s.context_id mm)) = false) :
    new_context cfg s mm =
      (s.asid_generation ||| (s.context_id mm &&& not64 (ASID_MASK s.asid_bits)),
       { s with
         asid_map := __set_bit (asid2idx cfg s.asid_bits (s.context_id mm)) s.asid_map }) := by
  have hm : (check_update_reserved_asid cfg s (s.context_id mm)
      (s.asid_generation ||| (s.context_id mm &&& not64 (ASID_MASK s.asid_bits)))).1 = false := by
    rw [check_update_reserved_asid_eq]
    exact decide_eq_false miss
  unfold new_context
  simp only [h0, ne_eq, not_false_eq_true, if_true, hm, check_update_miss cfg s _ _ hm,
    __test_and_set_bit, hclear, Bool.not_false, Bool.false_eq_true, if_false]
  rfl

/-- Third exit of `new_context`: the scan, reached when neither reuse exit
applies. -/
theorem new_context_of_scan (cfg : Config) (s : State) (mm : Nat)
    (h : new_context_reuses cfg s mm = false) :
    new_context cfg s mm = new_context_scan cfg s := by
  unfold new_context_reuses at h
  unfold new_context
  by_cases h0 : s.context_id mm = 0
  · simp [h0]
  · simp only [h0, ne_eq, not_false_eq_true, decide_True, Bool.true_and, Bool.or_eq_false_iff,
      Bool.not_eq_false'] at h
    obtain ⟨hm, hset⟩ := h
    simp only [h0, ne_eq, not_false_eq_true, if_true, hm, check_update_miss cfg s _ _ hm,
      __test_and_set_bit, hset, Bool.not_true, Bool.false_eq_true, if_false]
    congr 1
    apply State.ext <;> try rfl
    funext b
    simp only [Function.update_apply]
    split
    · rename_i e; rw [e, hset]
    · rfl

theorem new_context_scan_of_found (cfg : Config) (s : State)
    (h : scan_rolls_over cfg s = false) :
    new_context_scan cfg s =
      set_asid cfg s
        (find_next_zero_bit s.asid_map (NUM_USER_ASIDS cfg s.asid_bits) s.cur_idx)
        s.asid_generation := by
  unfold scan_rolls_over at h
  unfold new_context_scan
  simp only [beq_eq_false_iff_ne, ne_eq] at h
  simp only [ne_eq, h, not_false_eq_true, if_true]

theorem new_context_scan_of_full (cfg : Config) (s : State)
    (h : scan_rolls_over cfg s = true) :
    new_context_scan cfg s =
      set_asid cfg (rollover cfg s)
        (find_next_zero_bit (rollover cfg s).asid_map
          (NUM_USER_ASIDS cfg (rollover cfg s).asid_bits) 1)
        (rollover cfg s).asid_generation := by
  unfold scan_rolls_over at h
  unfold new_context_scan
  simp only [beq_iff_eq] at h
  simp only [ne_eq, h, not_true_eq_false, if_false]

/-! ## The invariant is kept by every operation -/

theorem Inv_of_frame (cfg : Config) (s t : State) (h : Inv cfg s)
    (e1 : t.asid_bits = s.asid_bits) (e2 : t.asid_generation = s.asid_generation)
    (e3 : ∀ x, s.asid_map x = true → t.asid_map x = true) (e4 : t.cur_idx = s.cur_idx)
    (e5 : t.reserved_asids = s.reserved_asids) (e6 : t.active_asids = s.active_asids) :
    Inv cfg t := by
  refine ⟨?_, ?_, ?_, ?_, ?_, ?_, ?_⟩
  · rw [e1]; exact h.bits_lo
  · rw [e1]; exact h.bits_hi
  · rw [e1, e2]; exact h.gen_dvd
  · rw [e2]; exact h.gen_lt
  · rw [e4]; exact h.cur_pos
  · intro c hc
    rw [e1, e5]
    rcases h.reserved_marked c hc with a | a
    · exact Or.inl a
    · exact Or.inr (e3 _ a)
  · intro c hc
    rw [e1, e2, e6]
    exact h.active_current c hc

theorem two_pow_bits_dvd (b : Nat) (h : b ≤ 64) : 2 ^ b ∣ 2 ^ 64 :=
  Nat.pow_dvd_pow 2 h

theorem rollover_Inv (cfg : Config) (s : State) (h : Inv cfg s) : Inv cfg (rollover cfg s) := by
  rw [rollover_eq]
  have hb := h.bits_hi
  refine ⟨h.bits_lo, h.bits_hi, ?_, ?_, h.cur_pos, ?_, ?_⟩
  · show 2 ^ s.asid_bits ∣ (s.asid_generation + ASID_FIRST_VERSION s.asid_bits) % 2 ^ 64
    rw [ASID_FIRST_VERSION_eq _ (by omega)]
    exact (Nat.dvd_mod_iff (two_pow_bits_dvd _ (by omega))).mpr
      (Nat.dvd_add h.gen_dvd (dvd_refl _))
  · exact Nat.mod_lt _ (by norm_num)
  · intro c hc
    right
    simp only [hc, if_true, Bool.or_eq_true, decide_eq_true_eq]
    exact Or.inr ⟨c, hc, rfl⟩
  · intro c hc
    left
    simp only [hc, if_true]

theorem set_asid_Inv (cfg : Config) (s : State) (i g : Nat) (h : Inv cfg s)
    (hi : 1 ≤ i % 2 ^ 32) : Inv cfg (set_asid cfg s i g).2 := by
  unfold set_asid __set_bit
  refine ⟨h.bits_lo, h.bits_hi, h.gen_dvd, h.gen_lt, hi, ?_, h.active_current⟩
  intro c hc
  rcases h.reserved_marked c hc with a | a
  · exact Or.inl a
  · right
    simp only [Function.update_apply]
    split
    · rfl
    · exact a

theorem NUM_USER_ASIDS_lt_u32 (cfg : Config) (b : Nat) (h1 : 1 ≤ b) (h : b < 32) :
    NUM_USER_ASIDS cfg b < 2 ^ 32 :=
  lt_of_le_of_lt (NUM_USER_ASIDS_le cfg b h1 (by omega))
    (Nat.pow_lt_pow_right (by norm_num) h)

theorem new_context_scan_Inv (cfg : Config) (s : State) (h : Inv cfg s) :
    Inv cfg (new_context_scan cfg s).2 := by
  cases hr : scan_rolls_over cfg s with
  | false =>
    rw [new_context_scan_of_found cfg s hr]
    apply set_asid_Inv cfg s _ _ h
    unfold scan_rolls_over at hr
    simp only [beq_eq_false_iff_ne, ne_eq] at hr
    obtain ⟨a, b, _⟩ := find_next_zero_bit_spec s.asid_map (NUM_USER_ASIDS cfg s.asid_bits) s.cur_idx
    have hlt := lt_of_le_of_ne a hr
    have := NUM_USER_ASIDS_lt_u32 cfg s.asid_bits h.bits_lo h.bits_hi
    have := (b hlt).1
    have := h.cur_pos
    rw [Nat.mod_eq_of_lt (by omega)]
    omega
  | true =>
    rw [new_context_scan_of_full cfg s hr]
    have h1 := rollover_Inv cfg s h
    apply set_asid_Inv cfg _ _ _ h1
    obtain ⟨a, b, _⟩ := find_next_zero_bit_spec (rollover cfg s).asid_map
      (NUM_USER_ASIDS cfg (rollover cfg s).asid_bits) 1
    have := NUM_USER_ASIDS_lt_u32 cfg _ h1.bits_lo h1.bits_hi
    have hp := NUM_USER_ASIDS_pos cfg _ h1.bits_lo (lt_trans h1.bits_hi (by norm_num))
    rw [Nat.mod_eq_of_lt (by omega)]
    rcases Nat.eq_or_lt_of_le a with e | l
    · omega
    · exact (b l).1

theorem local_id_newasid (b g a : Nat) (h1 : 1 ≤ b) (h2 : b ≤ 64) (hg : 2 ^ b ∣ g) :
    local_id b (g ||| (a &&& not64 (ASID_MASK b))) = local_id b a := by
  have hl : a &&& not64 (ASID_MASK b) < 2 ^ b := by
    rw [and_low_eq_mod b a h1 h2]
    exact Nat.mod_lt _ (Nat.pow_pos (by norm_num))
  rw [Nat.lor_comm, local_id_or b g _ h1 h2 hg hl]
  rfl

theorem asid2idx_newasid (cfg : Config) (b g a : Nat) (h1 : 1 ≤ b) (h2 : b ≤ 64)
    (hg : 2 ^ b ∣ g) :
    asid2idx cfg b (g ||| (a &&& not64 (ASID_MASK b))) = asid2idx cfg b a := by
  rw [asid2idx_of_local_id, asid2idx_of_local_id, local_id_newasid b g a h1 h2 hg]

theorem new_context_Inv (cfg : Config) (s : State) (mm : Nat) (h : Inv cfg s) :
    Inv cfg (new_context cfg s mm).2 := by
  cases hr : new_context_reuses cfg s mm with
  | false =>
    rw [new_context_of_scan cfg s mm hr]
    exact new_context_scan_Inv cfg s h
  | true =>
    unfold new_context_reuses at hr
    simp only [Bool.and_eq_true, decide_eq_true_eq, Bool.or_eq_true, Bool.not_eq_true',
      check_update_reserved_asid_eq] at hr
    obtain ⟨h0, hr⟩ := hr
    by_cases hit : ∃ c, c < cfg.ncpus ∧ s.reserved_asids c = s.context_id mm
    · rw [new_context_of_hit cfg s mm h0 hit]
      refine ⟨h.bits_lo, h.bits_hi, h.gen_dvd, h.gen_lt, h.cur_pos, ?_, h.active_current⟩
      intro c hc
      simp only
      by_cases hm : c < cfg.ncpus ∧ s.reserved_asids c = s.context_id mm
      · rw [if_pos hm, asid2idx_newasid cfg _ _ _ h.bits_lo
          (le_of_lt (lt_trans h.bits_hi (by norm_num))) h.gen_dvd, ← hm.2]
        exact h.reserved_marked c hc
      · rw [if_neg hm]
        exact h.reserved_marked c hc
    · have hclear : s.asid_map (asid2idx cfg s.asid_bits (s.context_id mm)) = false := by
        rcases hr with a | a
        · exact absurd a hit
        · exact a
      rw [new_context_of_clear cfg s mm h0 hit hclear]
      refine Inv_of_frame cfg s _ h rfl rfl ?_ rfl rfl rfl
      intro x hx
      simp only [__set_bit, Function.update_apply]
      split
      · rfl
      · exact hx

/-- The identifier that `new_context` returns is of the generation that is
current when it returns. -/
theorem new_context_not_stale (cfg : Config) (s : State) (mm : Nat) (h : Inv cfg s) :
    is_stale (new_context cfg s mm).2.asid_bits (new_context cfg s mm).1
      (new_context cfg s mm).2.asid_generation = false := by
  have h64 : s.asid_bits ≤ 64 := le_of_lt (lt_trans h.bits_hi (by norm_num))
  have hnew : is_stale s.asid_bits
      (s.asid_generation ||| (s.context_id mm &&& not64 (ASID_MASK s.asid_bits)))
      s.asid_generation = false := by
    apply or_low_not_stale
    rw [and_low_eq_mod _ _ h.bits_lo h64]
    exact Nat.mod_lt _ (Nat.pow_pos (by norm_num))
  cases hr : new_context_reuses cfg s mm with
  | false =>
    rw [new_context_of_scan cfg s mm hr]
    cases hf : scan_rolls_over cfg s with
    | false =>
      rw [new_context_scan_of_found cfg s hf]
      simp only [set_asid]
      rw [Nat.lor_comm]
      exact or_low_not_stale _ _ _ (idx2asid_lt cfg _ _ h.bits_lo h64)
    | true =>
      rw [new_context_scan_of_full cfg s hf]
      have h1 := rollover_Inv cfg s h
      simp only [set_asid]
      rw [Nat.lor_comm]
      exact or_low_not_stale _ _ _ (idx2asid_lt cfg _ _ h1.bits_lo
        (le_of_lt (lt_trans h1.bits_hi (by norm_num))))
  | true =>
    unfold new_context_reuses at hr
    simp only [Bool.and_eq_true, decide_eq_true_eq, Bool.or_eq_true, Bool.not_eq_true',
      check_update_reserved_asid_eq] at hr
    obtain ⟨h0, hr⟩ := hr
    by_cases hit : ∃ c, c < cfg.ncpus ∧ s.reserved_asids c = s.context_id mm
    · rw [new_context_of_hit cfg s mm h0 hit]
      exact hnew
    · have hclear : s.asid_map (asid2idx cfg s.asid_bits (s.context_id mm)) = false := by
        rcases hr with a | a
        · exact absurd a hit
        · exact a
      rw [new_context_of_clear cfg s mm h0 hit hclear]
      exact hnew

/-! ## The context switch -/

/-- The lock-free exit of `check_and_switch_context`. -/
theorem check_and_switch_context_fast (cfg : Config) (s : State) (mm cpu : Nat)
    (h : takes_fastpath s mm cpu = true) :
    check_and_switch_context cfg s mm cpu =
      { s with active_asids := Function.update s.active_asids cpu (s.context_id mm) } := by
  unfold takes_fastpath at h
  simp only [Bool.and_eq_true, decide_eq_true_eq, Bool.not_eq_true'] at h
  unfold check_and_switch_context atomic64_cmpxchg
  simp only [h.1, h.2, ne_eq, not_false_eq_true, and_self, if_true]

/-- The locked exit of `check_and_switch_context`. -/
theorem check_and_switch_context_slow (cfg : Config) (s : State) (mm cpu : Nat)
    (h : takes_fastpath s mm cpu = false) :
    check_and_switch_context cfg s mm cpu = switch_mm_slowpath cfg s mm cpu := by
  unfold takes_fastpath at h
  unfold check_and_switch_context
  rw [if_neg]
  intro hc
  simp [hc.1, hc.2] at h

theorem new_context_asid_bits (cfg : Config) (s : State) (mm : Nat) :
    (new_context cfg s mm).2.asid_bits = s.asid_bits := by
  unfold new_context new_context_scan set_asid
  simp only [check_update_reserved_asid_eq, rollover_eq]
  repeat' split
  all_goals rfl

theorem new_context_context_id (cfg : Config) (s : State) (mm : Nat) :
    (new_context cfg s mm).2.context_id = s.context_id := by
  unfold new_context new_context_scan set_asid
  simp only [check_update_reserved_asid_eq, rollover_eq]
  repeat' split
  all_goals rfl

theorem flush_if_pending_frame (s : State) (cpu : Nat) :
    (flush_if_pending s cpu).asid_bits = s.asid_bits ∧
    (flush_if_pending s cpu).asid_generation = s.asid_generation ∧
    (flush_if_pending s cpu).asid_map = s.asid_map ∧
    (flush_if_pending s cpu).active_asids = s.active_asids ∧
    (flush_if_pending s cpu).reserved_asids = s.reserved_asids ∧
    (flush_if_pending s cpu).cur_idx = s.cur_idx ∧
    (flush_if_pending s cpu).context_id = s.context_id := by
  unfold flush_if_pending
  split <;> exact ⟨rfl, rfl, rfl, rfl, rfl, rfl, rfl⟩

theorem renew_context_of_stale (cfg : Config) (s : State) (mm : Nat)
    (h : is_stale s.asid_bits (s.context_id mm) s.asid_generation = true) :
    renew_context cfg s mm =
      ((new_context cfg s mm).1,
       { (new_context cfg s mm).2 with
         context_id :=
           Function.update (new_context cfg s mm).2.context_id mm (new_context cfg s mm).1 }) := by
  unfold renew_context
  simp only [h, if_true]

theorem renew_context_of_current (cfg : Config) (s : State) (mm : Nat)
    (h : is_stale s.asid_bits (s.context_id mm) s.asid_generation = false) :
    renew_context cfg s mm = (s.context_id mm, s) := by
  unfold renew_context
  simp only [h, Bool.false_eq_true, if_false]

theorem renew_context_Inv (cfg : Config) (s : State) (mm : Nat) (h : Inv cfg s) :
    Inv cfg (renew_context cfg s mm).2 ∧
    (renew_context cfg s mm).2.context_id mm = (renew_context cfg s mm).1 ∧
    is_stale (renew_context cfg s mm).2.asid_bits (renew_context cfg s mm).1
      (renew_context cfg s mm).2.asid_generation = false := by
  cases hst : is_stale s.asid_bits (s.context_id mm) s.asid_generation with
  | true =>
    rw [renew_context_of_stale cfg s mm hst]
    refine ⟨?_, by simp, ?_⟩
    · exact Inv_of_frame cfg _ _ (new_context_Inv cfg s mm h) rfl rfl (fun _ hx => hx)
        rfl rfl rfl
    · exact new_context_not_stale cfg s mm h
  | false =>
    rw [renew_context_of_current cfg s mm hst]
    exact ⟨h, rfl, hst⟩

theorem switch_mm_slowpath_Inv (cfg : Config) (s : State) (mm cpu : Nat) (h : Inv cfg s) :
    Inv cfg (switch_mm_slowpath cfg s mm cpu) ∧
    (switch_mm_slowpath cfg s mm cpu).active_asids cpu =
      (switch_mm_slowpath cfg s mm cpu).context_id mm ∧
    is_stale (switch_mm_slowpath cfg s mm cpu).asid_bits
      ((switch_mm_slowpath cfg s mm cpu).context_id mm)
      (switch_mm_slowpath cfg s mm cpu).asid_generation = false := by
  obtain ⟨hi, hid, hns⟩ := renew_context_Inv cfg s mm h
  obtain ⟨f1, f2, f3, f4, f5, f6, f7⟩ := flush_if_pending_frame (renew_context cfg s mm).2 cpu
  have hi2 : Inv cfg (flush_if_pending (renew_context cfg s mm).2 cpu) :=
    Inv_of_frame cfg _ _ hi f1 f2 (fun x hx => by rw [f3]; exact hx) f6 f5 f4
  unfold switch_mm_slowpath
  simp only
  refine ⟨?_, ?_, ?_⟩
  · refine ⟨hi2.bits_lo, hi2.bits_hi, hi2.gen_dvd, hi2.gen_lt, hi2.cur_pos,
      hi2.reserved_marked, ?_⟩
    intro c hc
    simp only [Function.update_apply]
    split
    · right
      rw [f1, f2]
      exact hns
    · exact hi2.active_current c hc
  · simp only [Function.update_same]
    rw [f7]
    exact hid.symm
  · rw [f1, f2, f7, hid]
    exact hns

theorem check_and_switch_context_Inv (cfg : Config) (s : State) (mm cpu : Nat)
    (h : Inv cfg s) :
    Inv cfg (check_and_switch_context cfg s mm cpu) ∧
    (check_and_switch_context cfg s mm cpu).active_asids cpu =
      (check_and_switch_context cfg s mm cpu).context_id mm ∧
    is_stale (check_and_switch_context cfg s mm cpu).asid_bits
      ((check_and_switch_context cfg s mm cpu).context_id mm)
      (check_and_switch_context cfg s mm cpu).asid_generation = false := by
  cases hf : takes_fastpath s mm cpu with
  | true =>
    rw [check_and_switch_context_fast cfg s mm cpu hf]
    unfold takes_fastpath at hf
    simp only [Bool.and_eq_true, decide_eq_true_eq, Bool.not_eq_true'] at hf
    refine ⟨?_, by simp, hf.2⟩
    refine ⟨h.bits_lo, h.bits_hi, h.gen_dvd, h.gen_lt, h.cur_pos, h.reserved_marked, ?_⟩
    intro c hc
    simp only [Function.update_apply]
    split
    · exact Or.inr hf.2
    · exact h.active_current c hc
  | false =>
    rw [check_and_switch_context_slow cfg s mm cpu hf]
    exact switch_mm_slowpath_Inv cfg s mm cpu h

theorem get_cpu_asid_bits_cases (fld : Int) :
    (get_cpu_asid_bits fld).1 = 8 ∨ (get_cpu_asid_bits fld).1 = 16 := by
  unfold get_cpu_asid_bits
  split
  · exact Or.inl rfl
  · split
    · exact Or.inr rfl
    · exact Or.inl rfl

/-- What a successful `asids_init_bits` leaves satisfies the invariant. -/
theorem asids_init_bits_Inv (cfg : Config) (bits : Nat) (r : InitResult)
    (h1 : 1 ≤ bits) (h2 : bits < 32)
    (h : asids_init_bits cfg boot bits true = Except.ok r) : Inv cfg r.state := by
  unfold asids_init_bits at h
  simp only [if_true, Except.ok.injEq] at h
  subst h
  refine ⟨h1, h2, ?_, ?_, le_rfl, ?_, ?_⟩
  · show 2 ^ bits ∣ ASID_FIRST_VERSION bits
    rw [ASID_FIRST_VERSION_eq bits (by omega)]
  · exact Nat.mod_lt _ (by norm_num)
  · intro c _
    left
    show asid2idx cfg bits 0 = 0
    unfold asid2idx
    split <;> simp
  · intro c _
    exact Or.inl rfl

/-- Every reachable state satisfies the invariant. -/
theorem Reachable.inv {cfg : Config} {s : State} (h : Reachable cfg s) : Inv cfg s := by
  induction h with
  | init fld r hr =>
    unfold asids_init at hr
    rcases get_cpu_asid_bits_cases fld with e | e
    · exact asids_init_bits_Inv cfg _ r (by omega) (by omega) hr
    · exact asids_init_bits_Inv cfg _ r (by omega) (by omega) hr
  | switch s mm cpu _ _ ih => exact (check_and_switch_context_Inv cfg s mm cpu ih).1

/-! ## Test inputs are reachable -/

theorem example_init_reachable : Reachable example_cfg example_init :=
  Reachable.init 0 ⟨false, example_init⟩ rfl

theorem example_one_switch_reachable : Reachable example_cfg example_one_switch :=
  Reachable.switch _ 0 0 example_init_reachable (by decide)

theorem example_shared_mm_reachable : Reachable example_cfg example_shared_mm :=
  Reachable.switch _ 0 1 example_one_switch_reachable (by decide)

theorem is_stale_false_xor (b x g : Nat) (h : is_stale b x g = false) :
    (x ^^^ g) >>> b = 0 := by
  unfold is_stale at h
  simpa using h

/-! ## C1: a switch installs the address space's identifier, of the current generation -/

/-- C1: in every reachable state, after `check_and_switch_context(mm, cpu)`
has run (by the lock-free or by the locked path) `active_asids[cpu]` equals
`mm->context.id`, and this identifier is of the current generation:
`(id ^ asid_generation) >> asid_bits` is 0 with `asid_generation` read in the
state after the call. -/
theorem C1_switch_installs_current_id (cfg : Config) (s : State) (mm cpu : Nat)
    (h : Reachable cfg s) :
    (check_and_switch_context cfg s mm cpu).active_asids cpu =
      (check_and_switch_context cfg s mm cpu).context_id mm ∧
    ((check_and_switch_context cfg s mm cpu).context_id mm ^^^
        (check_and_switch_context cfg s mm cpu).asid_generation) >>>
      (check_and_switch_context cfg s mm cpu).asid_bits = 0 := by
  obtain ⟨_, h1, h2⟩ := check_and_switch_context_Inv cfg s mm cpu h.inv
  exact ⟨h1, is_stale_false_xor _ _ _ h2⟩

/-- C1 at a concrete input: address space 0 is switched in on CPU 0 of the
freshly initialised allocator (locked path, fresh identifier 258) and then
once more (lock-free path). -/
theorem C1_switch_installs_current_id_witness :
    (example_one_switch.active_asids 0 = 258 ∧ example_one_switch.context_id 0 = 258) ∧
    ((check_and_switch_context example_cfg example_one_switch 0 0).active_asids 0 =
        (check_and_switch_context example_cfg example_one_switch 0 0).context_id 0 ∧
      ((check_and_switch_context example_cfg example_one_switch 0 0).context_id 0 ^^^
          (check_and_switch_context example_cfg example_one_switch 0 0).asid_generation) >>>
        (check_and_switch_context example_cfg example_one_switch 0 0).asid_bits = 0) :=
  ⟨by decide,
   C1_switch_installs_current_id example_cfg example_one_switch 0 0
     example_one_switch_reachable⟩

/-! ## C3: a reserved identifier survives rollovers -/

theorem rollovers_succ (cfg : Config) (n : Nat) (s : State) :
    rollovers cfg (n + 1) s = rollover cfg (rollovers cfg n s) := by
  unfold rollovers
  rw [Function.iterate_succ_apply']

/-- After one or more rollovers in a row every possible CPU has no active
identifier and has reserved the identifier it kept at the first rollover. -/
theorem rollovers_spec (cfg : Config) (s : State) (h : Inv cfg s) (n : Nat) :
    Inv cfg (rollovers cfg (n + 1) s) ∧
    (rollovers cfg (n + 1) s).asid_bits = s.asid_bits ∧
    (rollovers cfg (n + 1) s).context_id = s.context_id ∧
    ∀ c, c < cfg.ncpus →
      (rollovers cfg (n + 1) s).active_asids c = 0 ∧
      (rollovers cfg (n + 1) s).reserved_asids c = kept_asid s c := by
  induction n with
  | zero =>
    rw [rollovers_succ]
    have e : rollovers cfg 0 s = s := rfl
    rw [e]
    refine ⟨rollover_Inv cfg s h, ?_, ?_, ?_⟩
    · rw [rollover_eq]
    · rw [rollover_eq]
    · intro c hc
      rw [rollover_eq]
      simp only [hc, if_true, and_self]
  | succ n ih =>
    obtain ⟨i1, i2, i3, i4⟩ := ih
    rw [rollovers_succ]
    refine ⟨rollover_Inv cfg _ i1, ?_, ?_, ?_⟩
    · rw [rollover_eq]; exact i2
    · rw [rollover_eq]; exact i3
    · intro c hc
      rw [rollover_eq]
      simp only [hc, if_true, true_and]
      unfold kept_asid
      rw [(i4 c hc).1, if_pos rfl, (i4 c hc).2]
      rfl

/-- The generation after `n` rollovers in a row. -/
theorem rollovers_generation (cfg : Config) (s : State) (h : Inv cfg s) (n : Nat) :
    (rollovers cfg n s).asid_bits = s.asid_bits ∧
    (rollovers cfg n s).asid_generation =
      (s.asid_generation + n * 2 ^ s.asid_bits) % 2 ^ 64 := by
  induction n with
  | zero =>
    refine ⟨rfl, ?_⟩
    show s.asid_generation = _
    rw [Nat.zero_mul, Nat.add_zero, Nat.mod_eq_of_lt h.gen_lt]
  | succ n ih =>
    rw [rollovers_succ, rollover_eq]
    refine ⟨ih.1, ?_⟩
    show ((rollovers cfg n s).asid_generation +
      ASID_FIRST_VERSION (rollovers cfg n s).asid_bits) % 2 ^ 64 = _
    rw [ih.1, ih.2, ASID_FIRST_VERSION_eq _ (lt_trans h.bits_hi (by norm_num)),
      Nat.mod_add_mod, Nat.succ_mul, Nat.add_assoc]

/-- An identifier of the generation current before `n` rollovers is stale
after them, as long as `n` is less than the `2 ^ (64 - asid_bits)` rollovers
that take the 64-bit generation counter once around. -/
theorem stale_after_rollovers (b g a n : Nat) (hb : b < 64) (hg : 2 ^ b ∣ g) (hlt : g < 2 ^ 64)
    (ha : is_stale b a g = false) (h1 : 1 ≤ n) (h2 : n < 2 ^ (64 - b)) :
    is_stale b a ((g + n * 2 ^ b) % 2 ^ 64) = true := by
  rw [is_stale_eq_true_iff]
  rw [is_stale_eq_false_iff] at ha
  rw [ha]
  obtain ⟨k, rfl⟩ := hg
  have hpos : 0 < 2 ^ b := Nat.pow_pos (by norm_num)
  have e64 : 2 ^ 64 = 2 ^ (64 - b) * 2 ^ b := by
    rw [← pow_add]
    congr 1
    omega
  have hk : k < 2 ^ (64 - b) := by
    rw [e64, Nat.mul_comm (2 ^ b) k] at hlt
    exact Nat.lt_of_mul_lt_mul_right hlt
  rw [Nat.mul_comm (2 ^ b) k, ← Nat.add_mul, e64, Nat.mul_mod_mul_right,
    Nat.mul_div_cancel _ hpos, Nat.mul_div_cancel _ hpos]
  intro e
  rcases Nat.lt_or_ge (k + n) (2 ^ (64 - b)) with l | l
  · rw [Nat.mod_eq_of_lt l] at e
    omega
  · have : (k + n) % 2 ^ (64 - b) = k + n - 2 ^ (64 - b) := by
      rw [Nat.mod_eq_sub_mod l, Nat.mod_eq_of_lt (by omega)]
    omega

theorem switch_mm_slowpath_frame (cfg : Config) (s : State) (mm cpu : Nat) :
    (switch_mm_slowpath cfg s mm cpu).asid_bits = (renew_context cfg s mm).2.asid_bits ∧
    (switch_mm_slowpath cfg s mm cpu).asid_generation =
      (renew_context cfg s mm).2.asid_generation ∧
    (switch_mm_slowpath cfg s mm cpu).asid_map = (renew_context cfg s mm).2.asid_map ∧
    (switch_mm_slowpath cfg s mm cpu).reserved_asids =
      (renew_context cfg s mm).2.reserved_asids ∧
    (switch_mm_slowpath cfg s mm cpu).cur_idx = (renew_context cfg s mm).2.cur_idx ∧
    (switch_mm_slowpath cfg s mm cpu).context_id = (renew_context cfg s mm).2.context_id := by
  obtain ⟨f1, f2, f3, _, f5, f6, f7⟩ := flush_if_pending_frame (renew_context cfg s mm).2 cpu
  unfold switch_mm_slowpath
  exact ⟨f1, f2, f3, f5, f6, f7⟩

/-- C3 (reservation survival): let `mm` be the address space last switched to
on CPU `c` of a reachable state, so that `active_asids[c] == mm->context.id`
is non-zero.  After `N ≥ 1` rollovers with no switch in between,
`check_and_switch_context(mm, c)` leaves `mm->context.id` with the same local
id as before and of the current generation, and that call changes no bit of
`asid_map` and leaves `cur_idx` alone.  The identifier has become stale by
then (for every `N` below the `2 ^ (64 - asid_bits)` rollovers that wrap the
64-bit generation counter), and whenever it is stale it is renewed by the
reserved-ASID match of `new_context` (`check_update_reserved_asid` reports a
hit). -/
theorem C3_reservation_survives_rollovers (cfg : Config) (s : State) (mm c N : Nat)
    (h : Reachable cfg s) (hc : c < cfg.ncpus)
    (hact : s.active_asids c = s.context_id mm) (hne : s.context_id mm ≠ 0) (hN : 1 ≤ N) :
    local_id (check_and_switch_context cfg (rollovers cfg N s) mm c).asid_bits
        ((check_and_switch_context cfg (rollovers cfg N s) mm c).context_id mm) =
      local_id s.asid_bits (s.context_id mm) ∧
    ((check_and_switch_context cfg (rollovers cfg N s) mm c).context_id mm ^^^
        (check_and_switch_context cfg (rollovers cfg N s) mm c).asid_generation) >>>
      (check_and_switch_context cfg (rollovers cfg N s) mm c).asid_bits = 0 ∧
    (check_and_switch_context cfg (rollovers cfg N s) mm c).asid_map =
      (rollovers cfg N s).asid_map ∧
    (check_and_switch_context cfg (rollovers cfg N s) mm c).cur_idx =
      (rollovers cfg N s).cur_idx ∧
    (N < 2 ^ (64 - s.asid_bits) →
      is_stale (rollovers cfg N s).asid_bits ((rollovers cfg N s).context_id mm)
        (rollovers cfg N s).asid_generation = true) ∧
    (is_stale (rollovers cfg N s).asid_bits ((rollovers cfg N s).context_id mm)
        (rollovers cfg N s).asid_generation = true →
      (check_update_reserved_asid cfg (rollovers cfg N s) ((rollovers cfg N s).context_id mm)
        ((rollovers cfg N s).asid_generation |||
          ((rollovers cfg N s).context_id mm &&&
            not64 (ASID_MASK (rollovers cfg N s).asid_bits)))).1 = true) := by
  obtain ⟨n, rfl⟩ : ∃ n, N = n + 1 := ⟨N - 1, by omega⟩
  obtain ⟨i1, i2, i3, i4⟩ := rollovers_spec cfg s h.inv n
  have hgen := (rollovers_generation cfg s h.inv (n + 1)).2
  have hstale : n + 1 < 2 ^ (64 - s.asid_bits) →
      is_stale (rollovers cfg (n + 1) s).asid_bits ((rollovers cfg (n + 1) s).context_id mm)
        (rollovers cfg (n + 1) s).asid_generation = true := by
    intro hlt
    rw [i2, i3, hgen]
    apply stale_after_rollovers _ _ _ _ (lt_trans h.inv.bits_hi (by norm_num)) h.inv.gen_dvd
      h.inv.gen_lt _ hN hlt
    rcases h.inv.active_current c hc with z | z
    · rw [hact] at z; exact absurd z hne
    · rw [hact] at z; exact z
  clear hgen
  generalize rollovers cfg (n + 1) s = t at i1 i2 i3 i4 hstale ⊢
  have hkept : kept_asid s c = s.context_id mm := by
    unfold kept_asid
    rw [if_neg (by rw [hact]; exact hne), hact]
  have hres : t.reserved_asids c = t.context_id mm := by
    rw [(i4 c hc).2, hkept, i3]
  have hne2 : t.context_id mm ≠ 0 := by rw [i3]; exact hne
  have hit : ∃ c, c < cfg.ncpus ∧ t.reserved_asids c = t.context_id mm := ⟨c, hc, hres⟩
  have hslow : takes_fastpath t mm c = false := by
    unfold takes_fastpath
    simp [(i4 c hc).1]
  obtain ⟨_, _, hcur⟩ := check_and_switch_context_Inv cfg t mm c i1
  rw [check_and_switch_context_slow cfg t mm c hslow] at hcur ⊢
  obtain ⟨f1, f2, f3, _, f5, f6⟩ := switch_mm_slowpath_frame cfg t mm c
  have h64 : t.asid_bits ≤ 64 := le_of_lt (lt_trans i1.bits_hi (by norm_num))
  refine ⟨?_, is_stale_false_xor _ _ _ hcur, ?_, ?_, hstale, ?_⟩
  · rw [f1, f6]
    cases hst : is_stale t.asid_bits (t.context_id mm) t.asid_generation with
    | true =>
      rw [renew_context_of_stale cfg t mm hst, new_context_of_hit cfg t mm hne2 hit]
      simp only [Function.update_same]
      rw [local_id_newasid _ _ _ i1.bits_lo h64 i1.gen_dvd, i2, i3]
    | false =>
      rw [renew_context_of_current cfg t mm hst, i2, i3]
  · rw [f3]
    cases hst : is_stale t.asid_bits (t.context_id mm) t.asid_generation with
    | true =>
      rw [renew_context_of_stale cfg t mm hst, new_context_of_hit cfg t mm hne2 hit]
    | false =>
      rw [renew_context_of_current cfg t mm hst]
  · rw [f5]
    cases hst : is_stale t.asid_bits (t.context_id mm) t.asid_generation with
    | true =>
      rw [renew_context_of_stale cfg t mm hst, new_context_of_hit cfg t mm hne2 hit]
    | false =>
      rw [renew_context_of_current cfg t mm hst]
  · intro _
    rw [check_update_reserved_asid_eq]
    exact decide_eq_true hit

/-- C3 at a concrete input: address space 0 runs on CPU 0, three rollovers
happen (generation 256 becomes 1024), and the next switch to it on CPU 0
turns its identifier 258 into 1026: same local id 2, current generation. -/
theorem C3_reservation_survives_rollovers_witness :
    (example_three_rollovers.asid_generation = 1024 ∧
      (check_and_switch_context example_cfg example_three_rollovers 0 0).context_id 0 = 1026) ∧
    (local_id (check_and_switch_context example_cfg (rollovers example_cfg 3
          example_one_switch) 0 0).asid_bits
        ((check_and_switch_context example_cfg (rollovers example_cfg 3
          example_one_switch) 0 0).context_id 0) =
      local_id example_one_switch.asid_bits (example_one_switch.context_id 0)) :=
  ⟨by decide,
   (C3_reservation_survives_rollovers example_cfg example_one_switch 0 0 3
     example_one_switch_reachable (by decide) (by decide) (by decide) (by decide)).1⟩

/-! ## C8 and C4: the scan after a rollover -/

/-- After `flush_context` the bits set below `NUM_USER_ASIDS` are those of the
identifiers kept for the possible CPUs. -/
theorem flush_context_map (cfg : Config) (s : State) (b : Nat)
    (hb : b < NUM_USER_ASIDS cfg s.asid_bits) :
    (flush_context cfg s).asid_map b = true ↔
      ∃ i, i < cfg.ncpus ∧ asid2idx cfg s.asid_bits (kept_asid s i) = b := by
  rw [flush_context_eq]
  simp only [bitmap_clear, Nat.zero_le, true_and, Nat.zero_add, hb, if_true, Bool.false_or,
    decide_eq_true_eq]

/-- With more usable indices than CPUs, `flush_context` leaves a clear index
in `[1, NUM_USER_ASIDS)`. -/
theorem flush_context_free_index (cfg : Config) (s : State)
    (hn : cfg.ncpus < NUM_USER_ASIDS cfg s.asid_bits - 1) :
    ∃ i, 1 ≤ i ∧ i < NUM_USER_ASIDS cfg s.asid_bits ∧
      (flush_context cfg s).asid_map i = false := by
  by_contra hcon
  push_neg at hcon
  have hsub : Finset.Ico 1 (NUM_USER_ASIDS cfg s.asid_bits) ⊆
      (Finset.range cfg.ncpus).image (fun i => asid2idx cfg s.asid_bits (kept_asid s i)) := by
    intro x hx
    rw [Finset.mem_Ico] at hx
    have hset : (flush_context cfg s).asid_map x = true := by
      have := hcon x hx.1 hx.2
      simpa using this
    obtain ⟨i, hi, e⟩ := (flush_context_map cfg s x hx.2).mp hset
    exact Finset.mem_image.mpr ⟨i, Finset.mem_range.mpr hi, e⟩
  have h1 := Finset.card_le_card hsub
  have h2 := Finset.card_image_le (s := Finset.range cfg.ncpus)
    (f := fun i => asid2idx cfg s.asid_bits (kept_asid s i))
  rw [Nat.card_Ico] at h1
  rw [Finset.card_range] at h2
  omega

theorem scan_after_flush (cfg : Config) (s : State)
    (hn : cfg.ncpus < NUM_USER_ASIDS cfg s.asid_bits - 1) :
    1 ≤ find_next_zero_bit (flush_context cfg s).asid_map (NUM_USER_ASIDS cfg s.asid_bits) 1 ∧
    find_next_zero_bit (flush_context cfg s).asid_map (NUM_USER_ASIDS cfg s.asid_bits) 1 <
      NUM_USER_ASIDS cfg s.asid_bits ∧
    (flush_context cfg s).asid_map
      (find_next_zero_bit (flush_context cfg s).asid_map (NUM_USER_ASIDS cfg s.asid_bits) 1) =
        false := by
  obtain ⟨i, h1, h2, h3⟩ := flush_context_free_index cfg s hn
  have hlt := find_next_zero_bit_lt_of_clear _ _ 1 i h1 h2 h3
  obtain ⟨_, b, _⟩ := find_next_zero_bit_spec (flush_context cfg s).asid_map
    (NUM_USER_ASIDS cfg s.asid_bits) 1
  exact ⟨(b hlt).1, hlt, (b hlt).2⟩

theorem scan_after_rollover (cfg : Config) (s : State)
    (hn : cfg.ncpus < NUM_USER_ASIDS cfg s.asid_bits - 1) :
    1 ≤ find_next_zero_bit (rollover cfg s).asid_map (NUM_USER_ASIDS cfg s.asid_bits) 1 ∧
    find_next_zero_bit (rollover cfg s).asid_map (NUM_USER_ASIDS cfg s.asid_bits) 1 <
      NUM_USER_ASIDS cfg s.asid_bits ∧
    (rollover cfg s).asid_map
      (find_next_zero_bit (rollover cfg s).asid_map (NUM_USER_ASIDS cfg s.asid_bits) 1) =
        false := by
  unfold rollover
  exact scan_after_flush cfg
    { s with
      asid_generation := (s.asid_generation + ASID_FIRST_VERSION s.asid_bits) % 2 ^ 64 } hn

/-- C8: if `NUM_USER_ASIDS - 1` exceeds the number of possible CPUs then, for
every state, the scan `find_next_zero_bit(asid_map, NUM_USER_ASIDS, 1)` right
after `flush_context` returns an index `i` with `1 ≤ i < NUM_USER_ASIDS` whose
bit is clear; and when `new_context` has to roll over, the index it then
marks lies inside the bitmap, was clear after the rollover, is set on return,
and is the index of the identifier returned. -/
theorem C8_allocation_after_rollover_succeeds (cfg : Config) (s : State)
    (hn : cfg.ncpus < NUM_USER_ASIDS cfg s.asid_bits - 1) :
    (1 ≤ find_next_zero_bit (flush_context cfg s).asid_map (NUM_USER_ASIDS cfg s.asid_bits) 1 ∧
      find_next_zero_bit (flush_context cfg s).asid_map (NUM_USER_ASIDS cfg s.asid_bits) 1 <
        NUM_USER_ASIDS cfg s.asid_bits ∧
      (flush_context cfg s).asid_map
        (find_next_zero_bit (flush_context cfg s).asid_map
          (NUM_USER_ASIDS cfg s.asid_bits) 1) = false) ∧
    (scan_rolls_over cfg s = true →
      1 ≤ find_next_zero_bit (rollover cfg s).asid_map (NUM_USER_ASIDS cfg s.asid_bits) 1 ∧
      find_next_zero_bit (rollover cfg s).asid_map (NUM_USER_ASIDS cfg s.asid_bits) 1 <
        NUM_USER_ASIDS cfg s.asid_bits ∧
      (rollover cfg s).asid_map
        (find_next_zero_bit (rollover cfg s).asid_map
          (NUM_USER_ASIDS cfg s.asid_bits) 1) = false ∧
      (new_context_scan cfg s).2.asid_map
        (find_next_zero_bit (rollover cfg s).asid_map
          (NUM_USER_ASIDS cfg s.asid_bits) 1) = true ∧
      (new_context_scan cfg s).1 =
        idx2asid cfg s.asid_bits
          (find_next_zero_bit (rollover cfg s).asid_map (NUM_USER_ASIDS cfg s.asid_bits) 1) |||
          (rollover cfg s).asid_generation ∧
      (1 ≤ s.asid_bits → s.asid_bits < 64 →
        asid2idx cfg s.asid_bits (idx2asid cfg s.asid_bits
          (find_next_zero_bit (rollover cfg s).asid_map
            (NUM_USER_ASIDS cfg s.asid_bits) 1)) =
        find_next_zero_bit (rollover cfg s).asid_map (NUM_USER_ASIDS cfg s.asid_bits) 1)) := by
  refine ⟨scan_after_flush cfg s hn, ?_⟩
  intro hfull
  obtain ⟨a, b, c⟩ := scan_after_rollover cfg s hn
  have hbits : (rollover cfg s).asid_bits = s.asid_bits := (rollover_generation cfg s).2
  refine ⟨a, b, c, ?_, ?_, ?_⟩
  · rw [new_context_scan_of_full cfg s hfull, hbits]
    simp [set_asid, __set_bit]
  · rw [new_context_scan_of_full cfg s hfull, hbits]
    simp [set_asid, hbits]
  · intro h1 h2
    exact asid2idx_idx2asid cfg _ _ h1 h2 b

/-- C8 at a concrete input: after a rollover of the state in which address
space 0 runs on CPU 0, the scan from index 1 returns index 2 (index 1 is kept
for CPU 0, index 0 for the idle CPUs). -/
theorem C8_allocation_after_rollover_succeeds_witness :
    example_cfg.ncpus < NUM_USER_ASIDS example_cfg example_one_switch.asid_bits - 1 ∧
    find_next_zero_bit (flush_context example_cfg example_one_switch).asid_map
      (NUM_USER_ASIDS example_cfg example_one_switch.asid_bits) 1 = 2 ∧
    (flush_context example_cfg example_one_switch).asid_map
      (find_next_zero_bit (flush_context example_cfg example_one_switch).asid_map
        (NUM_USER_ASIDS example_cfg example_one_switch.asid_bits) 1) = false :=
  ⟨by decide, by decide,
   (C8_allocation_after_rollover_succeeds example_cfg example_one_switch (by decide)).1.2.2⟩

theorem asid2idx_or_generation (cfg : Config) (b i g : Nat) (h1 : 1 ≤ b) (h2 : b < 64)
    (hi : i < NUM_USER_ASIDS cfg b) (hg : 2 ^ b ∣ g) :
    asid2idx cfg b (idx2asid cfg b i ||| g) = i := by
  have hl := idx2asid_lt cfg b i h1 (le_of_lt h2)
  have e : asid2idx cfg b (idx2asid cfg b i ||| g) = asid2idx cfg b (idx2asid cfg b i) := by
    rw [asid2idx_of_local_id, asid2idx_of_local_id, local_id_or b g _ h1 (le_of_lt h2) hg hl,
      local_id_eq_mod b _ h1 (le_of_lt h2), Nat.mod_eq_of_lt hl]
  rw [e, asid2idx_idx2asid cfg b i h1 h2 hi]

/-- An identifier built on a clear index `i ≥ 1` has a local id different from
that of every reserved identifier. -/
theorem scan_result_not_reserved (cfg : Config) (t : State) (i g : Nat) (h : Inv cfg t)
    (hi1 : 1 ≤ i) (hiN : i < NUM_USER_ASIDS cfg t.asid_bits) (hclear : t.asid_map i = false)
    (hg : 2 ^ t.asid_bits ∣ g) (c : Nat) (hc : c < cfg.ncpus) :
    local_id t.asid_bits (idx2asid cfg t.asid_bits i ||| g) ≠
      local_id t.asid_bits (t.reserved_asids c) := by
  intro e
  have h64 : t.asid_bits < 64 := lt_trans h.bits_hi (by norm_num)
  have e2 : asid2idx cfg t.asid_bits (t.reserved_asids c) = i := by
    rw [asid2idx_of_local_id, ← e, ← asid2idx_of_local_id,
      asid2idx_or_generation cfg _ i g h.bits_lo h64 hiN hg]
  rcases h.reserved_marked c hc with z | z
  · omega
  · rw [e2, hclear] at z
    exact absurd z (by simp)

/-- C4 (no premature reuse): assume `NUM_USER_ASIDS - 1` exceeds the number of
possible CPUs.  In every reachable state in which `new_context` goes to the
bitmap scan (with or without a rollover), the local id of the identifier it
returns differs from the local id of every CPU's `reserved_asids` as they
are when it returns; in particular, after the rollover the bit of every
CPU's reserved identifier is set before the scan from index 1 runs. -/
theorem C4_no_premature_reuse (cfg : Config) (s : State) (mm : Nat)
    (h : Reachable cfg s) (hn : cfg.ncpus < NUM_USER_ASIDS cfg s.asid_bits - 1)
    (hscan : new_context_reuses cfg s mm = false) :
    (∀ c, c < cfg.ncpus →
      local_id s.asid_bits (new_context cfg s mm).1 ≠
        local_id s.asid_bits ((new_context cfg s mm).2.reserved_asids c)) ∧
    (∀ c, c < cfg.ncpus →
      (rollover cfg s).asid_map
        (asid2idx cfg s.asid_bits ((rollover cfg s).reserved_asids c)) = true) := by
  have hi := h.inv
  constructor
  · intro c hc
    rw [new_context_of_scan cfg s mm hscan]
    cases hf : scan_rolls_over cfg s with
    | false =>
      rw [new_context_scan_of_found cfg s hf]
      unfold scan_rolls_over at hf
      simp only [beq_eq_false_iff_ne, ne_eq] at hf
      obtain ⟨a, b, _⟩ := find_next_zero_bit_spec s.asid_map
        (NUM_USER_ASIDS cfg s.asid_bits) s.cur_idx
      have hlt := lt_of_le_of_ne a hf
      have hge := (b hlt).1
      have hpos := hi.cur_pos
      exact scan_result_not_reserved cfg s _ _ hi (by omega) hlt (b hlt).2 hi.gen_dvd c hc
    | true =>
      rw [new_context_scan_of_full cfg s hf]
      have ht := rollover_Inv cfg s hi
      have hbits : (rollover cfg s).asid_bits = s.asid_bits := (rollover_generation cfg s).2
      obtain ⟨a, b, d⟩ := scan_after_rollover cfg s hn
      have := scan_result_not_reserved cfg (rollover cfg s) _ (rollover cfg s).asid_generation ht
        a (by rw [hbits]; exact b) d ht.gen_dvd c hc
      simp only [set_asid]
      rw [hbits] at this ⊢
      exact this
  · intro c hc
    rw [rollover_eq]
    simp only [hc, if_true, Bool.or_eq_true, decide_eq_true_eq]
    exact Or.inr ⟨c, hc, rfl⟩

/-! ## C5: the staleness test -/

/-- C5: for every 64-bit identifier `v`, every width `1 ≤ asid_bits < 64` (so
also 8 and 16) and every generation `g` that is a multiple of
`2 ^ asid_bits`, the test `((v ^ g) >> asid_bits) != 0` of
`check_and_switch_context` holds exactly when the generation part of `v`
differs from `g`, that is `(v & ASID_MASK) != g`; and the local-id bits of
`v` do not influence it: the test gives the same for `v`, for `v` with its
local id cleared, and for any `w` with the same generation part. -/
theorem C5_staleness_test_exact (b v g : Nat) (h1 : 1 ≤ b) (h2 : b < 64) (hv : v < 2 ^ 64)
    (hg : 2 ^ b ∣ g) :
    ((v ^^^ g) >>> b ≠ 0 ↔ v &&& ASID_MASK b ≠ g) ∧
    (is_stale b v g = true ↔ v &&& ASID_MASK b ≠ g) ∧
    is_stale b (v &&& ASID_MASK b) g = is_stale b v g ∧
    (∀ w, w < 2 ^ 64 → w &&& ASID_MASK b = v &&& ASID_MASK b →
      is_stale b w g = is_stale b v g) := by
  have hpos : 0 < 2 ^ b := Nat.pow_pos (by norm_num)
  have key : ∀ x, x < 2 ^ 64 → (is_stale b x g = true ↔ x &&& ASID_MASK b ≠ g) := by
    intro x hx
    rw [is_stale_eq_true_iff, and_ASID_MASK b x h1 (le_of_lt h2) hx]
    obtain ⟨k, rfl⟩ := hg
    rw [Nat.mul_div_cancel_left _ hpos, Nat.mul_comm (2 ^ b) k]
    constructor
    · intro hne e
      exact hne (Nat.eq_of_mul_eq_mul_right hpos e)
    · intro hne e
      exact hne (by rw [e])
  have hmask : ∀ x, x < 2 ^ 64 → ∀ y, y < 2 ^ 64 → x &&& ASID_MASK b = y &&& ASID_MASK b →
      is_stale b x g = is_stale b y g := by
    intro x hx y hy e
    have kx := key x hx
    have ky := key y hy
    rw [e] at kx
    cases hsx : is_stale b x g <;> cases hsy : is_stale b y g <;> simp_all
  refine ⟨?_, key v hv, ?_, ?_⟩
  · rw [← key v hv]
    unfold is_stale
    simp
  · have hlt : v &&& ASID_MASK b < 2 ^ 64 := lt_of_le_of_lt Nat.and_le_left hv
    apply hmask _ hlt _ hv
    rw [Nat.and_assoc, Nat.and_self]
  · intro w hw e
    exact hmask w hw v hv e

/-- C5 at a concrete input: with 8-bit ASIDs and generation 512, the
identifier 258 (generation 256, local id 2) is stale. -/
theorem C5_staleness_test_exact_witness :
    ((258 ^^^ 512) >>> 8 ≠ 0 ↔ 258 &&& ASID_MASK 8 ≠ 512) ∧
    (is_stale 8 258 512 = true ↔ 258 &&& ASID_MASK 8 ≠ 512) ∧
    is_stale 8 (258 &&& ASID_MASK 8) 512 = is_stale 8 258 512 ∧
    (∀ w, w < 2 ^ 64 → w &&& ASID_MASK 8 = 258 &&& ASID_MASK 8 →
      is_stale 8 w 512 = is_stale 8 258 512) :=
  C5_staleness_test_exact 8 258 512 (by decide) (by decide) (by decide) (by decide)

/-! ## C6: the generation counter -/

theorem new_context_generation (cfg : Config) (s : State) (mm : Nat) :
    (new_context cfg s mm).2.asid_generation = s.asid_generation ∨
    (new_context cfg s mm).2.asid_generation =
      (s.asid_generation + ASID_FIRST_VERSION s.asid_bits) % 2 ^ 64 := by
  unfold new_context new_context_scan set_asid
  simp only [check_update_reserved_asid_eq, rollover_eq]
  repeat' split
  all_goals first | exact Or.inl rfl | exact Or.inr rfl

theorem check_and_switch_context_generation (cfg : Config) (s : State) (mm cpu : Nat) :
    (check_and_switch_context cfg s mm cpu).asid_generation = s.asid_generation ∨
    (check_and_switch_context cfg s mm cpu).asid_generation =
      (s.asid_generation + ASID_FIRST_VERSION s.asid_bits) % 2 ^ 64 := by
  cases hf : takes_fastpath s mm cpu with
  | true =>
    rw [check_and_switch_context_fast cfg s mm cpu hf]
    exact Or.inl rfl
  | false =>
    rw [check_and_switch_context_slow cfg s mm cpu hf,
      (switch_mm_slowpath_frame cfg s mm cpu).2.1]
    cases hst : is_stale s.asid_bits (s.context_id mm) s.asid_generation with
    | true =>
      rw [renew_context_of_stale cfg s mm hst]
      exact new_context_generation cfg s mm
    | false =>
      rw [renew_context_of_current cfg s mm hst]
      exact Or.inl rfl

/-- A 64-bit addition of one epoch to a generation either is exact or takes
the counter from its last epoch to 0. -/
theorem generation_add_cases (b g : Nat) (hb : b < 64) (hg : 2 ^ b ∣ g) (hlt : g < 2 ^ 64) :
    ((g + 2 ^ b) % 2 ^ 64 = g + 2 ^ b ∧ g + 2 ^ b < 2 ^ 64) ∨
    ((g + 2 ^ b) % 2 ^ 64 = 0 ∧ g + 2 ^ b = 2 ^ 64) := by
  obtain ⟨k, rfl⟩ := hg
  have hpos : 0 < 2 ^ b := Nat.pow_pos (by norm_num)
  have e64 : 2 ^ 64 = 2 ^ b * 2 ^ (64 - b) := by
    rw [← pow_add]
    congr 1
    omega
  have hk : k < 2 ^ (64 - b) := by
    rw [e64] at hlt
    exact Nat.lt_of_mul_lt_mul_left hlt
  have hle : 2 ^ b * k + 2 ^ b ≤ 2 ^ 64 := by
    rw [e64, ← Nat.mul_succ]
    exact Nat.mul_le_mul_left _ hk
  rcases Nat.eq_or_lt_of_le hle with e | l
  · right
    exact ⟨by rw [e, Nat.mod_self], e⟩
  · left
    exact ⟨Nat.mod_eq_of_lt l, l⟩

theorem generation_step_cases (b g g2 : Nat) (hb : b < 64) (hg : 2 ^ b ∣ g) (hlt : g < 2 ^ 64)
    (h : g2 = g ∨ g2 = (g + ASID_FIRST_VERSION b) % 2 ^ 64) :
    g2 = g ∨ g2 = g + 2 ^ b ∨ (g + 2 ^ b = 2 ^ 64 ∧ g2 = 0) := by
  rw [ASID_FIRST_VERSION_eq b hb] at h
  rcases h with e | e
  · exact Or.inl e
  · rcases generation_add_cases b g hb hg hlt with ⟨a, _⟩ | ⟨a, c⟩
    · exact Or.inr (Or.inl (by rw [e, a]))
    · exact Or.inr (Or.inr ⟨c, by rw [e, a]⟩)

theorem asids_init_generation (cfg : Config) (s0 : State) (fld : Int) (ok : Bool)
    (r : InitResult) (h : asids_init cfg s0 fld ok = Except.ok r) :
    r.state.asid_generation = 2 ^ r.state.asid_bits ∧
    r.state.asid_bits = (get_cpu_asid_bits fld).1 := by
  unfold asids_init asids_init_bits at h
  cases ok with
  | false => simp at h
  | true =>
    simp only [if_true, Except.ok.injEq] at h
    subst h
    refine ⟨?_, rfl⟩
    show ASID_FIRST_VERSION (get_cpu_asid_bits fld).1 = 2 ^ (get_cpu_asid_bits fld).1
    rcases get_cpu_asid_bits_cases fld with e | e <;> rw [e] <;> rfl

theorem ReachableNoWrap.reachable {cfg : Config} {s : State} (h : ReachableNoWrap cfg s) :
    Reachable cfg s := by
  induction h with
  | init fld r hr => exact Reachable.init fld r hr
  | switch s mm cpu _ hc _ ih => exact Reachable.switch s mm cpu ih hc

theorem ReachableNoWrap.generation_ne_zero {cfg : Config} {s : State}
    (h : ReachableNoWrap cfg s) : s.asid_generation ≠ 0 := by
  induction h with
  | init fld r hr =>
    rw [(asids_init_generation cfg boot fld true r hr).1]
    exact Nat.pos_iff_ne_zero.mp (Nat.pow_pos (by norm_num))
  | switch s mm cpu hs _ hw ih =>
    have hi := hs.reachable.inv
    rcases generation_step_cases _ _ _ (lt_trans hi.bits_hi (by norm_num)) hi.gen_dvd hi.gen_lt
      (check_and_switch_context_generation cfg s mm cpu) with e | e | ⟨e, _⟩
    · rw [e]; exact ih
    · rw [e]
      have hpos : 0 < 2 ^ s.asid_bits := Nat.pow_pos (by norm_num)
      exact Nat.ne_of_gt (Nat.add_pos_right _ hpos)
    · exact absurd e (Nat.ne_of_lt hw)

/-- C6 (monotonic generation): `asids_init` sets `asid_generation` to
`2 ^ asid_bits`.  In every reachable state it is a multiple of
`2 ^ asid_bits`; `flush_context` leaves it unchanged; one call of
`new_context`, and one call of `check_and_switch_context`, leaves it
unchanged or increases it by exactly `2 ^ asid_bits`, once, the only
exception being the 64-bit wrap-around from `2 ^ 64 - 2 ^ asid_bits` to 0.
Short of that wrap-around it never decreases and is non-zero in every
reachable state. -/
theorem C6_generation_monotonic (cfg : Config) (s : State) (mm cpu : Nat)
    (h : Reachable cfg s) :
    (∀ (s0 : State) (fld : Int) (ok : Bool) (r : InitResult),
      asids_init cfg s0 fld ok = Except.ok r →
        r.state.asid_generation = 2 ^ r.state.asid_bits) ∧
    2 ^ s.asid_bits ∣ s.asid_generation ∧
    (flush_context cfg s).asid_generation = s.asid_generation ∧
    ((new_context cfg s mm).2.asid_generation = s.asid_generation ∨
      (new_context cfg s mm).2.asid_generation = s.asid_generation + 2 ^ s.asid_bits ∨
      (s.asid_generation + 2 ^ s.asid_bits = 2 ^ 64 ∧
        (new_context cfg s mm).2.asid_generation = 0)) ∧
    ((check_and_switch_context cfg s mm cpu).asid_generation = s.asid_generation ∨
      (check_and_switch_context cfg s mm cpu).asid_generation =
        s.asid_generation + 2 ^ s.asid_bits ∨
      (s.asid_generation + 2 ^ s.asid_bits = 2 ^ 64 ∧
        (check_and_switch_context cfg s mm cpu).asid_generation = 0)) ∧
    (s.asid_generation + 2 ^ s.asid_bits < 2 ^ 64 →
      s.asid_generation ≤ (new_context cfg s mm).2.asid_generation ∧
      s.asid_generation ≤ (check_and_switch_context cfg s mm cpu).asid_generation) ∧
    (ReachableNoWrap cfg s → s.asid_generation ≠ 0) := by
  have hi := h.inv
  have hb : s.asid_bits < 64 := lt_trans hi.bits_hi (by norm_num)
  have hn := generation_step_cases _ _ _ hb hi.gen_dvd hi.gen_lt
    (new_context_generation cfg s mm)
  have hc := generation_step_cases _ _ _ hb hi.gen_dvd hi.gen_lt
    (check_and_switch_context_generation cfg s mm cpu)
  refine ⟨?_, hi.gen_dvd, ?_, hn, hc, ?_, fun hw => hw.generation_ne_zero⟩
  · intro s0 fld ok r hr
    exact (asids_init_generation cfg s0 fld ok r hr).1
  · rw [flush_context_eq]
  · intro hlt
    constructor
    · rcases hn with e | e | ⟨e, _⟩
      · exact le_of_eq e.symm
      · rw [e]; exact Nat.le_add_right _ _
      · exact absurd e (Nat.ne_of_lt hlt)
    · rcases hc with e | e | ⟨e, _⟩
      · exact le_of_eq e.symm
      · rw [e]; exact Nat.le_add_right _ _
      · exact absurd e (Nat.ne_of_lt hlt)

/-- C6 at a concrete input: in the state with address space 0 on CPU 0
(generation 256) a switch to the fresh address space 1 leaves the generation
at 256. -/
theorem C6_generation_monotonic_witness :
    (check_and_switch_context example_cfg example_one_switch 1 0).asid_generation = 256 ∧
    2 ^ example_one_switch.asid_bits ∣ example_one_switch.asid_generation ∧
    (flush_context example_cfg example_one_switch).asid_generation =
      example_one_switch.asid_generation :=
  ⟨by decide,
   (C6_generation_monotonic example_cfg example_one_switch 1 0
     example_one_switch_reachable).2.1,
   (C6_generation_monotonic example_cfg example_one_switch 1 0
     example_one_switch_reachable).2.2.1⟩

/-! ## C7: what `flush_context` does -/

/-- C7 (rollover effect): for every state (with `1 ≤ asid_bits < 64`), after
`flush_context` (a) every possible CPU's `active_asids` is 0; (b) for every
possible CPU `i`, `reserved_asids[i]` is the old `active_asids[i]` if that
was non-zero and the old `reserved_asids[i]` otherwise; (c) the bits of
`asid_map` set below `NUM_USER_ASIDS` are exactly the indices
`asid2idx(reserved_asids[i])` of the new reserved identifiers, which all lie
below `NUM_USER_ASIDS`; (d) every CPU's `tlb_flush_pending` bit is set. -/
theorem C7_flush_context_effect (cfg : Config) (s : State)
    (h1 : 1 ≤ s.asid_bits) (h2 : s.asid_bits < 64) :
    (∀ c, c < cfg.ncpus → (flush_context cfg s).active_asids c = 0) ∧
    (∀ i, i < cfg.ncpus →
      (flush_context cfg s).reserved_asids i =
        if s.active_asids i ≠ 0 then s.active_asids i else s.reserved_asids i) ∧
    (∀ b, b < NUM_USER_ASIDS cfg s.asid_bits →
      ((flush_context cfg s).asid_map b = true ↔
        ∃ i, i < cfg.ncpus ∧
          asid2idx cfg s.asid_bits ((flush_context cfg s).reserved_asids i) = b)) ∧
    (∀ i, i < cfg.ncpus →
      asid2idx cfg s.asid_bits ((flush_context cfg s).reserved_asids i) <
        NUM_USER_ASIDS cfg s.asid_bits) ∧
    (∀ c, (flush_context cfg s).tlb_flush_pending c = true) := by
  have hres : ∀ i, i < cfg.ncpus → (flush_context cfg s).reserved_asids i = kept_asid s i := by
    intro i hi
    rw [flush_context_eq]
    simp only [hi, if_true]
  refine ⟨?_, ?_, ?_, ?_, ?_⟩
  · intro c hc
    rw [flush_context_eq]
    simp only [hc, if_true]
  · intro i hi
    rw [hres i hi]
    unfold kept_asid
    by_cases hz : s.active_asids i = 0
    · simp [hz]
    · simp [hz]
  · intro b hb
    rw [flush_context_map cfg s b hb]
    constructor
    · rintro ⟨i, hi, e⟩
      exact ⟨i, hi, by rw [hres i hi]; exact e⟩
    · rintro ⟨i, hi, e⟩
      exact ⟨i, hi, by rw [hres i hi] at e; exact e⟩
  · intro i _
    exact asid2idx_lt cfg _ _ h1 h2
  · intro c
    rw [flush_context_eq]

/-- C7 at a concrete input: `flush_context` in the state in which address
space 0 (identifier 258, index 1) runs on CPU 0 and CPUs 1 to 3 are idle. -/
theorem C7_flush_context_effect_witness :
    ((flush_context example_cfg example_one_switch).reserved_asids 0 = 258 ∧
      (flush_context example_cfg example_one_switch).asid_map 1 = true ∧
      (flush_context example_cfg example_one_switch).asid_map 2 = false) ∧
    (∀ c, c < example_cfg.ncpus →
      (flush_context example_cfg example_one_switch).active_asids c = 0) :=
  ⟨by decide,
   (C7_flush_context_effect example_cfg example_one_switch (by decide) (by decide)).1⟩

/-! ## C9 and C10: start-up checks -/

/-- C9 fails as stated: with 8-bit ASIDs (128 usable indices in this build)
and 127 possible CPUs, `NUM_USER_ASIDS - 1 <= num_possible_cpus()` holds, and
`asids_init` still returns success; `WARN_ON` has fired, nothing else. -/
theorem C9_asids_init_counterexample :
    sub64 (NUM_USER_ASIDS example_cfg_127 (get_cpu_asid_bits 0).1) 1 ≤ example_cfg_127.ncpus ∧
    asids_init example_cfg_127 boot 0 true =
      Except.ok { warned := true, state := example_init } :=
  ⟨by decide, rfl⟩

theorem sub64_one (n : Nat) (h1 : 1 ≤ n) (h2 : n < 2 ^ 64) : sub64 n 1 = n - 1 := by
  unfold sub64
  have e : n + 2 ^ 64 - 1 % 2 ^ 64 = n - 1 + 2 ^ 64 := by
    have : (1 : Nat) % 2 ^ 64 = 1 := by norm_num
    rw [this]
    omega
  rw [e, Nat.add_mod_right, Nat.mod_eq_of_lt (by omega)]

/-- C9 as amended: `asids_init` completes successfully whenever the bitmap
allocation succeeds, whatever the number of CPUs; it emits the `WARN_ON`
warning exactly when `NUM_USER_ASIDS - 1 <= num_possible_cpus()`; and it
aborts start-up (panic) exactly when the bitmap allocation fails. -/
theorem C9_asids_init_warns_only (cfg : Config) (s : State) (fld : Int) :
    (∃ r, asids_init cfg s fld true = Except.ok r ∧
      (r.warned = true ↔
        NUM_USER_ASIDS cfg (get_cpu_asid_bits fld).1 - 1 ≤ cfg.ncpus) ∧
      r.state.asid_bits = (get_cpu_asid_bits fld).1 ∧
      r.state.asid_generation = 2 ^ (get_cpu_asid_bits fld).1) ∧
    asids_init cfg s fld false = Except.error Fault.panic_no_bitmap := by
  have hb : 1 ≤ (get_cpu_asid_bits fld).1 ∧ (get_cpu_asid_bits fld).1 < 64 := by
    rcases get_cpu_asid_bits_cases fld with e | e <;> rw [e] <;> decide
  have hN1 := NUM_USER_ASIDS_pos cfg _ hb.1 hb.2
  have hN2 : NUM_USER_ASIDS cfg (get_cpu_asid_bits fld).1 < 2 ^ 64 :=
    lt_of_le_of_lt (NUM_USER_ASIDS_le cfg _ hb.1 hb.2)
      (Nat.pow_lt_pow_right (by norm_num) hb.2)
  refine ⟨⟨⟨decide (sub64 (NUM_USER_ASIDS cfg (get_cpu_asid_bits fld).1) 1 ≤ cfg.ncpus),
    { s with
      asid_bits := (get_cpu_asid_bits fld).1
      asid_generation := ASID_FIRST_VERSION (get_cpu_asid_bits fld).1
      asid_map := fun _ => false }⟩, rfl, ?_, rfl, ?_⟩, rfl⟩
  · rw [sub64_one _ hN1 hN2, decide_eq_true_eq]
  · exact ASID_FIRST_VERSION_eq _ hb.2

/-- C10: `verify_cpu_asid_bits` aborts (`cpu_panic_kernel`) if and only if the
ASID width found on the calling CPU by `get_cpu_asid_bits` is strictly
smaller than `asid_bits`; on a CPU of equal or larger width, and only there,
it returns with the allocator state unchanged. -/
theorem C10_verify_cpu_asid_bits (s : State) (fld : Int) :
    (verify_cpu_asid_bits s fld = Except.error Fault.cpu_panic_kernel ↔
      (get_cpu_asid_bits fld).1 < s.asid_bits) ∧
    (verify_cpu_asid_bits s fld = Except.ok s ↔
      s.asid_bits ≤ (get_cpu_asid_bits fld).1) := by
  unfold verify_cpu_asid_bits
  by_cases h : (get_cpu_asid_bits fld).1 < s.asid_bits
  · simp only [h, if_true, true_iff, true_and]
    constructor
    · intro e; cases e
    · intro h2; omega
  · simp only [h, if_false, iff_false, true_iff]
    constructor
    · intro e; cases e
    · omega

/-! ## C11, C12, C13: the three exits of `new_context` -/

/-- C11 (reserved-match exit of `new_context`): for every state and every
address space whose identifier `a` is non-zero, if at least one possible
CPU has `reserved_asids == a` (the full 64-bit value), then `new_context`
returns `asid_generation | (a & ~ASID_MASK)`; afterwards every CPU whose
`reserved_asids` was `a` holds that value (all of them, not only the first),
every other `reserved_asids` is unchanged, and `asid_map`, `cur_idx`,
`asid_generation` and `active_asids` are unchanged. -/
theorem C11_reserved_match_exit (cfg : Config) (s : State) (mm : Nat)
    (h0 : s.context_id mm ≠ 0)
    (hit : ∃ c, c < cfg.ncpus ∧ s.reserved_asids c = s.context_id mm) :
    (new_context cfg s mm).1 =
      s.asid_generation ||| (s.context_id mm &&& not64 (ASID_MASK s.asid_bits)) ∧
    (∀ c, c < cfg.ncpus → s.reserved_asids c = s.context_id mm →
      (new_context cfg s mm).2.reserved_asids c =
        s.asid_generation ||| (s.context_id mm &&& not64 (ASID_MASK s.asid_bits))) ∧
    (∀ c, s.reserved_asids c ≠ s.context_id mm →
      (new_context cfg s mm).2.reserved_asids c = s.reserved_asids c) ∧
    (new_context cfg s mm).2.asid_map = s.asid_map ∧
    (new_context cfg s mm).2.cur_idx = s.cur_idx ∧
    (new_context cfg s mm).2.asid_generation = s.asid_generation ∧
    (new_context cfg s mm).2.active_asids = s.active_asids := by
  rw [new_context_of_hit cfg s mm h0 hit]
  refine ⟨rfl, ?_, ?_, rfl, rfl, rfl, rfl⟩
  · intro c hc e
    simp only [hc, e, and_self, if_true]
  · intro c hn
    simp only [hn, and_false, if_false]

/-- C11 at a concrete input: after three rollovers CPU 0 still has the
identifier 258 of address space 0 reserved; `new_context` returns 1026, the
same local id 2 in generation 1024, and CPU 0's reserved identifier becomes
1026. -/
theorem C11_reserved_match_exit_witness :
    ((new_context example_cfg example_three_rollovers 0).1 = 1026 ∧
      (new_context example_cfg example_three_rollovers 0).2.reserved_asids 0 = 1026) ∧
    (new_context example_cfg example_three_rollovers 0).2.asid_map =
      example_three_rollovers.asid_map :=
  ⟨by decide,
   (C11_reserved_match_exit example_cfg example_three_rollovers 0 (by decide)
     ⟨0, by decide, by decide⟩).2.2.2.1⟩

/-- C12 (bitmap-reuse exit of `new_context`): for every state and every
address space whose identifier `a` is non-zero, if no possible CPU has
`reserved_asids == a` and bit `asid2idx(a)` of `asid_map` is clear, then
`new_context` returns `asid_generation | (a & ~ASID_MASK)`, sets exactly
that one bit, and leaves `cur_idx`, `asid_generation`, `reserved_asids`,
`active_asids` and `tlb_flush_pending` unchanged.  In a state with
`1 ≤ asid_bits ≤ 64` whose generation is a multiple of `2 ^ asid_bits`
the value returned has the local id of `a` and is of the current
generation. -/
theorem C12_bitmap_reuse_exit (cfg : Config) (s : State) (mm : Nat)
    (h0 : s.context_id mm ≠ 0)
    (miss : ∀ c, c < cfg.ncpus → s.reserved_asids c ≠ s.context_id mm)
    (hclear : s.asid_map (asid2idx cfg s.asid_bits (s.context_id mm)) = false) :
    (new_context cfg s mm).1 =
      s.asid_generation ||| (s.context_id mm &&& not64 (ASID_MASK s.asid_bits)) ∧
    (∀ b, (new_context cfg s mm).2.asid_map b =
      if b = asid2idx cfg s.asid_bits (s.context_id mm) then true else s.asid_map b) ∧
    (new_context cfg s mm).2.cur_idx = s.cur_idx ∧
    (new_context cfg s mm).2.asid_generation = s.asid_generation ∧
    (new_context cfg s mm).2.reserved_asids = s.reserved_asids ∧
    (new_context cfg s mm).2.active_asids = s.active_asids ∧
    (new_context cfg s mm).2.tlb_flush_pending = s.tlb_flush_pending ∧
    (1 ≤ s.asid_bits → s.asid_bits ≤ 64 → 2 ^ s.asid_bits ∣ s.asid_generation →
      local_id s.asid_bits (new_context cfg s mm).1 =
        local_id s.asid_bits (s.context_id mm) ∧
      is_stale s.asid_bits (new_context cfg s mm).1 s.asid_generation = false) := by
  have hm : ¬ ∃ c, c < cfg.ncpus ∧ s.reserved_asids c = s.context_id mm := by
    rintro ⟨c, hc, e⟩
    exact miss c hc e
  rw [new_context_of_clear cfg s mm h0 hm hclear]
  refine ⟨rfl, ?_, rfl, rfl, rfl, rfl, rfl, ?_⟩
  · intro b
    simp only [__set_bit, Function.update_apply]
  · intro h1 h2 hg
    refine ⟨local_id_newasid _ _ _ h1 h2 hg, ?_⟩
    apply or_low_not_stale
    rw [and_low_eq_mod _ _ h1 h2]
    exact Nat.mod_lt _ (Nat.pow_pos (by norm_num))

/-- C12 at a concrete input: address space 0 lost its index to a rollover
while address space 1 ran on CPU 0; its old index 1 is still free, and it
gets 514, the local id 2 again in generation 512. -/
theorem C12_bitmap_reuse_exit_witness :
    ((new_context example_cfg example_after_rollover 0).1 = 514 ∧
      example_after_rollover.asid_map 1 = false ∧
      (new_context example_cfg example_after_rollover 0).2.asid_map 1 = true) ∧
    (new_context example_cfg example_after_rollover 0).2.cur_idx =
      example_after_rollover.cur_idx :=
  ⟨by decide,
   (C12_bitmap_reuse_exit example_cfg example_after_rollover 0 (by decide) (by decide)
     (by decide)).2.2.1⟩

theorem NUM_USER_ASIDS_le_u32 (cfg : Config) (b : Nat) (h : b ≤ 32) :
    NUM_USER_ASIDS cfg b ≤ 2 ^ 32 := by
  unfold NUM_USER_ASIDS
  rw [ASID_FIRST_VERSION_eq b (by omega), Nat.shiftRight_eq_div_pow]
  have h1 : 2 ^ b ≤ 2 ^ 32 := Nat.pow_le_pow_right (by norm_num) h
  split
  · exact le_trans (Nat.div_le_self _ _) h1
  · exact h1

/-- The scan returns the least clear index at or after its start. -/
theorem find_next_zero_bit_eq_of_least (map : Nat → Bool) (size off i : Nat)
    (h1 : off ≤ i) (h2 : i < size) (h3 : map i = false)
    (hmin : ∀ j, off ≤ j → j < i → map j = true) :
    find_next_zero_bit map size off = i := by
  have hlt := find_next_zero_bit_lt_of_clear map size off i h1 h2 h3
  obtain ⟨_, b, c⟩ := find_next_zero_bit_spec map size off
  obtain ⟨b1, b2⟩ := b hlt
  rcases Nat.lt_trichotomy (find_next_zero_bit map size off) i with l | e | g
  · have := hmin _ b1 l
    rw [b2] at this
    exact absurd this (by simp)
  · exact e
  · have := c i h1 g
    rw [h3] at this
    exact absurd this (by simp)

/-- The scan exit of `new_context` in one equation, for the least clear
index `i` at or after `cur_idx`; the cursor is a `u32`. -/
theorem new_context_of_least_u32 (cfg : Config) (s : State) (mm i : Nat)
    (hpath : s.context_id mm = 0 ∨
      ((∀ c, c < cfg.ncpus → s.reserved_asids c ≠ s.context_id mm) ∧
        s.asid_map (asid2idx cfg s.asid_bits (s.context_id mm)) = true))
    (hi1 : s.cur_idx ≤ i) (hi2 : i < NUM_USER_ASIDS cfg s.asid_bits)
    (hclear : s.asid_map i = false)
    (hleast : ∀ j, s.cur_idx ≤ j → j < i → s.asid_map j = true) :
    new_context cfg s mm =
      (idx2asid cfg s.asid_bits i ||| s.asid_generation,
       { s with asid_map := Function.update s.asid_map i true, cur_idx := i % 2 ^ 32 }) := by
  have hscan : new_context_reuses cfg s mm = false := by
    unfold new_context_reuses
    rcases hpath with z | ⟨m, b⟩
    · simp [z]
    · have hm : ¬ ∃ c, c < cfg.ncpus ∧ s.reserved_asids c = s.context_id mm := by
        rintro ⟨c, hc, e⟩
        exact m c hc e
      simp only [check_update_reserved_asid_eq, decide_eq_false hm, b, Bool.not_true,
        Bool.or_self, Bool.and_false]
  have hf := find_next_zero_bit_eq_of_least s.asid_map (NUM_USER_ASIDS cfg s.asid_bits)
    s.cur_idx i hi1 hi2 hclear hleast
  have hfound : scan_rolls_over cfg s = false := by
    unfold scan_rolls_over
    rw [hf]
    simp only [beq_eq_false_iff_ne, ne_eq]
    omega
  rw [new_context_of_scan cfg s mm hscan, new_context_scan_of_found cfg s hfound, hf]
  rfl

/-- An index below `NUM_USER_ASIDS` fits the `u32` cursor. -/
theorem index_fits_u32 (cfg : Config) (b i : Nat) (hb : b ≤ 32)
    (hi : i < NUM_USER_ASIDS cfg b) : i % 2 ^ 32 = i :=
  Nat.mod_eq_of_lt (lt_of_lt_of_le hi (NUM_USER_ASIDS_le_u32 cfg b hb))

/-- The scan exit of `new_context` in one equation, for `asid_bits ≤ 32`. -/
theorem new_context_of_least (cfg : Config) (s : State) (mm i : Nat)
    (hb : s.asid_bits ≤ 32)
    (hpath : s.context_id mm = 0 ∨
      ((∀ c, c < cfg.ncpus → s.reserved_asids c ≠ s.context_id mm) ∧
        s.asid_map (asid2idx cfg s.asid_bits (s.context_id mm)) = true))
    (hi1 : s.cur_idx ≤ i) (hi2 : i < NUM_USER_ASIDS cfg s.asid_bits)
    (hclear : s.asid_map i = false)
    (hleast : ∀ j, s.cur_idx ≤ j → j < i → s.asid_map j = true) :
    new_context cfg s mm =
      (idx2asid cfg s.asid_bits i ||| s.asid_generation,
       { s with asid_map := Function.update s.asid_map i true, cur_idx := i }) := by
  rw [new_context_of_least_u32 cfg s mm i hpath hi1 hi2 hclear hleast,
    index_fits_u32 cfg _ i hb hi2]

/-- C13 (fresh-scan exit of `new_context`): when neither reuse exit applies
(the identifier of `mm` is 0, or no possible CPU has it reserved and its old
bit is already set) and `i` is the least index with `cur_idx ≤ i <
NUM_USER_ASIDS` that is clear in `asid_map`, then `new_context` sets exactly
bit `i`, sets `cur_idx := i` (as a `u32`, which is `i` itself for
`asid_bits ≤ 32`), performs no rollover (`asid_generation`,
`reserved_asids`, `active_asids`, `tlb_flush_pending` and everything else
stay as they are) and returns `idx2asid(i) | asid_generation`. -/
theorem C13_fresh_scan_exit (cfg : Config) (s : State) (mm i : Nat)
    (hpath : s.context_id mm = 0 ∨
      ((∀ c, c < cfg.ncpus → s.reserved_asids c ≠ s.context_id mm) ∧
        s.asid_map (asid2idx cfg s.asid_bits (s.context_id mm)) = true))
    (hi1 : s.cur_idx ≤ i) (hi2 : i < NUM_USER_ASIDS cfg s.asid_bits)
    (hclear : s.asid_map i = false)
    (hleast : ∀ j, s.cur_idx ≤ j → j < i → s.asid_map j = true) :
    new_context cfg s mm =
      (idx2asid cfg s.asid_bits i ||| s.asid_generation,
       { s with asid_map := Function.update s.asid_map i true, cur_idx := i % 2 ^ 32 }) ∧
    (s.asid_bits ≤ 32 → i % 2 ^ 32 = i) :=
  ⟨new_context_of_least_u32 cfg s mm i hpath hi1 hi2 hclear hleast,
   fun hb => index_fits_u32 cfg _ i hb hi2⟩

/-- C13 at a concrete input: with address space 0 on CPU 0 (index 1 taken,
`cur_idx = 1`) the fresh address space 1 gets index 2: identifier 260. -/
theorem C13_fresh_scan_exit_witness :
    ((new_context example_cfg example_one_switch 1).1 = 260 ∧
      (new_context example_cfg example_one_switch 1).2.cur_idx = 2) ∧
    new_context example_cfg example_one_switch 1 =
      (idx2asid example_cfg example_one_switch.asid_bits 2 |||
          example_one_switch.asid_generation,
       { example_one_switch with
         asid_map := Function.update example_one_switch.asid_map 2 true
         cur_idx := 2 % 2 ^ 32 }) :=
  ⟨by decide,
   (C13_fresh_scan_exit example_cfg example_one_switch 1 2 (Or.inl (by decide))
     (by decide) (by decide) (by decide) (by decide)).1⟩

/-! ## C14: local id 0 is never handed out -/

theorem idx2asid_ne_zero (cfg : Config) (b i : Nat) (h1 : 1 ≤ b) (h2 : b < 64)
    (hi1 : 1 ≤ i) (hi2 : i < NUM_USER_ASIDS cfg b) : idx2asid cfg b i ≠ 0 := by
  intro e
  have := asid2idx_idx2asid cfg b i h1 h2 hi2
  rw [e] at this
  have z : asid2idx cfg b 0 = 0 := by
    unfold asid2idx
    split <;> simp
  omega

theorem renew_context_asid_bits (cfg : Config) (s : State) (mm : Nat) :
    (renew_context cfg s mm).2.asid_bits = s.asid_bits := by
  cases hst : is_stale s.asid_bits (s.context_id mm) s.asid_generation with
  | true =>
    rw [renew_context_of_stale cfg s mm hst]
    exact new_context_asid_bits cfg s mm
  | false => rw [renew_context_of_current cfg s mm hst]

theorem check_and_switch_context_asid_bits (cfg : Config) (s : State) (mm cpu : Nat) :
    (check_and_switch_context cfg s mm cpu).asid_bits = s.asid_bits := by
  cases hf : takes_fastpath s mm cpu with
  | true => rw [check_and_switch_context_fast cfg s mm cpu hf]
  | false =>
    rw [check_and_switch_context_slow cfg s mm cpu hf,
      (switch_mm_slowpath_frame cfg s mm cpu).1, renew_context_asid_bits]

/-- The index that the scan of `new_context` marks is at least 1, and below
`NUM_USER_ASIDS` when there are more usable indices than CPUs. -/
theorem new_context_scan_index (cfg : Config) (s : State) (h : Inv cfg s)
    (hn : cfg.ncpus < NUM_USER_ASIDS cfg s.asid_bits - 1) :
    ∃ i, 1 ≤ i ∧ i < NUM_USER_ASIDS cfg s.asid_bits ∧
      (new_context_scan cfg s).1 =
        idx2asid cfg s.asid_bits i ||| (new_context_scan cfg s).2.asid_generation ∧
      (new_context_scan cfg s).2.cur_idx = i ∧
      2 ^ s.asid_bits ∣ (new_context_scan cfg s).2.asid_generation := by
  have h32 := NUM_USER_ASIDS_lt_u32 cfg s.asid_bits h.bits_lo h.bits_hi
  cases hf : scan_rolls_over cfg s with
  | false =>
    rw [new_context_scan_of_found cfg s hf]
    unfold scan_rolls_over at hf
    simp only [beq_eq_false_iff_ne, ne_eq] at hf
    obtain ⟨a, b, _⟩ := find_next_zero_bit_spec s.asid_map
      (NUM_USER_ASIDS cfg s.asid_bits) s.cur_idx
    have hlt := lt_of_le_of_ne a hf
    have hge := (b hlt).1
    have hpos := h.cur_pos
    exact ⟨_, by omega, hlt, rfl, Nat.mod_eq_of_lt (by omega), h.gen_dvd⟩
  | true =>
    rw [new_context_scan_of_full cfg s hf]
    have ht := rollover_Inv cfg s h
    have hbits : (rollover cfg s).asid_bits = s.asid_bits := (rollover_generation cfg s).2
    obtain ⟨a, b, _⟩ := scan_after_rollover cfg s hn
    rw [hbits]
    refine ⟨_, a, b, ?_, Nat.mod_eq_of_lt (by omega), ?_⟩
    · simp only [set_asid, hbits]
    · have := ht.gen_dvd
      rw [hbits] at this
      exact this

/-- With more usable indices than CPUs, `new_context` returns an identifier
with a non-zero local id for an address space whose identifier is 0 or has a
non-zero local id. -/
theorem new_context_local_id_ne_zero (cfg : Config) (s : State) (mm : Nat) (h : Inv cfg s)
    (hn : cfg.ncpus < NUM_USER_ASIDS cfg s.asid_bits - 1)
    (hid : s.context_id mm = 0 ∨ local_id s.asid_bits (s.context_id mm) ≠ 0) :
    local_id s.asid_bits (new_context cfg s mm).1 ≠ 0 := by
  have h64 : s.asid_bits < 64 := lt_trans h.bits_hi (by norm_num)
  cases hr : new_context_reuses cfg s mm with
  | false =>
    rw [new_context_of_scan cfg s mm hr]
    obtain ⟨i, i1, i2, e, _, hg⟩ := new_context_scan_index cfg s h hn
    rw [e, local_id_or _ _ _ h.bits_lo (le_of_lt h64) hg
      (idx2asid_lt cfg _ _ h.bits_lo (le_of_lt h64))]
    exact idx2asid_ne_zero cfg _ i h.bits_lo h64 i1 i2
  | true =>
    unfold new_context_reuses at hr
    simp only [Bool.and_eq_true, decide_eq_true_eq, Bool.or_eq_true, Bool.not_eq_true',
      check_update_reserved_asid_eq] at hr
    obtain ⟨h0, hr⟩ := hr
    have hl : local_id s.asid_bits (s.context_id mm) ≠ 0 := by
      rcases hid with z | z
      · exact absurd z h0
      · exact z
    by_cases hit : ∃ c, c < cfg.ncpus ∧ s.reserved_asids c = s.context_id mm
    · rw [new_context_of_hit cfg s mm h0 hit]
      simp only
      rw [local_id_newasid _ _ _ h.bits_lo (le_of_lt h64) h.gen_dvd]
      exact hl
    · have hclear : s.asid_map (asid2idx cfg s.asid_bits (s.context_id mm)) = false := by
        rcases hr with a | a
        · exact absurd a hit
        · exact a
      rw [new_context_of_clear cfg s mm h0 hit hclear]
      simp only
      rw [local_id_newasid _ _ _ h.bits_lo (le_of_lt h64) h.gen_dvd]
      exact hl

theorem renew_context_context_id (cfg : Config) (s : State) (mm m : Nat) :
    (renew_context cfg s mm).2.context_id m =
      if m = mm ∧ is_stale s.asid_bits (s.context_id mm) s.asid_generation = true then
        (new_context cfg s mm).1
      else s.context_id m := by
  cases hst : is_stale s.asid_bits (s.context_id mm) s.asid_generation with
  | true =>
    rw [renew_context_of_stale cfg s mm hst]
    simp only [Function.update_apply, new_context_context_id, and_true]
  | false =>
    rw [renew_context_of_current cfg s mm hst]
    simp

theorem check_and_switch_context_context_id (cfg : Config) (s : State) (mm cpu m : Nat) :
    (check_and_switch_context cfg s mm cpu).context_id m =
      if m = mm ∧ is_stale s.asid_bits (s.context_id mm) s.asid_generation = true then
        (new_context cfg s mm).1
      else s.context_id m := by
  cases hf : takes_fastpath s mm cpu with
  | true =>
    rw [check_and_switch_context_fast cfg s mm cpu hf]
    unfold takes_fastpath at hf
    simp only [Bool.and_eq_true, decide_eq_true_eq, Bool.not_eq_true'] at hf
    simp [hf.2]
  | false =>
    rw [check_and_switch_context_slow cfg s mm cpu hf,
      (switch_mm_slowpath_frame cfg s mm cpu).2.2.2.2.2, renew_context_context_id]

/-- In every reachable state of a configuration with more usable indices
than CPUs, the identifier of every address space is 0 or has a non-zero
local id. -/
theorem Reachable.context_id_local (cfg : Config) (s : State) (h : Reachable cfg s) :
    cfg.ncpus < NUM_USER_ASIDS cfg s.asid_bits - 1 →
    ∀ m, s.context_id m = 0 ∨ local_id s.asid_bits (s.context_id m) ≠ 0 := by
  induction h with
  | init fld r hr =>
    intro _ m
    left
    unfold asids_init asids_init_bits at hr
    simp only [if_true, Except.ok.injEq] at hr
    subst hr
    rfl
  | switch s mm cpu hs _ ih =>
    intro hn m
    rw [check_and_switch_context_asid_bits] at hn ⊢
    rw [check_and_switch_context_context_id]
    split
    · right
      exact new_context_local_id_ne_zero cfg s mm hs.inv hn (ih hn mm)
    · exact ih hn m

/-- C14 (local id 0 is never handed out): assume `NUM_USER_ASIDS - 1` exceeds
the number of possible CPUs.  In every reachable state the identifier that
`new_context` returns has a non-zero local id (`value & ~ASID_MASK` is not
0); the scan never selects bitmap index 0, with or without a rollover; and
the identifier of every address space is either 0 (never switched in) or
has a non-zero local id. -/
theorem C14_local_id_zero_never_allocated (cfg : Config) (s : State) (mm : Nat)
    (h : Reachable cfg s) (hn : cfg.ncpus < NUM_USER_ASIDS cfg s.asid_bits - 1) :
    (new_context cfg s mm).1 &&& not64 (ASID_MASK s.asid_bits) ≠ 0 ∧
    (scan_rolls_over cfg s = false →
      1 ≤ find_next_zero_bit s.asid_map (NUM_USER_ASIDS cfg s.asid_bits) s.cur_idx) ∧
    (scan_rolls_over cfg s = true →
      1 ≤ find_next_zero_bit (rollover cfg s).asid_map (NUM_USER_ASIDS cfg s.asid_bits) 1) ∧
    1 ≤ (new_context_scan cfg s).2.cur_idx ∧
    (∀ m, s.context_id m = 0 ∨ s.context_id m &&& not64 (ASID_MASK s.asid_bits) ≠ 0) := by
  have hi := h.inv
  have hall := Reachable.context_id_local cfg s h hn
  refine ⟨new_context_local_id_ne_zero cfg s mm hi hn (hall mm), ?_, ?_, ?_, hall⟩
  · intro hf
    unfold scan_rolls_over at hf
    simp only [beq_eq_false_iff_ne, ne_eq] at hf
    obtain ⟨a, b, _⟩ := find_next_zero_bit_spec s.asid_map
      (NUM_USER_ASIDS cfg s.asid_bits) s.cur_idx
    have hlt := lt_of_le_of_ne a hf
    exact le_trans hi.cur_pos (b hlt).1
  · intro _
    exact (scan_after_rollover cfg s hn).1
  · obtain ⟨i, i1, _, _, e, _⟩ := new_context_scan_index cfg s hi hn
    rw [e]
    exact i1

/-- C14 at a concrete input: in the state with address space 0 on CPU 0 the
fresh address space 1 gets the identifier 260, local id 4. -/
theorem C14_local_id_zero_never_allocated_witness :
    (new_context example_cfg example_one_switch 1).1 &&&
        not64 (ASID_MASK example_one_switch.asid_bits) = 4 ∧
    (new_context example_cfg example_one_switch 1).1 &&&
        not64 (ASID_MASK example_one_switch.asid_bits) ≠ 0 :=
  ⟨by decide,
   (C14_local_id_zero_never_allocated example_cfg example_one_switch 1
     example_one_switch_reachable (by decide)).1⟩

/-! ## C15: exhausting the bitmap -/

theorem zero_is_stale (b : Nat) : is_stale b 0 (2 ^ b) = true := by
  rw [is_stale_eq_true_iff, Nat.zero_div, Nat.div_self (Nat.pow_pos (by norm_num))]
  exact Nat.zero_ne_one

/-- A switch to an address space without identifier, in the first
generation, goes through `new_context` and its scan. -/
theorem switch_fresh_step (cfg : Config) (t : State) (mm cpu : Nat)
    (hgen : t.asid_generation = 2 ^ t.asid_bits) (hid : t.context_id mm = 0) :
    (check_and_switch_context cfg t mm cpu).asid_bits = (new_context_scan cfg t).2.asid_bits ∧
    (check_and_switch_context cfg t mm cpu).asid_generation =
      (new_context_scan cfg t).2.asid_generation ∧
    (check_and_switch_context cfg t mm cpu).asid_map = (new_context_scan cfg t).2.asid_map ∧
    (check_and_switch_context cfg t mm cpu).reserved_asids =
      (new_context_scan cfg t).2.reserved_asids ∧
    (check_and_switch_context cfg t mm cpu).cur_idx = (new_context_scan cfg t).2.cur_idx ∧
    (check_and_switch_context cfg t mm cpu).context_id =
      Function.update (new_context_scan cfg t).2.context_id mm (new_context_scan cfg t).1 := by
  have hst : is_stale t.asid_bits (t.context_id mm) t.asid_generation = true := by
    rw [hid, hgen]
    exact zero_is_stale _
  have hslow : takes_fastpath t mm cpu = false := by
    unfold takes_fastpath
    simp [hst]
  have hscan : new_context_reuses cfg t mm = false := by
    unfold new_context_reuses
    simp [hid]
  obtain ⟨f1, f2, f3, f4, f5, f6⟩ := switch_mm_slowpath_frame cfg t mm cpu
  rw [check_and_switch_context_slow cfg t mm cpu hslow, f1, f2, f3, f4, f5, f6,
    renew_context_of_stale cfg t mm hst, new_context_of_scan cfg t mm hscan]
  exact ⟨rfl, rfl, rfl, rfl, rfl, rfl⟩

theorem asids_init_bits_fresh (cfg : Config) (bits : Nat) (r : InitResult) (hb : bits < 64)
    (h : asids_init_bits cfg boot bits true = Except.ok r) :
    FreshAllocated cfg bits r.state 0 := by
  unfold asids_init_bits at h
  simp only [if_true, Except.ok.injEq] at h
  subst h
  refine ⟨rfl, ASID_FIRST_VERSION_eq bits hb, rfl, ?_, fun _ _ => rfl, ?_⟩
  · intro i
    constructor
    · intro e
      exact absurd e (by simp)
    · rintro ⟨a, b⟩
      omega
  · intro j hj
    omega

/-- One more fresh address space while a free index is left: it gets the
next index, and nothing rolls over. -/
theorem FreshAllocated.step (cfg : Config) (bits : Nat) (t : State) (n cpu : Nat)
    (hb : bits ≤ 32) (h : FreshAllocated cfg bits t n) (hn : n + 1 < NUM_USER_ASIDS cfg bits) :
    FreshAllocated cfg bits (check_and_switch_context cfg t n cpu) (n + 1) := by
  obtain ⟨f1, f2, f3, _, f5, f6⟩ := switch_fresh_step cfg t n cpu
    (by rw [h.gen_eq, h.bits_eq]) (h.ids_hi n le_rfl)
  have hleast : ∀ j, t.cur_idx ≤ j → j < n + 1 → t.asid_map j = true := by
    intro j j1 j2
    rw [h.cur_eq] at j1
    exact (h.map_iff j).mpr ⟨le_trans (le_max_right n 1) j1, by omega⟩
  have hclear : t.asid_map (n + 1) = false := by
    cases e : t.asid_map (n + 1) with
    | false => rfl
    | true =>
      have := ((h.map_iff (n + 1)).mp e).2
      omega
  have hcur : t.cur_idx ≤ n + 1 := by
    rw [h.cur_eq]
    exact max_le (Nat.le_succ n) (Nat.succ_le_succ (Nat.zero_le n))
  have hnew := new_context_of_least cfg t n (n + 1) (by rw [h.bits_eq]; exact hb)
    (Or.inl (h.ids_hi n le_rfl)) hcur (by rw [h.bits_eq]; exact hn) hclear hleast
  have hscan : new_context_reuses cfg t n = false := by
    unfold new_context_reuses
    simp [h.ids_hi n le_rfl]
  rw [new_context_of_scan cfg t n hscan] at hnew
  rw [hnew] at f1 f2 f3 f5 f6
  simp only at f1 f2 f3 f5 f6
  refine ⟨by rw [f1, h.bits_eq], by rw [f2, h.gen_eq], ?_, ?_, ?_, ?_⟩
  · rw [f5]
    exact (max_eq_left (Nat.succ_le_succ (Nat.zero_le n))).symm
  · intro i
    rw [f3, Function.update_apply]
    by_cases e : i = n + 1
    · simp [e]
    · rw [if_neg e, h.map_iff i]
      constructor
      · rintro ⟨a, b⟩
        exact ⟨a, by omega⟩
      · rintro ⟨a, b⟩
        exact ⟨a, by omega⟩
  · intro j hj
    rw [f6, Function.update_apply, if_neg (by omega)]
    exact h.ids_hi j (by omega)
  · intro j hj
    rw [f6, Function.update_apply]
    by_cases e : j = n
    · rw [if_pos e, h.bits_eq, h.gen_eq, e]
    · rw [if_neg e]
      exact h.ids_lo j (by omega)

/-- The fresh address space that finds every index taken causes one
rollover: the generation advances by one epoch. -/
theorem FreshAllocated.full (cfg : Config) (bits : Nat) (t : State) (n cpu : Nat)
    (hb1 : 1 ≤ bits) (hb : bits < 32) (h : FreshAllocated cfg bits t n)
    (hn : n + 1 = NUM_USER_ASIDS cfg bits) :
    scan_rolls_over cfg t = true ∧
    (check_and_switch_context cfg t n cpu).asid_generation = 2 ^ bits + 2 ^ bits := by
  obtain ⟨_, f2, _, _, _, _⟩ := switch_fresh_step cfg t n cpu
    (by rw [h.gen_eq, h.bits_eq]) (h.ids_hi n le_rfl)
  have hfull : scan_rolls_over cfg t = true := by
    unfold scan_rolls_over
    simp only [beq_iff_eq]
    obtain ⟨a, b, _⟩ := find_next_zero_bit_spec t.asid_map
      (NUM_USER_ASIDS cfg t.asid_bits) t.cur_idx
    rcases Nat.eq_or_lt_of_le a with e | l
    · exact e
    · obtain ⟨b1, b2⟩ := b l
      have b3 := le_of_eq_of_le h.cur_eq.symm b1
      rw [h.bits_eq] at l
      have : t.asid_map (find_next_zero_bit t.asid_map
          (NUM_USER_ASIDS cfg t.asid_bits) t.cur_idx) = true :=
        (h.map_iff _).mpr ⟨le_trans (le_max_right n 1) b3, by
          rw [h.bits_eq]
          omega⟩
      rw [b2] at this
      exact absurd this (by simp)
  refine ⟨hfull, ?_⟩
  rw [f2, new_context_scan_of_full cfg t hfull]
  simp only [set_asid]
  rw [(rollover_generation cfg t).1, h.gen_eq, h.bits_eq, ASID_FIRST_VERSION_eq bits (by omega)]
  apply Nat.mod_eq_of_lt
  have : 2 ^ bits ≤ 2 ^ 31 := Nat.pow_le_pow_right (by norm_num) (by omega)
  have : (2 : Nat) ^ 31 + 2 ^ 31 < 2 ^ 64 := by norm_num
  omega

theorem switch_fresh_allocated (cfg : Config) (bits : Nat) (cpu_of : Nat → Nat) (r : InitResult)
    (hb : bits < 32) (h : asids_init_bits cfg boot bits true = Except.ok r) (n : Nat)
    (hn : n + 1 ≤ NUM_USER_ASIDS cfg bits) :
    FreshAllocated cfg bits (switch_fresh cfg cpu_of r.state n) n := by
  induction n with
  | zero => exact asids_init_bits_fresh cfg bits r (by omega) h
  | succ n ih =>
    exact FreshAllocated.step cfg bits _ n (cpu_of n) (by omega) (ih (by omega)) (by omega)

/-- C15 (exhaustion scenario): with `asid_bits = 4`, the halved mode
(`NUM_USER_ASIDS = 8`) and 4 CPUs, starting from the state that the body of
`asids_init` leaves, CPU 0 is switched to 8 fresh address spaces in a row.
The first seven get the indices 1 to 7 in order (identifiers 18 to 30) in
generation 16 and no scan rolls over; the eighth switch rolls over exactly
once (generation 16 becomes 32) and gets 34: generation 32, index 1, which
was clear in the rebuilt bitmap, while CPU 0 has reserved 30, the identifier
of the seventh address space.  In general (any build mode, any
`1 ≤ asid_bits < 32`, the switches on any CPUs), from the initial state the
first `NUM_USER_ASIDS - 1` fresh allocations get the indices
`1 .. NUM_USER_ASIDS - 1` in order without rollover, and the next one
causes exactly one: the generation advances by one epoch. -/
theorem C15_exhaustion_scenario (cfg : Config) (bits : Nat) (cpu_of : Nat → Nat)
    (r : InitResult) (hb1 : 1 ≤ bits) (hb : bits < 32)
    (hinit : asids_init_bits cfg boot bits true = Except.ok r) :
    (asids_init_bits example_cfg boot 4 true =
        Except.ok { warned := false, state := scenario_init } ∧
      NUM_USER_ASIDS example_cfg 4 = 8 ∧
      (List.range 8).map
          (fun n => (switch_fresh example_cfg (fun _ => 0) scenario_init n).asid_generation) =
        [16, 16, 16, 16, 16, 16, 16, 16] ∧
      (List.range 8).map
          (fun n => scan_rolls_over example_cfg
            (switch_fresh example_cfg (fun _ => 0) scenario_init n)) =
        [false, false, false, false, false, false, false, true] ∧
      (List.range 7).map
          (fun j => (switch_fresh example_cfg (fun _ => 0) scenario_init 7).context_id j) =
        [18, 20, 22, 24, 26, 28, 30] ∧
      (List.range 7).map
          (fun j => asid2idx example_cfg 4
            ((switch_fresh example_cfg (fun _ => 0) scenario_init 7).context_id j)) =
        [1, 2, 3, 4, 5, 6, 7] ∧
      (switch_fresh example_cfg (fun _ => 0) scenario_init 8).asid_generation = 32 ∧
      (switch_fresh example_cfg (fun _ => 0) scenario_init 8).context_id 7 = 34 ∧
      is_stale 4 34 32 = false ∧
      asid2idx example_cfg 4 34 = 1 ∧
      (rollover example_cfg
        (switch_fresh example_cfg (fun _ => 0) scenario_init 7)).asid_map 1 = false ∧
      (switch_fresh example_cfg (fun _ => 0) scenario_init 8).reserved_asids 0 = 30 ∧
      (switch_fresh example_cfg (fun _ => 0) scenario_init 8).reserved_asids 0 =
        (switch_fresh example_cfg (fun _ => 0) scenario_init 8).context_id 6) ∧
    (∀ n, n + 1 ≤ NUM_USER_ASIDS cfg bits →
      (switch_fresh cfg cpu_of r.state n).asid_generation = 2 ^ bits ∧
      (n + 1 < NUM_USER_ASIDS cfg bits →
        scan_rolls_over cfg (switch_fresh cfg cpu_of r.state n) = false) ∧
      ∀ j, j < n →
        (switch_fresh cfg cpu_of r.state n).context_id j =
          idx2asid cfg bits (j + 1) ||| 2 ^ bits ∧
        asid2idx cfg bits ((switch_fresh cfg cpu_of r.state n).context_id j) = j + 1) ∧
    scan_rolls_over cfg
      (switch_fresh cfg cpu_of r.state (NUM_USER_ASIDS cfg bits - 1)) = true ∧
    (switch_fresh cfg cpu_of r.state (NUM_USER_ASIDS cfg bits)).asid_generation =
      2 ^ bits + 2 ^ bits := by
  have hN := NUM_USER_ASIDS_pos cfg bits hb1 (by omega)
  refine ⟨⟨rfl, by decide, by decide, by decide, by decide, by decide, by decide, by decide,
    by decide, by decide, by decide, by decide, by decide⟩, ?_, ?_⟩
  · intro n hn
    have h := switch_fresh_allocated cfg bits cpu_of r hb hinit n hn
    refine ⟨h.gen_eq, ?_, ?_⟩
    · intro hlt
      have hleast : ∀ j, (switch_fresh cfg cpu_of r.state n).cur_idx ≤ j → j < n + 1 →
          (switch_fresh cfg cpu_of r.state n).asid_map j = true := by
        intro j j1 j2
        rw [h.cur_eq] at j1
        exact (h.map_iff j).mpr ⟨le_trans (le_max_right n 1) j1, by omega⟩
      have hclear : (switch_fresh cfg cpu_of r.state n).asid_map (n + 1) = false := by
        cases e : (switch_fresh cfg cpu_of r.state n).asid_map (n + 1) with
        | false => rfl
        | true =>
          have := ((h.map_iff (n + 1)).mp e).2
          omega
      have hcur : (switch_fresh cfg cpu_of r.state n).cur_idx ≤ n + 1 := by
        rw [h.cur_eq]
        exact max_le (Nat.le_succ n) (Nat.succ_le_succ (Nat.zero_le n))
      unfold scan_rolls_over
      rw [h.bits_eq, find_next_zero_bit_eq_of_least _ _ _ (n + 1) hcur hlt hclear hleast]
      simp only [beq_eq_false_iff_ne, ne_eq]
      omega
    · intro j hj
      refine ⟨h.ids_lo j hj, ?_⟩
      rw [h.ids_lo j hj]
      exact asid2idx_or_generation cfg bits (j + 1) _ hb1 (by omega) (by omega) (dvd_refl _)
  · have h := switch_fresh_allocated cfg bits cpu_of r hb hinit
      (NUM_USER_ASIDS cfg bits - 1) (by omega)
    have hfull := FreshAllocated.full cfg bits _ (NUM_USER_ASIDS cfg bits - 1)
      (cpu_of (NUM_USER_ASIDS cfg bits - 1)) hb1 hb h (by omega)
    refine ⟨hfull.1, ?_⟩
    have e : NUM_USER_ASIDS cfg bits = (NUM_USER_ASIDS cfg bits - 1) + 1 := by omega
    rw [e]
    exact hfull.2

/-- C15 at a concrete input: the general part for the scenario itself, 4-bit
ASIDs on 4 CPUs with every switch on CPU 0. -/
theorem C15_exhaustion_scenario_witness :
    scan_rolls_over example_cfg
      (switch_fresh example_cfg (fun _ => 0) scenario_init
        (NUM_USER_ASIDS example_cfg 4 - 1)) = true ∧
    (switch_fresh example_cfg (fun _ => 0) scenario_init
      (NUM_USER_ASIDS example_cfg 4)).asid_generation = 2 ^ 4 + 2 ^ 4 :=
  (C15_exhaustion_scenario example_cfg 4 (fun _ => 0)
    { warned := false, state := scenario_init } (by decide) (by decide) rfl).2.2

/-! ## C16: the lock-free path -/

theorem goto_switch_mm_fastpath_eq (s : State) (mm cpu : Nat) :
    goto_switch_mm_fastpath s mm cpu = takes_fastpath s mm cpu := by
  unfold goto_switch_mm_fastpath takes_fastpath atomic64_cmpxchg
  by_cases h : s.active_asids cpu = 0
  · simp [h]
  · simp [h]

theorem check_and_switch_context_frame_fast (cfg : Config) (s : State) (mm cpu : Nat)
    (h : goto_switch_mm_fastpath s mm cpu = true) :
    check_and_switch_context cfg s mm cpu =
      { s with active_asids := Function.update s.active_asids cpu (s.context_id mm) } :=
  check_and_switch_context_fast cfg s mm cpu (by rw [← goto_switch_mm_fastpath_eq]; exact h)

/-- Two CPUs have each been switched once, and the two address spaces have
identifiers of the current generation. -/
theorem alternating_fast (cfg : Config) (a b c0 c1 : Nat) (calls : List (Nat × Nat)) :
    ∀ s : State,
      s.active_asids c0 ≠ 0 → s.active_asids c1 ≠ 0 →
      s.context_id a ≠ 0 → s.context_id b ≠ 0 →
      is_stale s.asid_bits (s.context_id a) s.asid_generation = false →
      is_stale s.asid_bits (s.context_id b) s.asid_generation = false →
      (∀ p, p ∈ calls → (p.1 = a ∨ p.1 = b) ∧ (p.2 = c0 ∨ p.2 = c1)) →
      all_fastpath cfg s calls = true ∧
      same_but_active s (run_switches cfg s calls) ∧
      ∀ cpu, (run_switches cfg s calls).active_asids cpu =
        match running calls cpu with
        | some mm => s.context_id mm
        | none => s.active_asids cpu := by
  induction calls with
  | nil =>
    intro s _ _ _ _ _ _ _
    exact ⟨rfl, ⟨rfl, rfl, rfl, rfl, rfl, rfl, rfl, rfl⟩, fun _ => rfl⟩
  | cons p rest ih =>
    intro s h0 h1 ha hb sa sb hall
    obtain ⟨hmm, hcpu⟩ := hall p (List.mem_cons_self _ _)
    have hid : s.context_id p.1 ≠ 0 ∧
        is_stale s.asid_bits (s.context_id p.1) s.asid_generation = false := by
      rcases hmm with e | e <;> rw [e]
      · exact ⟨ha, sa⟩
      · exact ⟨hb, sb⟩
    have hact : s.active_asids p.2 ≠ 0 := by
      rcases hcpu with e | e <;> rw [e]
      · exact h0
      · exact h1
    have hgo : goto_switch_mm_fastpath s p.1 p.2 = true := by
      rw [goto_switch_mm_fastpath_eq]
      unfold takes_fastpath
      simp [hact, hid.2]
    have hstep := check_and_switch_context_frame_fast cfg s p.1 p.2 hgo
    have hupd : ∀ c, s.active_asids c ≠ 0 →
        (check_and_switch_context cfg s p.1 p.2).active_asids c ≠ 0 := by
      intro c hc
      rw [hstep]
      simp only [Function.update_apply]
      split
      · exact hid.1
      · exact hc
    have hrest := ih (check_and_switch_context cfg s p.1 p.2) (hupd c0 h0) (hupd c1 h1)
      (by rw [hstep]; exact ha) (by rw [hstep]; exact hb)
      (by rw [hstep]; exact sa) (by rw [hstep]; exact sb)
      (fun q hq => hall q (List.mem_cons_of_mem _ hq))
    obtain ⟨r1, r2, r3⟩ := hrest
    refine ⟨?_, ?_, ?_⟩
    · simp only [all_fastpath, hgo, r1, Bool.and_self]
    · obtain ⟨e1, e2, e3, e4, e5, e6, e7, e8⟩ := r2
      have hs : same_but_active s (check_and_switch_context cfg s p.1 p.2) := by
        rw [hstep]
        exact ⟨rfl, rfl, rfl, rfl, rfl, rfl, rfl, rfl⟩
      obtain ⟨d1, d2, d3, d4, d5, d6, d7, d8⟩ := hs
      exact ⟨e1.trans d1, e2.trans d2, e3.trans d3, e4.trans d4, e5.trans d5, e6.trans d6,
        e7.trans d7, e8.trans d8⟩
    · intro cpu
      show (run_switches cfg (check_and_switch_context cfg s p.1 p.2) rest).active_asids cpu = _
      rw [r3 cpu]
      simp only [running]
      cases hr : running rest cpu with
      | some m =>
        simp only
        rw [hstep]
      | none =>
        simp only
        rw [hstep]
        simp only [Function.update_apply]
        by_cases e : p.2 = cpu
        · simp [e]
        · have e2 : ¬ cpu = p.2 := fun x => e x.symm
          simp [e, e2]

/-- C16 (fast path): in a sequential execution `check_and_switch_context(mm,
cpu)` takes the lock-free path exactly when `active_asids[cpu]` is non-zero
on entry and `mm->context.id` is of the current generation (the
compare-and-swap then always succeeds); in that case the only change of
state is `active_asids[cpu] := mm->context.id`, with `asid_map`, `cur_idx`,
`asid_generation`, every `reserved_asids`, `tlb_flush_pending` and
`mm->context.id` unchanged and no TLB flush issued, and otherwise the locked
path runs.  Hence, once CPUs `c0` and `c1` have each been switched (non-zero
`active_asids`) and address spaces `a` and `b` have been allocated
identifiers of the current generation, every switch of any sequence of
switches of these CPUs between these address spaces is a fast-path switch,
nothing but `active_asids` changes, each CPU holds the identifier of the
address space it runs, and the two CPUs hold the same value whenever they
run the same address space. -/
theorem C16_fast_path (cfg : Config) (s : State) (a b c0 c1 : Nat)
    (calls : List (Nat × Nat))
    (h0 : s.active_asids c0 ≠ 0) (h1 : s.active_asids c1 ≠ 0)
    (ha : s.context_id a ≠ 0) (hb : s.context_id b ≠ 0)
    (sa : is_stale s.asid_bits (s.context_id a) s.asid_generation = false)
    (sb : is_stale s.asid_bits (s.context_id b) s.asid_generation = false)
    (hcalls : ∀ p, p ∈ calls → (p.1 = a ∨ p.1 = b) ∧ (p.2 = c0 ∨ p.2 = c1)) :
    (∀ (t : State) (mm cpu : Nat),
      (goto_switch_mm_fastpath t mm cpu = true ↔
        t.active_asids cpu ≠ 0 ∧
          (t.context_id mm ^^^ t.asid_generation) >>> t.asid_bits = 0) ∧
      (goto_switch_mm_fastpath t mm cpu = true →
        check_and_switch_context cfg t mm cpu =
          { t with active_asids := Function.update t.active_asids cpu (t.context_id mm) }) ∧
      (goto_switch_mm_fastpath t mm cpu = false →
        check_and_switch_context cfg t mm cpu = switch_mm_slowpath cfg t mm cpu)) ∧
    all_fastpath cfg s calls = true ∧
    same_but_active s (run_switches cfg s calls) ∧
    (∀ cpu mm, running calls cpu = some mm →
      (run_switches cfg s calls).active_asids cpu = s.context_id mm) ∧
    (∀ mm, running calls c0 = some mm → running calls c1 = some mm →
      (run_switches cfg s calls).active_asids c0 =
        (run_switches cfg s calls).active_asids c1) := by
  obtain ⟨r1, r2, r3⟩ := alternating_fast cfg a b c0 c1 calls s h0 h1 ha hb sa sb hcalls
  have hrun : ∀ cpu mm, running calls cpu = some mm →
      (run_switches cfg s calls).active_asids cpu = s.context_id mm := by
    intro cpu mm e
    have := r3 cpu
    rw [e] at this
    exact this
  refine ⟨?_, r1, r2, hrun, ?_⟩
  · intro t mm cpu
    refine ⟨?_, check_and_switch_context_frame_fast cfg t mm cpu, ?_⟩
    · rw [goto_switch_mm_fastpath_eq]
      unfold takes_fastpath is_stale
      simp
    · intro hg
      exact check_and_switch_context_slow cfg t mm cpu
        (by rw [← goto_switch_mm_fastpath_eq]; exact hg)
  · intro mm e0 e1
    rw [hrun c0 mm e0, hrun c1 mm e1]

/-- C16 at a concrete input: address space 0 runs on CPU 0 (identifier 258)
and address space 1 on CPU 1 (identifier 260); then the CPUs swap, both run
address space 0, swap back, and both run address space 1.  All eight
switches are lock-free, and at the end both CPUs hold 260. -/
theorem C16_fast_path_witness :
    ((run_switches example_cfg example_two_cpus
        [(1, 0), (0, 1), (0, 0), (0, 1), (0, 0), (1, 1), (1, 0), (1, 1)]).active_asids 0 = 260 ∧
      (run_switches example_cfg example_two_cpus
        [(1, 0), (0, 1), (0, 0), (0, 1), (0, 0), (1, 1), (1, 0), (1, 1)]).active_asids 1 = 260) ∧
    all_fastpath example_cfg example_two_cpus
      [(1, 0), (0, 1), (0, 0), (0, 1), (0, 0), (1, 1), (1, 0), (1, 1)] = true ∧
    same_but_active example_two_cpus
      (run_switches example_cfg example_two_cpus
        [(1, 0), (0, 1), (0, 0), (0, 1), (0, 0), (1, 1), (1, 0), (1, 1)]) :=
  ⟨by decide,
   (C16_fast_path example_cfg example_two_cpus 0 1 0 1
     [(1, 0), (0, 1), (0, 0), (0, 1), (0, 0), (1, 1), (1, 0), (1, 1)]
     (by decide) (by decide) (by decide) (by decide) (by decide) (by decide)
     (by decide)).2.1,
   (C16_fast_path example_cfg example_two_cpus 0 1 0 1
     [(1, 0), (0, 1), (0, 0), (0, 1), (0, 0), (1, 1), (1, 0), (1, 1)]
     (by decide) (by decide) (by decide) (by decide) (by decide) (by decide)
     (by decide)).2.2.1⟩

/-! ## C17: TLB flushes on the locked path -/

/-- What `new_context` does to the pending flags and the flush counters. -/
theorem new_context_pending (cfg : Config) (s : State) (mm : Nat) :
    (new_context cfg s mm).2.local_tlb_flushes = s.local_tlb_flushes ∧
    (new_context cfg s mm).2.tlb_flush_pending =
      if (!new_context_reuses cfg s mm && scan_rolls_over cfg s) = true then fun _ => true
      else s.tlb_flush_pending := by
  cases hr : new_context_reuses cfg s mm with
  | false =>
    rw [new_context_of_scan cfg s mm hr]
    cases hf : scan_rolls_over cfg s with
    | false =>
      rw [new_context_scan_of_found cfg s hf]
      exact ⟨rfl, rfl⟩
    | true =>
      rw [new_context_scan_of_full cfg s hf, rollover_eq]
      exact ⟨rfl, rfl⟩
  | true =>
    simp only [Bool.not_true, Bool.false_and, Bool.false_eq_true, if_false]
    unfold new_context_reuses at hr
    simp only [Bool.and_eq_true, decide_eq_true_eq, Bool.or_eq_true, Bool.not_eq_true',
      check_update_reserved_asid_eq] at hr
    obtain ⟨h0, hr⟩ := hr
    by_cases hit : ∃ c, c < cfg.ncpus ∧ s.reserved_asids c = s.context_id mm
    · rw [new_context_of_hit cfg s mm h0 hit]
      exact ⟨rfl, rfl⟩
    · have hclear : s.asid_map (asid2idx cfg s.asid_bits (s.context_id mm)) = false := by
        rcases hr with x | x
        · exact absurd x hit
        · exact x
      rw [new_context_of_clear cfg s mm h0 hit hclear]
      exact ⟨rfl, rfl⟩

theorem renew_context_pending (cfg : Config) (s : State) (mm : Nat) :
    (renew_context cfg s mm).2.local_tlb_flushes = s.local_tlb_flushes ∧
    (renew_context cfg s mm).2.tlb_flush_pending =
      if rollover_in_call cfg s mm = true then fun _ => true else s.tlb_flush_pending := by
  unfold rollover_in_call
  cases hst : is_stale s.asid_bits (s.context_id mm) s.asid_generation with
  | true =>
    rw [renew_context_of_stale cfg s mm hst]
    simp only [Bool.true_and]
    exact new_context_pending cfg s mm
  | false =>
    rw [renew_context_of_current cfg s mm hst]
    simp

/-- C17 (flush on the slow path): for every execution of
`check_and_switch_context(mm, cpu)` that takes the locked path,
`local_flush_tlb_all` is performed (once, on this CPU) if and only if
`tlb_flush_pending[cpu]` was set on entry or `new_context` performed a
rollover during this call; on return `tlb_flush_pending[cpu]` is clear; and
for every other CPU the pending bit is set if a rollover happened during the
call and is unchanged otherwise. -/
theorem C17_slow_path_flush (cfg : Config) (s : State) (mm cpu : Nat)
    (hslow : goto_switch_mm_fastpath s mm cpu = false) :
    ((check_and_switch_context cfg s mm cpu).local_tlb_flushes cpu =
        s.local_tlb_flushes cpu + 1 ↔
      (s.tlb_flush_pending cpu = true ∨ rollover_in_call cfg s mm = true)) ∧
    ((check_and_switch_context cfg s mm cpu).local_tlb_flushes cpu = s.local_tlb_flushes cpu ↔
      ¬ (s.tlb_flush_pending cpu = true ∨ rollover_in_call cfg s mm = true)) ∧
    (∀ c, c ≠ cpu →
      (check_and_switch_context cfg s mm cpu).local_tlb_flushes c = s.local_tlb_flushes c) ∧
    (check_and_switch_context cfg s mm cpu).tlb_flush_pending cpu = false ∧
    (∀ c, c ≠ cpu →
      (check_and_switch_context cfg s mm cpu).tlb_flush_pending c =
        if rollover_in_call cfg s mm = true then true else s.tlb_flush_pending c) := by
  rw [check_and_switch_context_slow cfg s mm cpu
    (by rw [← goto_switch_mm_fastpath_eq]; exact hslow)]
  obtain ⟨p1, p2⟩ := renew_context_pending cfg s mm
  unfold switch_mm_slowpath flush_if_pending
  simp only
  cases hroll : rollover_in_call cfg s mm with
  | true =>
    rw [hroll] at p2
    simp only [if_true] at p2
    simp only [p1, p2, if_true, Function.update_same, or_true, iff_true, not_true_eq_false,
      iff_false, true_and]
    refine ⟨by omega, ?_, ?_⟩
    · intro c hc
      simp [Function.update_noteq hc]
    · intro c hc
      simp [Function.update_noteq hc]
  | false =>
    rw [hroll] at p2
    simp only [Bool.false_eq_true, if_false] at p2
    simp only [p1, p2, Bool.false_eq_true, or_false, if_false]
    cases hp : s.tlb_flush_pending cpu with
    | true =>
      simp only [if_true, Function.update_same, true_iff, not_true_eq_false, iff_false, true_and]
      refine ⟨by omega, ?_, ?_⟩
      · intro c hc
        simp [Function.update_noteq hc]
      · intro c hc
        simp [Function.update_noteq hc]
    | false =>
      simp [hp, p1, p2]

/-- C17 at a concrete input: after the rollover CPU 0 has a pending flush;
its next switch (to address space 0, on the locked path) performs one local
TLB flush and clears the flag, while CPU 1 keeps its own. -/
theorem C17_slow_path_flush_witness :
    (example_after_rollover.tlb_flush_pending 0 = true ∧
      (check_and_switch_context example_cfg example_after_rollover 0 0).local_tlb_flushes 0 =
        example_after_rollover.local_tlb_flushes 0 + 1 ∧
      (check_and_switch_context example_cfg example_after_rollover 0 0).tlb_flush_pending 1 =
        true) ∧
    (check_and_switch_context example_cfg example_after_rollover 0 0).tlb_flush_pending 0 =
      false :=
  ⟨by decide,
   (C17_slow_path_flush example_cfg example_after_rollover 0 0 (by decide)).2.2.2.1⟩

/-! ## The four exits of `new_context`, as one case analysis -/

/-- A property holds of what `new_context` returns as soon as it holds at each
of its four exits: the reserved match, the reuse of the old index, the scan
that finds a free index, and the scan after a rollover. -/
theorem new_context_cases (cfg : Config) (s : State) (mm : Nat) (P : Nat × State → Prop)
    (hit : s.context_id mm ≠ 0 →
      (∃ c, c < cfg.ncpus ∧ s.reserved_asids c = s.context_id mm) →
      P (s.asid_generation ||| (s.context_id mm &&& not64 (ASID_MASK s.asid_bits)),
         { s with
           reserved_asids := fun c =>
             if c < cfg.ncpus ∧ s.reserved_asids c = s.context_id mm then
               s.asid_generation ||| (s.context_id mm &&& not64 (ASID_MASK s.asid_bits))
             else s.reserved_asids c }))
    (clear : s.context_id mm ≠ 0 →
      (¬ ∃ c, c < cfg.ncpus ∧ s.reserved_asids c = s.context_id mm) →
      s.asid_map (asid2idx cfg s.asid_bits (s.context_id mm)) = false →
      P (s.asid_generation ||| (s.context_id mm &&& not64 (ASID_MASK s.asid_bits)),
         { s with
           asid_map := __set_bit (asid2idx cfg s.asid_bits (s.context_id mm)) s.asid_map }))
    (found : new_context_reuses cfg s mm = false → scan_rolls_over cfg s = false →
      P (set_asid cfg s
        (find_next_zero_bit s.asid_map (NUM_USER_ASIDS cfg s.asid_bits) s.cur_idx)
        s.asid_generation))
    (full : new_context_reuses cfg s mm = false → scan_rolls_over cfg s = true →
      P (set_asid cfg (rollover cfg s)
        (find_next_zero_bit (rollover cfg s).asid_map
          (NUM_USER_ASIDS cfg (rollover cfg s).asid_bits) 1)
        (rollover cfg s).asid_generation)) :
    P (new_context cfg s mm) := by
  cases hr : new_context_reuses cfg s mm with
  | false =>
    rw [new_context_of_scan cfg s mm hr]
    cases hf : scan_rolls_over cfg s with
    | false =>
      rw [new_context_scan_of_found cfg s hf]
      exact found hr hf
    | true =>
      rw [new_context_scan_of_full cfg s hf]
      exact full hr hf
  | true =>
    unfold new_context_reuses at hr
    simp only [Bool.and_eq_true, decide_eq_true_eq, Bool.or_eq_true, Bool.not_eq_true',
      check_update_reserved_asid_eq] at hr
    obtain ⟨h0, hr⟩ := hr
    by_cases hh : ∃ c, c < cfg.ncpus ∧ s.reserved_asids c = s.context_id mm
    · rw [new_context_of_hit cfg s mm h0 hh]
      exact hit h0 hh
    · have hclear : s.asid_map (asid2idx cfg s.asid_bits (s.context_id mm)) = false := by
        rcases hr with x | x
        · exact absurd x hh
        · exact x
      rw [new_context_of_clear cfg s mm h0 hh hclear]
      exact clear h0 hh hclear

/-- When `new_context` reaches the bitmap scan: the address space has no
identifier yet, or its identifier is reserved nowhere and its old index is
taken. -/
theorem new_context_reuses_eq_false_iff (cfg : Config) (s : State) (mm : Nat) :
    new_context_reuses cfg s mm = false ↔
      (s.context_id mm = 0 ∨
        ((¬ ∃ c, c < cfg.ncpus ∧ s.reserved_asids c = s.context_id mm) ∧
          s.asid_map (asid2idx cfg s.asid_bits (s.context_id mm)) = true)) := by
  unfold new_context_reuses
  simp only [check_update_reserved_asid_eq]
  by_cases h0 : s.context_id mm = 0
  · simp [h0]
  · by_cases hh : ∃ c, c < cfg.ncpus ∧ s.reserved_asids c = s.context_id mm
    · simp [h0, hh]
    · cases hm : s.asid_map (asid2idx cfg s.asid_bits (s.context_id mm)) <;> simp [h0, hh, hm]

/-- What `new_context` does to `active_asids`: nothing, unless it performs a
rollover, which zeroes the entry of every possible CPU. -/
theorem new_context_active (cfg : Config) (s : State) (mm : Nat) :
    (new_context cfg s mm).2.active_asids =
      if (!new_context_reuses cfg s mm && scan_rolls_over cfg s) = true then
        fun c => if c < cfg.ncpus then 0 else s.active_asids c
      else s.active_asids := by
  apply new_context_cases cfg s mm
    (fun r => r.2.active_asids =
      if (!new_context_reuses cfg s mm && scan_rolls_over cfg s) = true then
        fun c => if c < cfg.ncpus then 0 else s.active_asids c
      else s.active_asids)
  · intro h0 hh
    have : new_context_reuses cfg s mm = true := by
      cases h : new_context_reuses cfg s mm
      · rcases (new_context_reuses_eq_false_iff cfg s mm).mp h with a | a
        · exact absurd a h0
        · exact absurd hh a.1
      · rfl
    simp [this]
  · intro h0 hh hc
    have : new_context_reuses cfg s mm = true := by
      cases h : new_context_reuses cfg s mm
      · rcases (new_context_reuses_eq_false_iff cfg s mm).mp h with a | a
        · exact absurd a h0
        · rw [hc] at a
          exact absurd a.2 (by simp)
      · rfl
    simp [this]
  · intro hr hf
    simp [hr, hf, set_asid]
  · intro hr hf
    simp only [hr, hf, set_asid, rollover_eq]
    rfl

/-- What the locked re-check does to `active_asids`. -/
theorem renew_context_active (cfg : Config) (s : State) (mm : Nat) :
    (renew_context cfg s mm).2.active_asids =
      if rollover_in_call cfg s mm = true then
        fun c => if c < cfg.ncpus then 0 else s.active_asids c
      else s.active_asids := by
  unfold rollover_in_call
  cases hst : is_stale s.asid_bits (s.context_id mm) s.asid_generation with
  | true =>
    rw [renew_context_of_stale cfg s mm hst]
    simp only [Bool.true_and]
    exact new_context_active cfg s mm
  | false =>
    rw [renew_context_of_current cfg s mm hst]
    simp

/-- The locked re-check returns the identifier it leaves in `mm->context.id`. -/
theorem renew_context_id (cfg : Config) (s : State) (mm : Nat) :
    (renew_context cfg s mm).2.context_id mm = (renew_context cfg s mm).1 := by
  cases hst : is_stale s.asid_bits (s.context_id mm) s.asid_generation with
  | true =>
    rw [renew_context_of_stale cfg s mm hst]
    simp
  | false =>
    rw [renew_context_of_current cfg s mm hst]

/-- The entries of `active_asids` and the pending flags after a context
switch, in terms of the state before it. -/
theorem check_and_switch_context_active_pending (cfg : Config) (s : State) (mm cpu : Nat) :
    (check_and_switch_context cfg s mm cpu).active_asids cpu =
      (check_and_switch_context cfg s mm cpu).context_id mm ∧
    (∀ c, c ≠ cpu →
      (check_and_switch_context cfg s mm cpu).active_asids c =
        if rollover_in_call cfg s mm = true ∧ c < cfg.ncpus then 0 else s.active_asids c) ∧
    (goto_switch_mm_fastpath s mm cpu = true →
      (check_and_switch_context cfg s mm cpu).tlb_flush_pending = s.tlb_flush_pending) ∧
    (goto_switch_mm_fastpath s mm cpu = false →
      (check_and_switch_context cfg s mm cpu).tlb_flush_pending cpu = false ∧
      ∀ c, c ≠ cpu →
        (check_and_switch_context cfg s mm cpu).tlb_flush_pending c =
          if rollover_in_call cfg s mm = true then true else s.tlb_flush_pending c) := by
  cases hf : takes_fastpath s mm cpu with
  | true =>
    have hg : goto_switch_mm_fastpath s mm cpu = true := by
      rw [goto_switch_mm_fastpath_eq]; exact hf
    rw [check_and_switch_context_fast cfg s mm cpu hf]
    have hns : is_stale s.asid_bits (s.context_id mm) s.asid_generation = false := by
      unfold takes_fastpath at hf
      simp only [Bool.and_eq_true, decide_eq_true_eq, Bool.not_eq_true'] at hf
      exact hf.2
    have hroll : rollover_in_call cfg s mm = false := by
      unfold rollover_in_call
      rw [hns]
      rfl
    refine ⟨by simp, ?_, fun _ => rfl, ?_⟩
    · intro c hc
      simp [Function.update_noteq hc, hroll]
    · intro h
      rw [hg] at h
      exact absurd h (by simp)
  | false =>
    have hg : goto_switch_mm_fastpath s mm cpu = false := by
      rw [goto_switch_mm_fastpath_eq]; exact hf
    rw [check_and_switch_context_slow cfg s mm cpu hf]
    obtain ⟨_, p2⟩ := renew_context_pending cfg s mm
    have a2 := renew_context_active cfg s mm
    have hid := renew_context_id cfg s mm
    obtain ⟨f1, f2, f3, f4, f5, f6, f7⟩ := flush_if_pending_frame (renew_context cfg s mm).2 cpu
    refine ⟨?_, ?_, ?_, ?_⟩
    · unfold switch_mm_slowpath
      simp only [Function.update_same]
      rw [f7]
      exact hid.symm
    · intro c hc
      unfold switch_mm_slowpath
      simp only [Function.update_noteq hc]
      rw [f4, a2]
      by_cases hroll : rollover_in_call cfg s mm = true
      · by_cases hcn : c < cfg.ncpus <;> simp [hroll, hcn]
      · simp [hroll]
    · intro h
      rw [hg] at h
      exact absurd h (by simp)
    · intro _
      unfold switch_mm_slowpath flush_if_pending
      simp only
      rw [p2]
      by_cases hroll : rollover_in_call cfg s mm = true
      · simp only [hroll, if_true, Function.update_same, true_and]
        intro c hc
        simp [Function.update_noteq hc]
      · simp only [hroll, Bool.false_eq_true, if_false]
        cases hp : s.tlb_flush_pending cpu with
        | true =>
          simp only [if_true, Function.update_same, true_and]
          intro c hc
          simp [Function.update_noteq hc]
        | false =>
          have p3 : (renew_context cfg s mm).2.tlb_flush_pending = s.tlb_flush_pending := by
            rw [p2]
            simp [hroll]
          simp [hp, p3]

/-- The count of local TLB flushes of the switching CPU after a context switch
that leaves by the locked path. -/
theorem check_and_switch_context_flushes (cfg : Config) (s : State) (mm cpu : Nat)
    (hslow : goto_switch_mm_fastpath s mm cpu = false) :
    (check_and_switch_context cfg s mm cpu).local_tlb_flushes cpu =
      if s.tlb_flush_pending cpu = true ∨ rollover_in_call cfg s mm = true then
        s.local_tlb_flushes cpu + 1
      else s.local_tlb_flushes cpu := by
  rw [check_and_switch_context_slow cfg s mm cpu
    (by rw [← goto_switch_mm_fastpath_eq]; exact hslow)]
  obtain ⟨p1, p2⟩ := renew_context_pending cfg s mm
  unfold switch_mm_slowpath flush_if_pending
  simp only
  by_cases hroll : rollover_in_call cfg s mm = true
  · have p3 : (renew_context cfg s mm).2.tlb_flush_pending = fun _ => true := by
      rw [p2]
      simp [hroll]
    simp [p1, p3, hroll]
  · have p3 : (renew_context cfg s mm).2.tlb_flush_pending = s.tlb_flush_pending := by
      rw [p2]
      simp [hroll]
    cases hp : s.tlb_flush_pending cpu <;> simp [p1, p3, hroll, hp]

/-! ## C22 and C26: pending flushes and active identifiers -/

/-- The state that a successful `asids_init` leaves, field by field. -/
theorem asids_init_state (cfg : Config) (fld : Int) (r : InitResult)
    (h : asids_init cfg boot fld true = Except.ok r) :
    r.state.asid_bits = (get_cpu_asid_bits fld).1 ∧
    r.state.asid_generation = ASID_FIRST_VERSION (get_cpu_asid_bits fld).1 ∧
    r.state.asid_map = (fun _ => false) ∧
    r.state.active_asids = (fun _ => 0) ∧
    r.state.reserved_asids = (fun _ => 0) ∧
    r.state.tlb_flush_pending = (fun _ => false) ∧
    r.state.cur_idx = 1 ∧
    r.state.context_id = (fun _ => 0) ∧
    r.state.local_tlb_flushes = (fun _ => 0) := by
  unfold asids_init asids_init_bits at h
  simp only [if_true, Except.ok.injEq] at h
  subst h
  exact ⟨rfl, rfl, rfl, rfl, rfl, rfl, rfl, rfl, rfl⟩

/-- A context switch on a possible CPU keeps `Quiet`. -/
theorem check_and_switch_context_Quiet (cfg : Config) (s : State) (mm cpu : Nat)
    (hc : cpu < cfg.ncpus) (h : Quiet cfg s) :
    Quiet cfg (check_and_switch_context cfg s mm cpu) := by
  obtain ⟨a1, a2, p1, p2⟩ := check_and_switch_context_active_pending cfg s mm cpu
  constructor
  · intro c hp
    cases hg : goto_switch_mm_fastpath s mm cpu with
    | true =>
      rw [p1 hg] at hp
      have hne : c ≠ cpu := by
        rintro rfl
        have h0 := h.pending_idle c hp
        unfold goto_switch_mm_fastpath at hg
        simp only [Bool.and_eq_true, decide_eq_true_eq] at hg
        exact hg.1.1 h0
      rw [a2 c hne]
      split
      · rfl
      · exact h.pending_idle c hp
    | false =>
      obtain ⟨q1, q2⟩ := p2 hg
      have hne : c ≠ cpu := by
        rintro rfl
        rw [q1] at hp
        exact absurd hp (by simp)
      rw [a2 c hne]
      rw [q2 c hne] at hp
      by_cases hroll : rollover_in_call cfg s mm = true
      · by_cases hcn : c < cfg.ncpus
        · simp [hroll, hcn]
        · simp only [hroll, hcn, and_false, if_false]
          exact h.impossible_idle c (by omega)
      · simp only [hroll, Bool.false_eq_true, if_false] at hp
        simp only [hroll, false_and, if_false]
        exact h.pending_idle c hp
  · intro c hcn
    have hne : c ≠ cpu := by omega
    rw [a2 c hne]
    split
    · rfl
    · exact h.impossible_idle c hcn

/-- Every reachable state is `Quiet`. -/
theorem Reachable.quiet {cfg : Config} {s : State} (h : Reachable cfg s) : Quiet cfg s := by
  induction h with
  | init fld r hr =>
    obtain ⟨_, _, _, e4, _, _, _, _, _⟩ := asids_init_state cfg fld r hr
    constructor
    · intro c _
      rw [e4]
    · intro c _
      rw [e4]
  | switch s mm cpu _ hc ih => exact check_and_switch_context_Quiet cfg s mm cpu hc ih

/-- C22 (no use of a rolled-over identifier space before flushing): in every
state reachable by sequential execution, every CPU whose `tlb_flush_pending`
bit is set has `active_asids == 0`.  So the lock-free path is never taken by
a CPU with a pending flush, and a context switch on a CPU that had a pending
flush, or that performs the rollover itself, leaves by the locked path with
the bit cleared and `local_flush_tlb_all` performed: in the state it leaves
behind, the CPU has a non-zero active identifier only with its pending bit
clear. -/
theorem C22_pending_flush_means_idle (cfg : Config) (s : State) (h : Reachable cfg s) :
    (∀ c, s.tlb_flush_pending c = true → s.active_asids c = 0) ∧
    (∀ mm cpu, goto_switch_mm_fastpath s mm cpu = true → s.tlb_flush_pending cpu = false) ∧
    (∀ mm cpu, cpu < cfg.ncpus →
      (s.tlb_flush_pending cpu = true ∨ rollover_in_call cfg s mm = true) →
      goto_switch_mm_fastpath s mm cpu = false ∧
      (check_and_switch_context cfg s mm cpu).tlb_flush_pending cpu = false ∧
      (check_and_switch_context cfg s mm cpu).local_tlb_flushes cpu =
        s.local_tlb_flushes cpu + 1) := by
  have hq := h.quiet
  have hfast : ∀ mm cpu, goto_switch_mm_fastpath s mm cpu = true →
      s.tlb_flush_pending cpu = false := by
    intro mm cpu hg
    cases hp : s.tlb_flush_pending cpu with
    | false => rfl
    | true =>
      have h0 := hq.pending_idle cpu hp
      unfold goto_switch_mm_fastpath at hg
      simp only [Bool.and_eq_true, decide_eq_true_eq] at hg
      exact absurd h0 hg.1.1
  refine ⟨hq.pending_idle, hfast, ?_⟩
  intro mm cpu hc hor
  have hslow : goto_switch_mm_fastpath s mm cpu = false := by
    cases hg : goto_switch_mm_fastpath s mm cpu with
    | false => rfl
    | true =>
      rcases hor with hp | hroll
      · rw [hfast mm cpu hg] at hp
        exact absurd hp (by simp)
      · unfold rollover_in_call at hroll
        unfold goto_switch_mm_fastpath at hg
        simp only [Bool.and_eq_true, decide_eq_true_eq, Bool.not_eq_true'] at hg hroll
        rw [hg.1.2] at hroll
        exact absurd hroll.1.1 (by simp)
  obtain ⟨_, _, _, p2⟩ := check_and_switch_context_active_pending cfg s mm cpu
  refine ⟨hslow, (p2 hslow).1, ?_⟩
  rw [check_and_switch_context_flushes cfg s mm cpu hslow, if_pos hor]

/-- C26 (active identifiers are current): in every state reachable by
sequential execution, every CPU's `active_asids` is either 0 or an
identifier of the current generation,
`((active ^ asid_generation) >> asid_bits) == 0`; a rollover zeroes the
`active_asids` of every possible CPU in the step that advances the
generation. -/
theorem C26_active_zero_or_current (cfg : Config) (s : State) (h : Reachable cfg s) :
    (∀ c, s.active_asids c = 0 ∨
      (s.active_asids c ^^^ s.asid_generation) >>> s.asid_bits = 0) ∧
    (∀ c, c < cfg.ncpus → (rollover cfg s).active_asids c = 0) ∧
    (rollover cfg s).asid_generation =
      (s.asid_generation + ASID_FIRST_VERSION s.asid_bits) % 2 ^ 64 := by
  refine ⟨?_, ?_, (rollover_generation cfg s).1⟩
  · intro c
    by_cases hc : c < cfg.ncpus
    · rcases h.inv.active_current c hc with a | a
      · exact Or.inl a
      · exact Or.inr (is_stale_false_xor _ _ _ a)
    · exact Or.inl (h.quiet.impossible_idle c (by omega))
  · intro c hc
    rw [rollover_eq]
    simp [hc]

/-- C26 at a concrete input: after the first switch CPU 0 has the active
identifier 258, of the current generation 256. -/
theorem C26_active_zero_or_current_witness :
    (example_one_switch.active_asids 0 = 258 ∧ example_one_switch.asid_generation = 256) ∧
    (example_one_switch.active_asids 0 = 0 ∨
      (example_one_switch.active_asids 0 ^^^ example_one_switch.asid_generation) >>>
        example_one_switch.asid_bits = 0) :=
  ⟨by decide,
   (C26_active_zero_or_current example_cfg example_one_switch
     example_one_switch_reachable).1 0⟩

/-! ## Fresh address spaces from start-up on -/

/-- Switching fresh address spaces in on possible CPUs leads to reachable
states. -/
theorem switch_fresh_reachable (cfg : Config) (cpu_of : Nat → Nat) (s : State)
    (hs : Reachable cfg s) (n : Nat) (hc : ∀ k, k < n → cpu_of k < cfg.ncpus) :
    Reachable cfg (switch_fresh cfg cpu_of s n) := by
  induction n with
  | zero => exact hs
  | succ n ih =>
    exact Reachable.switch _ n (cpu_of n) (ih (fun k hk => hc k (by omega))) (hc n (by omega))

/-- While an index is left, the scan for the next fresh address space finds
it. -/
theorem FreshAllocated.scan_found (cfg : Config) (bits : Nat) (t : State) (n : Nat)
    (h : FreshAllocated cfg bits t n) (hn : n + 1 < NUM_USER_ASIDS cfg bits) :
    scan_rolls_over cfg t = false := by
  have hleast : ∀ j, t.cur_idx ≤ j → j < n + 1 → t.asid_map j = true := by
    intro j j1 j2
    rw [h.cur_eq] at j1
    exact (h.map_iff j).mpr ⟨le_trans (le_max_right n 1) j1, by omega⟩
  have hclear : t.asid_map (n + 1) = false := by
    cases e : t.asid_map (n + 1) with
    | false => rfl
    | true =>
      have := ((h.map_iff (n + 1)).mp e).2
      omega
  have hcur : t.cur_idx ≤ n + 1 := by
    rw [h.cur_eq]
    exact max_le (Nat.le_succ n) (Nat.succ_le_succ (Nat.zero_le n))
  unfold scan_rolls_over
  rw [h.bits_eq, find_next_zero_bit_eq_of_least _ _ _ (n + 1) hcur hn hclear hleast]
  simp only [beq_eq_false_iff_ne, ne_eq]
  omega

/-- The switch to the next fresh address space rolls over exactly when its
scan finds no index. -/
theorem fresh_rollover_in_call (cfg : Config) (bits : Nat) (t : State) (n : Nat)
    (h : FreshAllocated cfg bits t n) :
    rollover_in_call cfg t n = scan_rolls_over cfg t := by
  have hid := h.ids_hi n le_rfl
  have hst : is_stale t.asid_bits (t.context_id n) t.asid_generation = true := by
    rw [hid, h.gen_eq, h.bits_eq]
    exact zero_is_stale _
  have hscan : new_context_reuses cfg t n = false :=
    (new_context_reuses_eq_false_iff cfg t n).mpr (Or.inl hid)
  unfold rollover_in_call
  rw [hst, hscan]
  simp

/-- After `n` possible CPUs have each been switched to a fresh address space
of their own, CPU `k` has the identifier of address space `k` as its active
identifier. -/
theorem switch_fresh_active (cfg : Config) (bits : Nat) (r : InitResult)
    (hb : bits < 32) (h : asids_init_bits cfg boot bits true = Except.ok r) (n : Nat)
    (hn : n + 1 ≤ NUM_USER_ASIDS cfg bits) :
    ∀ k, k < n →
      (switch_fresh cfg (fun k => k) r.state n).active_asids k =
        idx2asid cfg bits (k + 1) ||| 2 ^ bits := by
  induction n with
  | zero =>
    intro k hk
    omega
  | succ n ih =>
    intro k hk
    have hprev := switch_fresh_allocated cfg bits (fun k => k) r hb h n (by omega)
    have hnext := switch_fresh_allocated cfg bits (fun k => k) r hb h (n + 1) hn
    obtain ⟨a1, a2, _, _⟩ := check_and_switch_context_active_pending cfg
      (switch_fresh cfg (fun k => k) r.state n) n n
    by_cases e : k = n
    · subst e
      show (check_and_switch_context cfg (switch_fresh cfg (fun k => k) r.state k) k k).active_asids
        k = _
      rw [a1]
      exact hnext.ids_lo k (by omega)
    · show (check_and_switch_context cfg (switch_fresh cfg (fun k => k) r.state n) n n).active_asids
        k = _
      rw [a2 k e, fresh_rollover_in_call cfg bits _ n hprev,
        FreshAllocated.scan_found cfg bits _ n hprev (by omega)]
      simp only [Bool.false_eq_true, false_and, if_false]
      exact ih (by omega) k (by omega)

/-- A bitmap with every bit from 1 up to the size set has no clear bit for
the scan. -/
theorem find_next_zero_bit_full (map : Nat → Bool) (size : Nat)
    (h : ∀ j, 1 ≤ j → j < size → map j = true) : find_next_zero_bit map size 1 = size := by
  obtain ⟨a, b, _⟩ := find_next_zero_bit_spec map size 1
  rcases Nat.eq_or_lt_of_le a with e | l
  · exact e
  · obtain ⟨b1, b2⟩ := b l
    rw [h _ b1 l] at b2
    exact absurd b2 (by simp)

/-- The identifier built from a usable index and the first generation is not
zero. -/
theorem fresh_id_ne_zero (cfg : Config) (bits i : Nat) :
    idx2asid cfg bits i ||| 2 ^ bits ≠ 0 := by
  intro e
  have h : (idx2asid cfg bits i ||| 2 ^ bits).testBit bits = true := by
    rw [Nat.testBit_or, Nat.testBit_two_pow_self]
    simp
  rw [e] at h
  simp at h

/-! ## As many CPUs as usable identifiers -/

/-- The width that `asids_init` stores is 8 or 16, and its result is that of
its body for this width. -/
theorem asids_init_width (cfg : Config) (fld : Int) (r : InitResult)
    (h : asids_init cfg boot fld true = Except.ok r) :
    1 ≤ r.state.asid_bits ∧ r.state.asid_bits < 32 ∧
    asids_init_bits cfg boot r.state.asid_bits true = Except.ok r := by
  have e := (asids_init_state cfg fld r h).1
  rw [e]
  refine ⟨?_, ?_, h⟩
  · rcases get_cpu_asid_bits_cases fld with c | c <;> omega
  · rcases get_cpu_asid_bits_cases fld with c | c <;> omega

/-- With `NUM_USER_ASIDS - 1` possible CPUs, all of them busy with address
spaces of their own right after start-up: every usable index is taken, and
the rollover that the next fresh address space causes marks every one of
them again, so that the scan after `flush_context` finds no clear index. -/
theorem tight_rollover (cfg : Config) (fld : Int) (r : InitResult)
    (hinit : asids_init cfg boot fld true = Except.ok r)
    (htight : NUM_USER_ASIDS cfg r.state.asid_bits - 1 = cfg.ncpus) :
    FreshAllocated cfg r.state.asid_bits (all_cpus_busy cfg r.state) cfg.ncpus ∧
    Reachable cfg (all_cpus_busy cfg r.state) ∧
    (∀ k, k < cfg.ncpus →
      (all_cpus_busy cfg r.state).active_asids k =
        idx2asid cfg r.state.asid_bits (k + 1) ||| 2 ^ r.state.asid_bits) ∧
    scan_rolls_over cfg (all_cpus_busy cfg r.state) = true ∧
    (∀ j, 1 ≤ j → j < NUM_USER_ASIDS cfg r.state.asid_bits →
      (rollover cfg (all_cpus_busy cfg r.state)).asid_map j = true) ∧
    find_next_zero_bit (rollover cfg (all_cpus_busy cfg r.state)).asid_map
      (NUM_USER_ASIDS cfg r.state.asid_bits) 1 = NUM_USER_ASIDS cfg r.state.asid_bits := by
  obtain ⟨hb1, hb, hinit2⟩ := asids_init_width cfg fld r hinit
  have hN := NUM_USER_ASIDS_pos cfg r.state.asid_bits hb1 (by omega)
  have hfresh : FreshAllocated cfg r.state.asid_bits (all_cpus_busy cfg r.state) cfg.ncpus :=
    switch_fresh_allocated cfg _ (fun k => k) r hb hinit2 cfg.ncpus (by omega)
  have hact := switch_fresh_active cfg _ r hb hinit2 cfg.ncpus (by omega)
  have hfull := (FreshAllocated.full cfg _ _ cfg.ncpus 0 hb1 hb hfresh (by omega)).1
  have hmap : ∀ j, 1 ≤ j → j < NUM_USER_ASIDS cfg r.state.asid_bits →
      (rollover cfg (all_cpus_busy cfg r.state)).asid_map j = true := by
    intro j j1 j2
    rw [rollover_eq]
    simp only [Bool.or_eq_true, decide_eq_true_eq]
    right
    refine ⟨j - 1, by omega, ?_⟩
    have ha : (all_cpus_busy cfg r.state).active_asids (j - 1) =
        idx2asid cfg r.state.asid_bits (j - 1 + 1) ||| 2 ^ r.state.asid_bits :=
      hact (j - 1) (by omega)
    unfold kept_asid
    rw [if_neg (by rw [ha]; exact fresh_id_ne_zero cfg _ _), ha, hfresh.bits_eq,
      asid2idx_or_generation cfg _ (j - 1 + 1) _ hb1 (by omega) (by omega) (dvd_refl _)]
    omega
  refine ⟨hfresh, ?_, hact, hfull, hmap, find_next_zero_bit_full _ _ hmap⟩
  exact switch_fresh_reachable cfg _ _ (Reachable.init fld r hinit) cfg.ncpus (fun k hk => hk)

/-- The switch to one more fresh address space when all `NUM_USER_ASIDS - 1`
possible CPUs are busy: `new_context` rolls over, its second scan returns
`NUM_USER_ASIDS`, and it marks this bit and moves the cursor there. -/
theorem tight_overrun (cfg : Config) (fld : Int) (r : InitResult)
    (hinit : asids_init cfg boot fld true = Except.ok r)
    (htight : NUM_USER_ASIDS cfg r.state.asid_bits - 1 = cfg.ncpus) (cpu : Nat) :
    new_context cfg (all_cpus_busy cfg r.state) cfg.ncpus =
      set_asid cfg (rollover cfg (all_cpus_busy cfg r.state))
        (NUM_USER_ASIDS cfg r.state.asid_bits)
        (rollover cfg (all_cpus_busy cfg r.state)).asid_generation ∧
    (all_cpus_busy cfg r.state).asid_map (NUM_USER_ASIDS cfg r.state.asid_bits) = false ∧
    (check_and_switch_context cfg (all_cpus_busy cfg r.state) cfg.ncpus cpu).asid_bits =
      r.state.asid_bits ∧
    (check_and_switch_context cfg (all_cpus_busy cfg r.state) cfg.ncpus cpu).asid_map
      (NUM_USER_ASIDS cfg r.state.asid_bits) = true ∧
    (check_and_switch_context cfg (all_cpus_busy cfg r.state) cfg.ncpus cpu).cur_idx =
      NUM_USER_ASIDS cfg r.state.asid_bits := by
  obtain ⟨hb1, hb, _⟩ := asids_init_width cfg fld r hinit
  obtain ⟨hfresh, _, _, hfull, _, hscan⟩ := tight_rollover cfg fld r hinit htight
  have hid := hfresh.ids_hi cfg.ncpus le_rfl
  have hnew : new_context cfg (all_cpus_busy cfg r.state) cfg.ncpus =
      set_asid cfg (rollover cfg (all_cpus_busy cfg r.state))
        (NUM_USER_ASIDS cfg r.state.asid_bits)
        (rollover cfg (all_cpus_busy cfg r.state)).asid_generation := by
    rw [new_context_of_scan cfg _ _ ((new_context_reuses_eq_false_iff cfg _ _).mpr (Or.inl hid)),
      new_context_scan_of_full cfg _ hfull, (rollover_generation cfg _).2, hfresh.bits_eq, hscan]
  have hclear : (all_cpus_busy cfg r.state).asid_map (NUM_USER_ASIDS cfg r.state.asid_bits) =
      false := by
    cases e : (all_cpus_busy cfg r.state).asid_map (NUM_USER_ASIDS cfg r.state.asid_bits) with
    | false => rfl
    | true =>
      have := ((hfresh.map_iff _).mp e).2
      have hN := NUM_USER_ASIDS_pos cfg r.state.asid_bits hb1 (by omega)
      omega
  obtain ⟨f1, _, f3, _, f5, _⟩ := switch_fresh_step cfg (all_cpus_busy cfg r.state) cfg.ncpus cpu
    (by rw [hfresh.gen_eq, hfresh.bits_eq]) hid
  have hnew2 := hnew
  rw [new_context_of_scan cfg _ _ ((new_context_reuses_eq_false_iff cfg _ _).mpr (Or.inl hid))]
    at hnew2
  refine ⟨hnew, hclear, ?_, ?_, ?_⟩
  · rw [f1, hnew2]
    simp only [set_asid]
    rw [(rollover_generation cfg _).2, hfresh.bits_eq]
  · rw [f3, hnew2]
    simp [set_asid, __set_bit]
  · rw [f5, hnew2]
    simp only [set_asid]
    exact Nat.mod_eq_of_lt (NUM_USER_ASIDS_lt_u32 cfg _ hb1 hb)

/-! ## The allocator core of a context switch -/

/-- Apart from `active_asids`, the pending flags and the flush counters, a
context switch leaves what its locked re-check `renew_context` leaves (on
the lock-free path the identifier is current and the re-check would change
nothing). -/
theorem check_and_switch_context_core (cfg : Config) (s : State) (mm cpu : Nat) :
    (check_and_switch_context cfg s mm cpu).asid_bits = (renew_context cfg s mm).2.asid_bits ∧
    (check_and_switch_context cfg s mm cpu).asid_generation =
      (renew_context cfg s mm).2.asid_generation ∧
    (check_and_switch_context cfg s mm cpu).asid_map = (renew_context cfg s mm).2.asid_map ∧
    (check_and_switch_context cfg s mm cpu).reserved_asids =
      (renew_context cfg s mm).2.reserved_asids ∧
    (check_and_switch_context cfg s mm cpu).cur_idx = (renew_context cfg s mm).2.cur_idx ∧
    (check_and_switch_context cfg s mm cpu).context_id =
      (renew_context cfg s mm).2.context_id := by
  cases hf : takes_fastpath s mm cpu with
  | true =>
    have hns : is_stale s.asid_bits (s.context_id mm) s.asid_generation = false := by
      unfold takes_fastpath at hf
      simp only [Bool.and_eq_true, decide_eq_true_eq, Bool.not_eq_true'] at hf
      exact hf.2
    rw [check_and_switch_context_fast cfg s mm cpu hf, renew_context_of_current cfg s mm hns]
    exact ⟨rfl, rfl, rfl, rfl, rfl, rfl⟩
  | false =>
    rw [check_and_switch_context_slow cfg s mm cpu hf]
    exact switch_mm_slowpath_frame cfg s mm cpu

/-- What `new_context` does to the generation: it advances it by one epoch
when it rolls over and leaves it alone otherwise. -/
theorem new_context_generation_eq (cfg : Config) (s : State) (mm : Nat) :
    (new_context cfg s mm).2.asid_generation =
      if (!new_context_reuses cfg s mm && scan_rolls_over cfg s) = true then
        (s.asid_generation + ASID_FIRST_VERSION s.asid_bits) % 2 ^ 64
      else s.asid_generation := by
  apply new_context_cases cfg s mm
    (fun r => r.2.asid_generation =
      if (!new_context_reuses cfg s mm && scan_rolls_over cfg s) = true then
        (s.asid_generation + ASID_FIRST_VERSION s.asid_bits) % 2 ^ 64
      else s.asid_generation)
  · intro h0 hh
    have : new_context_reuses cfg s mm = true := by
      cases h : new_context_reuses cfg s mm
      · rcases (new_context_reuses_eq_false_iff cfg s mm).mp h with a | a
        · exact absurd a h0
        · exact absurd hh a.1
      · rfl
    simp [this]
  · intro h0 hh hc
    have : new_context_reuses cfg s mm = true := by
      cases h : new_context_reuses cfg s mm
      · rcases (new_context_reuses_eq_false_iff cfg s mm).mp h with a | a
        · exact absurd a h0
        · rw [hc] at a
          exact absurd a.2 (by simp)
      · rfl
    simp [this]
  · intro hr hf
    simp [hr, hf, set_asid]
  · intro hr hf
    simp only [hr, hf, set_asid]
    exact (rollover_generation cfg s).1

/-- One epoch added to a generation gives a different 64-bit value. -/
theorem generation_add_ne (b g : Nat) (hb : b < 64) (hlt : g < 2 ^ 64) :
    (g + 2 ^ b) % 2 ^ 64 ≠ g := by
  have hpos : 0 < 2 ^ b := Nat.pow_pos (by norm_num)
  have hlt2 : 2 ^ b < 2 ^ 64 := Nat.pow_lt_pow_right (by norm_num) hb
  by_cases h : g + 2 ^ b < 2 ^ 64
  · rw [Nat.mod_eq_of_lt h]
    omega
  · rw [Nat.mod_eq_sub_mod (by omega), Nat.mod_eq_of_lt (by omega)]
    omega

/-! ## C23: the cursor of the scan -/

/-- The scan from the cursor rolls over exactly when no usable index is
clear, provided the cursor has passed no clear index. -/
theorem scan_rolls_over_iff (cfg : Config) (s : State) (h : CursorInv cfg s)
    (hpos : 1 ≤ s.cur_idx) :
    scan_rolls_over cfg s = true ↔
      ∀ i, 1 ≤ i → i < NUM_USER_ASIDS cfg s.asid_bits → s.asid_map i = true := by
  unfold scan_rolls_over
  simp only [beq_iff_eq]
  obtain ⟨a, b, c⟩ := find_next_zero_bit_spec s.asid_map
    (NUM_USER_ASIDS cfg s.asid_bits) s.cur_idx
  constructor
  · intro e i i1 i2
    by_cases hi : i < s.cur_idx
    · exact h.below_set i i1 hi
    · exact c i (by omega) (by omega)
  · intro hall
    rcases Nat.eq_or_lt_of_le a with e | l
    · exact e
    · obtain ⟨b1, b2⟩ := b l
      rw [hall _ (by omega) l] at b2
      exact absurd b2 (by simp)

/-- The locked re-check keeps the cursor invariant. -/
theorem renew_context_CursorInv (cfg : Config) (s : State) (mm : Nat) (h : CursorInv cfg s) :
    CursorInv cfg (renew_context cfg s mm).2 := by
  cases hst : is_stale s.asid_bits (s.context_id mm) s.asid_generation with
  | false =>
    rw [renew_context_of_current cfg s mm hst]
    exact h
  | true =>
    rw [renew_context_of_stale cfg s mm hst]
    apply new_context_cases cfg s mm
      (fun r => CursorInv cfg { r.2 with context_id := Function.update r.2.context_id mm r.1 })
    · intro _ _
      exact ⟨h.cur_le, h.below_set⟩
    · intro _ _ _
      refine ⟨h.cur_le, ?_⟩
      intro i i1 i2
      simp only [__set_bit, Function.update_apply]
      split
      · rfl
      · exact h.below_set i i1 i2
    · intro _ hf
      obtain ⟨a, _, c⟩ := find_next_zero_bit_spec s.asid_map
        (NUM_USER_ASIDS cfg s.asid_bits) s.cur_idx
      refine ⟨le_trans (Nat.mod_le _ _) a, ?_⟩
      intro i i1 i2
      have i3 : i < find_next_zero_bit s.asid_map (NUM_USER_ASIDS cfg s.asid_bits) s.cur_idx :=
        lt_of_lt_of_le i2 (Nat.mod_le _ _)
      simp only [set_asid, __set_bit, Function.update_apply]
      split
      · rfl
      · by_cases hi : i < s.cur_idx
        · exact h.below_set i i1 hi
        · exact c i (by omega) i3
    · intro _ hf
      obtain ⟨a, _, c⟩ := find_next_zero_bit_spec (rollover cfg s).asid_map
        (NUM_USER_ASIDS cfg (rollover cfg s).asid_bits) 1
      refine ⟨le_trans (Nat.mod_le _ _) a, ?_⟩
      intro i i1 i2
      have i3 : i < find_next_zero_bit (rollover cfg s).asid_map
          (NUM_USER_ASIDS cfg (rollover cfg s).asid_bits) 1 :=
        lt_of_lt_of_le i2 (Nat.mod_le _ _)
      simp only [set_asid, __set_bit, Function.update_apply]
      split
      · rfl
      · exact c i i1 i3

/-- Every reachable state satisfies the cursor invariant. -/
theorem Reachable.cursor {cfg : Config} {s : State} (h : Reachable cfg s) :
    CursorInv cfg s := by
  induction h with
  | init fld r hr =>
    obtain ⟨hb1, hb, _⟩ := asids_init_width cfg fld r hr
    obtain ⟨_, _, _, _, _, _, e7, _, _⟩ := asids_init_state cfg fld r hr
    constructor
    · rw [e7]
      exact NUM_USER_ASIDS_pos cfg _ hb1 (by omega)
    · intro i i1 i2
      omega
  | switch s mm cpu _ _ ih =>
    obtain ⟨e1, _, e3, _, e5, _⟩ := check_and_switch_context_core cfg s mm cpu
    have hr := renew_context_CursorInv cfg s mm ih
    constructor
    · rw [e1, e5]
      exact hr.cur_le
    · intro i i1 i2
      rw [e3]
      rw [e5] at i2
      exact hr.below_set i i1 i2

/-- With more usable identifiers than CPUs the cursor stays on a usable
index. -/
theorem Reachable.cur_lt {cfg : Config} {s : State} (h : Reachable cfg s) :
    cfg.ncpus < NUM_USER_ASIDS cfg s.asid_bits - 1 →
    s.cur_idx < NUM_USER_ASIDS cfg s.asid_bits := by
  induction h with
  | init fld r hr =>
    intro hn
    obtain ⟨_, _, _, _, _, _, e7, _, _⟩ := asids_init_state cfg fld r hr
    rw [e7]
    omega
  | switch s mm cpu hs _ ih =>
    intro hn
    obtain ⟨e1, _, _, _, e5, _⟩ := check_and_switch_context_core cfg s mm cpu
    rw [check_and_switch_context_asid_bits] at hn
    rw [check_and_switch_context_asid_bits, e5]
    cases hst : is_stale s.asid_bits (s.context_id mm) s.asid_generation with
    | false =>
      rw [renew_context_of_current cfg s mm hst]
      exact ih hn
    | true =>
      rw [renew_context_of_stale cfg s mm hst]
      show (new_context cfg s mm).2.cur_idx < _
      cases hr : new_context_reuses cfg s mm with
      | false =>
        rw [new_context_of_scan cfg s mm hr]
        obtain ⟨i, _, i2, _, i4, _⟩ := new_context_scan_index cfg s hs.inv hn
        rw [i4]
        exact i2
      | true =>
        have hcur : (new_context cfg s mm).2.cur_idx = s.cur_idx := by
          apply new_context_cases cfg s mm (fun r => r.2.cur_idx = s.cur_idx)
          · intro _ _
            rfl
          · intro _ _ _
            rfl
          · intro hr2 _
            rw [hr] at hr2
            exact absurd hr2 (by simp)
          · intro hr2 _
            rw [hr] at hr2
            exact absurd hr2 (by simp)
        rw [hcur]
        exact ih hn

/-! ## Test inputs with exhausted identifiers -/

theorem example_cfg_127_init :
    asids_init example_cfg_127 boot 0 true = Except.ok ⟨true, example_init⟩ := rfl

theorem example_cfg_init :
    asids_init_bits example_cfg boot 8 true = Except.ok ⟨false, example_init⟩ := rfl

/-- One more fresh address space. -/
theorem switch_fresh_succ (cfg : Config) (cpu_of : Nat → Nat) (s : State) (n : Nat) :
    switch_fresh cfg cpu_of s (n + 1) =
      check_and_switch_context cfg (switch_fresh cfg cpu_of s n) n (cpu_of n) := rfl

theorem example_exhausted_reachable : Reachable example_cfg example_exhausted :=
  switch_fresh_reachable example_cfg _ _ example_init_reachable 128 (fun _ _ => by decide)

/-- The 128th fresh address space rolls over: afterwards CPU 1, which has not
switched since, has its flush pending. -/
theorem example_exhausted_pending : example_exhausted.tlb_flush_pending 1 = true := by
  have hfresh : FreshAllocated example_cfg 8
      (switch_fresh example_cfg (fun _ => 0) example_init 127) 127 :=
    switch_fresh_allocated example_cfg 8 (fun _ => 0) ⟨false, example_init⟩ (by decide)
      example_cfg_init 127 (by decide)
  have hfull := (FreshAllocated.full example_cfg 8 _ 127 0 (by decide) (by decide) hfresh
    (by decide)).1
  have hroll := fresh_rollover_in_call example_cfg 8 _ 127 hfresh
  rw [hfull] at hroll
  have hslow : goto_switch_mm_fastpath
      (switch_fresh example_cfg (fun _ => 0) example_init 127) 127 0 = false := by
    cases hg : goto_switch_mm_fastpath
        (switch_fresh example_cfg (fun _ => 0) example_init 127) 127 0 with
    | false => rfl
    | true =>
      unfold rollover_in_call at hroll
      unfold goto_switch_mm_fastpath at hg
      simp only [Bool.and_eq_true, decide_eq_true_eq, Bool.not_eq_true'] at hg hroll
      rw [hg.1.2] at hroll
      exact absurd hroll.1.1 (by simp)
  obtain ⟨_, _, _, p2⟩ := check_and_switch_context_active_pending example_cfg
    (switch_fresh example_cfg (fun _ => 0) example_init 127) 127 0
  have e : example_exhausted =
      check_and_switch_context example_cfg
        (switch_fresh example_cfg (fun _ => 0) example_init 127) 127 0 :=
    switch_fresh_succ example_cfg (fun _ => 0) example_init 127
  rw [e, (p2 hslow).2 1 (by decide), hroll]
  rfl

theorem example_overrun_reachable : Reachable example_cfg_127 example_overrun :=
  Reachable.switch _ 127 0
    (tight_rollover example_cfg_127 0 ⟨true, example_init⟩ example_cfg_127_init
      (by decide)).2.1 (by decide)

/-- C22 at a concrete input: after the rollover caused by the 128th fresh
address space on CPU 0, CPU 1 has its flush pending and no active
identifier. -/
theorem C22_pending_flush_means_idle_witness :
    example_exhausted.tlb_flush_pending 1 = true ∧ example_exhausted.active_asids 1 = 0 :=
  ⟨example_exhausted_pending,
   (C22_pending_flush_means_idle example_cfg example_exhausted
     example_exhausted_reachable).1 1 example_exhausted_pending⟩

/-! ## C23: rollover only when the usable indices are exhausted -/

/-- C23 as stated fails: on a kernel with 127 possible CPUs and 8-bit ASIDs
in the halved mode (`NUM_USER_ASIDS = 128`), after every CPU has been switched
to an address space of its own and CPU 0 to one more, the reachable state has
`cur_idx = 128`, which is not below `NUM_USER_ASIDS`. -/
theorem C23_cursor_counterexample :
    Reachable example_cfg_127 example_overrun ∧
    example_overrun.cur_idx = 128 ∧
    NUM_USER_ASIDS example_cfg_127 example_overrun.asid_bits = 128 ∧
    ¬ (1 ≤ example_overrun.cur_idx ∧
      example_overrun.cur_idx < NUM_USER_ASIDS example_cfg_127 example_overrun.asid_bits) := by
  obtain ⟨_, _, h3, _, h5⟩ := tight_overrun example_cfg_127 0 ⟨true, example_init⟩
    example_cfg_127_init (by decide) 0
  have hN : NUM_USER_ASIDS example_cfg_127 8 = 128 := by decide
  have hb : example_overrun.asid_bits = 8 := h3
  have hc : example_overrun.cur_idx = 128 := h5.trans hN
  refine ⟨example_overrun_reachable, hc, by rw [hb, hN], ?_⟩
  rw [hb, hN, hc]
  omega

/-- C23, amended (rollover only on true exhaustion): in every reachable state
`1 ≤ cur_idx ≤ NUM_USER_ASIDS`, with `cur_idx < NUM_USER_ASIDS` whenever
`NUM_USER_ASIDS - 1` exceeds the number of possible CPUs, and every
`asid_map` index in `[1, cur_idx)` is set.  Therefore the scan from `cur_idx`
fails exactly when no index in `[1, NUM_USER_ASIDS)` is clear, and
`new_context` performs a rollover (it advances the generation) if and only
if it reaches the scan and no index in `[1, NUM_USER_ASIDS)` is clear. -/
theorem C23_rollover_only_on_exhaustion (cfg : Config) (s : State) (h : Reachable cfg s) :
    1 ≤ s.cur_idx ∧ s.cur_idx ≤ NUM_USER_ASIDS cfg s.asid_bits ∧
    (cfg.ncpus < NUM_USER_ASIDS cfg s.asid_bits - 1 →
      s.cur_idx < NUM_USER_ASIDS cfg s.asid_bits) ∧
    (∀ i, 1 ≤ i → i < s.cur_idx → s.asid_map i = true) ∧
    (scan_rolls_over cfg s = true ↔
      ∀ i, 1 ≤ i → i < NUM_USER_ASIDS cfg s.asid_bits → s.asid_map i = true) ∧
    (∀ mm, (new_context cfg s mm).2.asid_generation ≠ s.asid_generation ↔
      (new_context_reuses cfg s mm = false ∧
        ∀ i, 1 ≤ i → i < NUM_USER_ASIDS cfg s.asid_bits → s.asid_map i = true)) := by
  have hi := h.inv
  have hc := h.cursor
  have hscan := scan_rolls_over_iff cfg s hc hi.cur_pos
  refine ⟨hi.cur_pos, hc.cur_le, h.cur_lt, hc.below_set, hscan, ?_⟩
  intro mm
  rw [new_context_generation_eq, ← hscan]
  have hne := generation_add_ne s.asid_bits s.asid_generation
    (lt_trans hi.bits_hi (by norm_num)) hi.gen_lt
  rw [← ASID_FIRST_VERSION_eq s.asid_bits (lt_trans hi.bits_hi (by norm_num))] at hne
  cases hr : new_context_reuses cfg s mm with
  | true => simp
  | false =>
    cases hf : scan_rolls_over cfg s with
    | false => simp
    | true => simpa using hne

/-- C23 at a concrete input: after the first switch on the four-CPU kernel
the cursor is at index 1, and `new_context` for a fresh address space does
not roll over. -/
theorem C23_rollover_only_on_exhaustion_witness :
    example_one_switch.cur_idx = 1 ∧
    (new_context example_cfg example_one_switch 1).2.asid_generation =
      example_one_switch.asid_generation ∧
    (1 ≤ example_one_switch.cur_idx ∧
      example_one_switch.cur_idx ≤ NUM_USER_ASIDS example_cfg example_one_switch.asid_bits ∧
      (example_cfg.ncpus < NUM_USER_ASIDS example_cfg example_one_switch.asid_bits - 1 →
        example_one_switch.cur_idx <
          NUM_USER_ASIDS example_cfg example_one_switch.asid_bits)) :=
  ⟨by decide, by decide,
   (C23_rollover_only_on_exhaustion example_cfg example_one_switch
     example_one_switch_reachable).1,
   (C23_rollover_only_on_exhaustion example_cfg example_one_switch
     example_one_switch_reachable).2.1,
   (C23_rollover_only_on_exhaustion example_cfg example_one_switch
     example_one_switch_reachable).2.2.1⟩

/-! ## C27: the bound checked at start-up is tight -/

/-- C27 (the initialization bound is tight): for every configuration in which
`NUM_USER_ASIDS - 1` equals the number of possible CPUs, the state in which
every CPU is running an address space of its own right after start-up is
reachable; the CPUs' active identifiers are non-zero and pairwise distinct,
and the address space `ncpus` is still fresh.  When it is switched in, the
scan from `cur_idx` fails, and the scan after the generation advance and
`flush_context` finds no clear index either:
`find_next_zero_bit(asid_map, NUM_USER_ASIDS, 1)` returns `NUM_USER_ASIDS`,
and `new_context` sets the bit `NUM_USER_ASIDS` of `asid_map`, which was
clear and lies outside the usable range; the state after that switch is
reachable too and has this bit set and the cursor on it. -/
theorem C27_init_bound_is_tight (cfg : Config) (fld : Int) (warned : Bool) (s0 : State)
    (hinit : asids_init cfg boot fld true = Except.ok ⟨warned, s0⟩)
    (htight : NUM_USER_ASIDS cfg s0.asid_bits - 1 = cfg.ncpus) :
    Reachable cfg (all_cpus_busy cfg s0) ∧
    (∀ k, k < cfg.ncpus →
      (all_cpus_busy cfg s0).active_asids k = (all_cpus_busy cfg s0).context_id k ∧
      (all_cpus_busy cfg s0).active_asids k ≠ 0) ∧
    (∀ j k, j < cfg.ncpus → k < cfg.ncpus → j ≠ k →
      (all_cpus_busy cfg s0).active_asids j ≠ (all_cpus_busy cfg s0).active_asids k) ∧
    (all_cpus_busy cfg s0).context_id cfg.ncpus = 0 ∧
    scan_rolls_over cfg (all_cpus_busy cfg s0) = true ∧
    find_next_zero_bit (rollover cfg (all_cpus_busy cfg s0)).asid_map
      (NUM_USER_ASIDS cfg (all_cpus_busy cfg s0).asid_bits) 1 =
        NUM_USER_ASIDS cfg (all_cpus_busy cfg s0).asid_bits ∧
    (all_cpus_busy cfg s0).asid_map
      (NUM_USER_ASIDS cfg (all_cpus_busy cfg s0).asid_bits) = false ∧
    (new_context cfg (all_cpus_busy cfg s0) cfg.ncpus).2.asid_map
      (NUM_USER_ASIDS cfg (all_cpus_busy cfg s0).asid_bits) = true ∧
    Reachable cfg (check_and_switch_context cfg (all_cpus_busy cfg s0) cfg.ncpus 0) ∧
    (check_and_switch_context cfg (all_cpus_busy cfg s0) cfg.ncpus 0).asid_map
      (NUM_USER_ASIDS cfg (all_cpus_busy cfg s0).asid_bits) = true ∧
    (check_and_switch_context cfg (all_cpus_busy cfg s0) cfg.ncpus 0).cur_idx =
      NUM_USER_ASIDS cfg (all_cpus_busy cfg s0).asid_bits := by
  obtain ⟨hb1, hb, _⟩ :
      1 ≤ s0.asid_bits ∧ s0.asid_bits < 32 ∧ _ := asids_init_width cfg fld ⟨warned, s0⟩ hinit
  obtain ⟨hfresh, hreach, hact, hfull, _, hscan⟩ := tight_rollover cfg fld ⟨warned, s0⟩ hinit htight
  obtain ⟨hnew, hclear, _, hbit, hcur⟩ := tight_overrun cfg fld ⟨warned, s0⟩ hinit htight 0
  have hidx : ∀ k, k < cfg.ncpus →
      asid2idx cfg s0.asid_bits ((all_cpus_busy cfg s0).active_asids k) = k + 1 := by
    intro k hk
    rw [hact k hk]
    exact asid2idx_or_generation cfg _ (k + 1) _ hb1 (by omega) (by omega) (dvd_refl _)
  have hcpu : 0 < cfg.ncpus := by
    have h8 : 2 ≤ s0.asid_bits := by
      rw [(asids_init_state cfg fld ⟨warned, s0⟩ hinit).1]
      rcases get_cpu_asid_bits_cases fld with c | c <;> omega
    have hN := NUM_USER_ASIDS_eq cfg s0.asid_bits hb1 (by omega)
    have h2 : 2 ^ 1 ≤ 2 ^ (s0.asid_bits - 1) :=
      Nat.pow_le_pow_right (by norm_num) (by omega)
    have h3 : 2 ^ 1 ≤ 2 ^ s0.asid_bits := Nat.pow_le_pow_right (by norm_num) (by omega)
    split at hN <;> omega
  rw [hfresh.bits_eq]
  refine ⟨hreach, ?_, ?_, hfresh.ids_hi _ le_rfl, hfull, hscan, hclear, ?_,
    Reachable.switch _ _ 0 hreach hcpu, hbit, hcur⟩
  · intro k hk
    rw [hact k hk]
    exact ⟨(hfresh.ids_lo k hk).symm, fresh_id_ne_zero cfg _ _⟩
  · intro j k hj hk hjk e
    have := hidx j hj
    rw [e, hidx k hk] at this
    omega
  · rw [hnew]
    simp [set_asid, __set_bit]

/-- C27 at a concrete input: 127 possible CPUs, 8-bit ASIDs, the halved mode
(128 indices, 127 of them usable). -/
theorem C27_init_bound_is_tight_witness :
    NUM_USER_ASIDS example_cfg_127 8 = 128 ∧
    find_next_zero_bit
      (rollover example_cfg_127 (all_cpus_busy example_cfg_127 example_init)).asid_map
      (NUM_USER_ASIDS example_cfg_127 (all_cpus_busy example_cfg_127 example_init).asid_bits) 1 =
        NUM_USER_ASIDS example_cfg_127 (all_cpus_busy example_cfg_127 example_init).asid_bits ∧
    (new_context example_cfg_127 (all_cpus_busy example_cfg_127 example_init)
        example_cfg_127.ncpus).2.asid_map
      (NUM_USER_ASIDS example_cfg_127 (all_cpus_busy example_cfg_127 example_init).asid_bits) =
        true :=
  ⟨by decide,
   (C27_init_bound_is_tight example_cfg_127 0 true example_init example_cfg_127_init
     (by decide)).2.2.2.2.2.1,
   (C27_init_bound_is_tight example_cfg_127 0 true example_init example_cfg_127_init
     (by decide)).2.2.2.2.2.2.2.1⟩

/-! ## C25: every set bit is accounted for -/

/-- Giving the address space `a` the index `i` and an identifier of the
current generation with this index keeps every set bit accounted for, when
the bits set before are accounted for by other address spaces or by reserved
identifiers. -/
theorem Covered_assign (cfg : Config) (t u : State) (a i newid : Nat)
    (e1 : u.asid_bits = t.asid_bits) (e2 : u.asid_generation = t.asid_generation)
    (e3 : u.asid_map = __set_bit i t.asid_map) (e4 : u.reserved_asids = t.reserved_asids)
    (e5 : u.context_id = Function.update t.context_id a newid)
    (hcov : ∀ b, b < NUM_USER_ASIDS cfg t.asid_bits → t.asid_map b = true →
      (∃ mm, mm ≠ a ∧ is_stale t.asid_bits (t.context_id mm) t.asid_generation = false ∧
        asid2idx cfg t.asid_bits (t.context_id mm) = b) ∨
      (∃ c, c < cfg.ncpus ∧ asid2idx cfg t.asid_bits (t.reserved_asids c) = b))
    (hcur : is_stale t.asid_bits newid t.asid_generation = false)
    (hidx : i < NUM_USER_ASIDS cfg t.asid_bits → asid2idx cfg t.asid_bits newid = i) :
    Covered cfg u := by
  intro b hb hset
  rw [e1] at hb
  rw [e1, e2, e4, e5]
  rw [e3] at hset
  by_cases hbi : b = i
  · left
    refine ⟨a, ?_, ?_⟩
    · rw [Function.update_same]
      exact hcur
    · rw [Function.update_same, hbi]
      exact hidx (hbi ▸ hb)
  · simp only [__set_bit, Function.update_apply, if_neg hbi] at hset
    rcases hcov b hb hset with ⟨m, m1, m2, m3⟩ | ⟨c, c1, c2⟩
    · left
      refine ⟨m, ?_, ?_⟩
      · rw [Function.update_noteq m1]
        exact m2
      · rw [Function.update_noteq m1]
        exact m3
    · exact Or.inr ⟨c, c1, c2⟩

/-- The address space whose identifier is stale accounts for no bit. -/
theorem Covered.others (cfg : Config) (s : State) (a : Nat) (h : Covered cfg s)
    (hst : is_stale s.asid_bits (s.context_id a) s.asid_generation = true) :
    ∀ b, b < NUM_USER_ASIDS cfg s.asid_bits → s.asid_map b = true →
      (∃ mm, mm ≠ a ∧ is_stale s.asid_bits (s.context_id mm) s.asid_generation = false ∧
        asid2idx cfg s.asid_bits (s.context_id mm) = b) ∨
      (∃ c, c < cfg.ncpus ∧ asid2idx cfg s.asid_bits (s.reserved_asids c) = b) := by
  intro b hb hset
  rcases h b hb hset with ⟨m, m2, m3⟩ | hc
  · left
    refine ⟨m, ?_, m2, m3⟩
    rintro rfl
    rw [hst] at m2
    exact absurd m2 (by simp)
  · exact Or.inr hc

/-- After a rollover every set bit below `NUM_USER_ASIDS` is the index of a
reserved identifier. -/
theorem rollover_covered (cfg : Config) (s : State) :
    ∀ b, b < NUM_USER_ASIDS cfg (rollover cfg s).asid_bits →
      (rollover cfg s).asid_map b = true →
      ∃ c, c < cfg.ncpus ∧
        asid2idx cfg (rollover cfg s).asid_bits ((rollover cfg s).reserved_asids c) = b := by
  intro b hb hset
  rw [rollover_eq] at hb hset ⊢
  simp only [bitmap_clear, Bool.or_eq_true, decide_eq_true_eq] at hset
  simp only at hb
  rcases hset with hset | ⟨c, c1, c2⟩
  · rw [if_pos ⟨Nat.zero_le b, by omega⟩] at hset
    exact absurd hset (by simp)
  · refine ⟨c, c1, ?_⟩
    simp only [c1, if_true]
    exact c2

/-- The locked re-check keeps every set bit accounted for. -/
theorem renew_context_Covered (cfg : Config) (s : State) (mm : Nat) (hi : Inv cfg s)
    (h : Covered cfg s) : Covered cfg (renew_context cfg s mm).2 := by
  have h64 : s.asid_bits ≤ 64 := le_of_lt (lt_trans hi.bits_hi (by norm_num))
  have h63 : s.asid_bits < 64 := lt_trans hi.bits_hi (by norm_num)
  have hnew : is_stale s.asid_bits
      (s.asid_generation ||| (s.context_id mm &&& not64 (ASID_MASK s.asid_bits)))
      s.asid_generation = false := by
    apply or_low_not_stale
    rw [and_low_eq_mod _ _ hi.bits_lo h64]
    exact Nat.mod_lt _ (Nat.pow_pos (by norm_num))
  cases hst : is_stale s.asid_bits (s.context_id mm) s.asid_generation with
  | false =>
    rw [renew_context_of_current cfg s mm hst]
    exact h
  | true =>
    rw [renew_context_of_stale cfg s mm hst]
    have hoth := Covered.others cfg s mm h hst
    apply new_context_cases cfg s mm
      (fun r => Covered cfg { r.2 with context_id := Function.update r.2.context_id mm r.1 })
    · intro _ _
      intro b hb hset
      rcases hoth b hb hset with ⟨m, m1, m2, m3⟩ | ⟨c, c1, c2⟩
      · left
        refine ⟨m, ?_, ?_⟩
        · show is_stale s.asid_bits (Function.update s.context_id mm _ m) s.asid_generation =
            false
          rw [Function.update_noteq m1]
          exact m2
        · show asid2idx cfg s.asid_bits (Function.update s.context_id mm _ m) = b
          rw [Function.update_noteq m1]
          exact m3
      · right
        refine ⟨c, c1, ?_⟩
        show asid2idx cfg s.asid_bits
          (if c < cfg.ncpus ∧ s.reserved_asids c = s.context_id mm then
            s.asid_generation ||| (s.context_id mm &&& not64 (ASID_MASK s.asid_bits))
          else s.reserved_asids c) = b
        by_cases hm : c < cfg.ncpus ∧ s.reserved_asids c = s.context_id mm
        · rw [if_pos hm, asid2idx_newasid cfg _ _ _ hi.bits_lo h64 hi.gen_dvd, ← hm.2]
          exact c2
        · rw [if_neg hm]
          exact c2
    · intro _ _ _
      exact Covered_assign cfg s _ mm (asid2idx cfg s.asid_bits (s.context_id mm)) _
        rfl rfl rfl rfl rfl hoth hnew
        (fun _ => asid2idx_newasid cfg _ _ _ hi.bits_lo h64 hi.gen_dvd)
    · intro _ _
      refine Covered_assign cfg s _ mm
        (find_next_zero_bit s.asid_map (NUM_USER_ASIDS cfg s.asid_bits) s.cur_idx)
        _ rfl rfl rfl rfl rfl hoth ?_ ?_
      · simp only [set_asid]
        rw [Nat.lor_comm]
        exact or_low_not_stale _ _ _ (idx2asid_lt cfg _ _ hi.bits_lo h64)
      · intro hlt
        exact asid2idx_or_generation cfg _ _ _ hi.bits_lo h63 hlt hi.gen_dvd
    · intro _ _
      have hi2 := rollover_Inv cfg s hi
      have h64r : (rollover cfg s).asid_bits ≤ 64 := le_of_lt (lt_trans hi2.bits_hi (by norm_num))
      refine Covered_assign cfg (rollover cfg s) _ mm
        (find_next_zero_bit (rollover cfg s).asid_map
          (NUM_USER_ASIDS cfg (rollover cfg s).asid_bits) 1)
        _ rfl rfl rfl rfl rfl ?_ ?_ ?_
      · intro b hb hset
        exact Or.inr (rollover_covered cfg s b hb hset)
      · simp only [set_asid]
        rw [Nat.lor_comm]
        exact or_low_not_stale _ _ _ (idx2asid_lt cfg _ _ hi2.bits_lo h64r)
      · intro hlt
        exact asid2idx_or_generation cfg _ _ _ hi2.bits_lo
          (lt_trans hi2.bits_hi (by norm_num)) hlt hi2.gen_dvd

/-- Every reachable state has every set bit accounted for. -/
theorem Reachable.covered {cfg : Config} {s : State} (h : Reachable cfg s) : Covered cfg s := by
  induction h with
  | init fld r hr =>
    obtain ⟨_, _, e3, _, _, _, _, _, _⟩ := asids_init_state cfg fld r hr
    intro b _ hset
    rw [e3] at hset
    exact absurd hset (by simp)
  | switch s mm cpu hs _ ih =>
    obtain ⟨e1, e2, e3, e4, _, e6⟩ := check_and_switch_context_core cfg s mm cpu
    have hr := renew_context_Covered cfg s mm hs.inv ih
    intro b hb hset
    rw [e1] at hb
    rw [e3] at hset
    rw [e1, e2, e4, e6]
    exact hr b hb hset

/-- C25 (bitmap invariant): in every state reachable by sequential
`check_and_switch_context` calls, for every index `b < NUM_USER_ASIDS` whose
`asid_map` bit is set, either some address space's identifier has the current
generation and `asid2idx(id) = b`, or some possible CPU's `reserved_asids`
value `r` has `asid2idx(r) = b`. -/
theorem C25_bitmap_invariant (cfg : Config) (s : State) (h : Reachable cfg s) (b : Nat)
    (hb : b < NUM_USER_ASIDS cfg s.asid_bits) (hset : s.asid_map b = true) :
    (∃ mm, is_stale s.asid_bits (s.context_id mm) s.asid_generation = false ∧
      asid2idx cfg s.asid_bits (s.context_id mm) = b) ∨
    (∃ c, c < cfg.ncpus ∧ asid2idx cfg s.asid_bits (s.reserved_asids c) = b) :=
  h.covered b hb hset

/-- C25 at a concrete input: after the first switch bit 1 is set, and it is
the index of the identifier 258 of address space 0. -/
theorem C25_bitmap_invariant_witness :
    (example_one_switch.asid_map 1 = true ∧
      asid2idx example_cfg example_one_switch.asid_bits (example_one_switch.context_id 0) = 1) ∧
    ((∃ mm, is_stale example_one_switch.asid_bits (example_one_switch.context_id mm)
        example_one_switch.asid_generation = false ∧
        asid2idx example_cfg example_one_switch.asid_bits (example_one_switch.context_id mm) =
          1) ∨
      (∃ c, c < example_cfg.ncpus ∧
        asid2idx example_cfg example_one_switch.asid_bits
          (example_one_switch.reserved_asids c) = 1)) :=
  ⟨by decide,
   C25_bitmap_invariant example_cfg example_one_switch example_one_switch_reachable 1
     (by decide) (by decide)⟩

/-! ## C21: no two address spaces share an index -/

/-- An identifier below the current generation is stale. -/
theorem stale_of_lt_generation (b x g : Nat) (hg : 2 ^ b ∣ g) (hx : x < g) :
    is_stale b x g = true := by
  rw [is_stale_eq_true_iff]
  obtain ⟨k, rfl⟩ := hg
  have hpos : 0 < 2 ^ b := Nat.pow_pos (by norm_num)
  rw [Nat.mul_div_cancel_left k hpos]
  exact Nat.ne_of_lt (Nat.div_lt_of_lt_mul hx)

/-- An identifier of the current generation is not 0, the generation being
non-zero. -/
theorem current_ne_zero (b x g : Nat) (hg : 2 ^ b ∣ g) (hg0 : g ≠ 0)
    (h : is_stale b x g = false) : x ≠ 0 := by
  rintro rfl
  rw [is_stale_eq_false_iff, Nat.zero_div] at h
  obtain ⟨k, rfl⟩ := hg
  have hpos : 0 < 2 ^ b := Nat.pow_pos (by norm_num)
  rw [Nat.mul_div_cancel_left k hpos] at h
  subst h
  exact hg0 (Nat.mul_zero _)

/-- The renewed identifier is of the current generation, not of a later one. -/
theorem newasid_lt (b g a : Nat) (h1 : 1 ≤ b) (h2 : b ≤ 64) (hg : 2 ^ b ∣ g) :
    g ||| (a &&& not64 (ASID_MASK b)) < g + 2 ^ b := by
  rw [and_low_eq_mod b a h1 h2,
    or_low_eq_add b g _ hg (Nat.mod_lt _ (Nat.pow_pos (by norm_num)))]
  exact Nat.add_lt_add_left (Nat.mod_lt _ (Nat.pow_pos (by norm_num))) _

/-- A freshly built identifier is of the current generation, not of a later
one. -/
theorem fresh_id_lt (cfg : Config) (b g i : Nat) (h1 : 1 ≤ b) (h2 : b ≤ 64) (hg : 2 ^ b ∣ g) :
    idx2asid cfg b i ||| g < g + 2 ^ b := by
  rw [Nat.lor_comm, or_low_eq_add b g _ hg (idx2asid_lt cfg b i h1 h2)]
  exact Nat.add_lt_add_left (idx2asid_lt cfg b i h1 h2) _

/-- Giving the address space `a` the clear index `i`, with an identifier of
this index, keeps the indices exclusively owned. -/
theorem Owned_assign (cfg : Config) (t u : State) (a i newid : Nat)
    (e1 : u.asid_bits = t.asid_bits) (e2 : u.asid_generation = t.asid_generation)
    (e3 : u.asid_map = __set_bit i t.asid_map) (e4 : u.reserved_asids = t.reserved_asids)
    (e5 : u.context_id = Function.update t.context_id a newid)
    (hmarked : ∀ m, m ≠ a → holds_index cfg t m →
      t.asid_map (asid2idx cfg t.asid_bits (t.context_id m)) = true)
    (hunique : ∀ x y, x ≠ a → y ≠ a → holds_index cfg t x → holds_index cfg t y →
      asid2idx cfg t.asid_bits (t.context_id x) = asid2idx cfg t.asid_bits (t.context_id y) →
      x = y)
    (hahead : ∀ m, t.context_id m < t.asid_generation + 2 ^ t.asid_bits)
    (hclear : t.asid_map i = false)
    (hidx : asid2idx cfg t.asid_bits newid = i)
    (hlt : newid < t.asid_generation + 2 ^ t.asid_bits) :
    Owned cfg u := by
  have hold : ∀ m, m ≠ a → holds_index cfg u m → holds_index cfg t m := by
    intro m hm h
    unfold holds_index at h ⊢
    rw [e1, e2, e4, e5, Function.update_noteq hm] at h
    exact h
  have hclash : ∀ m, m ≠ a → holds_index cfg u m →
      asid2idx cfg t.asid_bits (t.context_id m) ≠ i := by
    intro m hm h e
    have := hmarked m hm (hold m hm h)
    rw [e, hclear] at this
    exact absurd this (by simp)
  refine ⟨?_, ?_, ?_⟩
  · intro m h
    rw [e1, e3, e5]
    by_cases hm : m = a
    · rw [hm, Function.update_same, hidx]
      simp [__set_bit]
    · rw [Function.update_noteq hm]
      simp only [__set_bit, Function.update_apply]
      split
      · rfl
      · exact hmarked m hm (hold m hm h)
  · intro x y hx hy e
    rw [e1, e5] at e
    by_cases hxa : x = a
    · by_cases hya : y = a
      · rw [hxa, hya]
      · exfalso
        rw [hxa, Function.update_same, Function.update_noteq hya, hidx] at e
        exact hclash y hya hy e.symm
    · by_cases hya : y = a
      · exfalso
        rw [hya, Function.update_same, Function.update_noteq hxa, hidx] at e
        exact hclash x hxa hx e
      · rw [Function.update_noteq hxa, Function.update_noteq hya] at e
        exact hunique x y hxa hya (hold x hxa hx) (hold y hya hy) e
  · intro m
    rw [e1, e2, e5]
    by_cases hm : m = a
    · rw [hm, Function.update_same]
      exact hlt
    · rw [Function.update_noteq hm]
      exact hahead m

/-- After a rollover that does not wrap the generation, an address space
holds an index only if it held it before, and the rebuilt bitmap marks that
index. -/
theorem rollover_holds (cfg : Config) (s : State) (hi : Inv cfg s)
    (hw : s.asid_generation + 2 ^ s.asid_bits < 2 ^ 64)
    (hahead : ∀ m, s.context_id m < s.asid_generation + 2 ^ s.asid_bits) (m : Nat)
    (h : holds_index cfg (rollover cfg s) m) :
    holds_index cfg s m ∧
    (rollover cfg s).asid_map (asid2idx cfg s.asid_bits (s.context_id m)) = true := by
  have h63 : s.asid_bits < 64 := lt_trans hi.bits_hi (by norm_num)
  have hgen : (s.asid_generation + ASID_FIRST_VERSION s.asid_bits) % 2 ^ 64 =
      s.asid_generation + 2 ^ s.asid_bits := by
    rw [ASID_FIRST_VERSION_eq _ h63]
    exact Nat.mod_eq_of_lt hw
  unfold holds_index at h
  rw [rollover_eq] at h ⊢
  simp only [hgen] at h
  obtain ⟨h0, hor⟩ := h
  have hstale : is_stale s.asid_bits (s.context_id m) (s.asid_generation + 2 ^ s.asid_bits) =
      true :=
    stale_of_lt_generation _ _ _ (Nat.dvd_add hi.gen_dvd (dvd_refl _)) (hahead m)
  rcases hor with hc | ⟨c, c1, c2⟩
  · rw [hstale] at hc
    exact absurd hc (by simp)
  · simp only [c1, if_true] at c2
    refine ⟨⟨h0, ?_⟩, ?_⟩
    · unfold kept_asid at c2
      by_cases ha : s.active_asids c = 0
      · rw [if_pos ha] at c2
        exact Or.inr ⟨c, c1, c2⟩
      · rw [if_neg ha] at c2
        rcases hi.active_current c c1 with z | z
        · exact absurd z ha
        · rw [c2] at z
          exact Or.inl z
    · simp only [Bool.or_eq_true, decide_eq_true_eq]
      exact Or.inr ⟨c, c1, by rw [c2]⟩

/-- A rollover leaves the width and the identifiers of the address spaces
alone. -/
theorem rollover_frame (cfg : Config) (s : State) :
    (rollover cfg s).asid_bits = s.asid_bits ∧ (rollover cfg s).context_id = s.context_id := by
  rw [rollover_eq]
  exact ⟨rfl, rfl⟩

/-- A step that changes neither the bitmap nor the generation, after which
every address space that holds an index held the same index before, keeps
the indices exclusively owned. -/
theorem Owned_of_shrink (cfg : Config) (t u : State)
    (e1 : u.asid_bits = t.asid_bits) (e2 : u.asid_generation = t.asid_generation)
    (e3 : u.asid_map = t.asid_map)
    (hold : ∀ m, holds_index cfg u m →
      holds_index cfg t m ∧
      asid2idx cfg t.asid_bits (u.context_id m) = asid2idx cfg t.asid_bits (t.context_id m))
    (hahead : ∀ m, u.context_id m < t.asid_generation + 2 ^ t.asid_bits)
    (h : Owned cfg t) : Owned cfg u := by
  refine ⟨?_, ?_, ?_⟩
  · intro m hm
    rw [e1, e3, (hold m hm).2]
    exact h.marked m (hold m hm).1
  · intro x y hx hy e
    rw [e1, (hold x hx).2, (hold y hy).2] at e
    exact h.unique x y (hold x hx).1 (hold y hy).1 e
  · intro m
    rw [e1, e2]
    exact hahead m

/-- The locked re-check keeps the indices exclusively owned, when there are
more usable identifiers than CPUs and the generation does not wrap. -/
theorem renew_context_Owned (cfg : Config) (s : State) (mm : Nat) (hi : Inv cfg s)
    (hn : cfg.ncpus < NUM_USER_ASIDS cfg s.asid_bits - 1)
    (hw : s.asid_generation + 2 ^ s.asid_bits < 2 ^ 64) (h : Owned cfg s) :
    Owned cfg (renew_context cfg s mm).2 := by
  have h64 : s.asid_bits ≤ 64 := le_of_lt (lt_trans hi.bits_hi (by norm_num))
  have h63 : s.asid_bits < 64 := lt_trans hi.bits_hi (by norm_num)
  have hnew : is_stale s.asid_bits
      (s.asid_generation ||| (s.context_id mm &&& not64 (ASID_MASK s.asid_bits)))
      s.asid_generation = false := by
    apply or_low_not_stale
    rw [and_low_eq_mod _ _ hi.bits_lo h64]
    exact Nat.mod_lt _ (Nat.pow_pos (by norm_num))
  cases hst : is_stale s.asid_bits (s.context_id mm) s.asid_generation with
  | false =>
    rw [renew_context_of_current cfg s mm hst]
    exact h
  | true =>
    rw [renew_context_of_stale cfg s mm hst]
    apply new_context_cases cfg s mm
      (fun r => Owned cfg { r.2 with context_id := Function.update r.2.context_id mm r.1 })
    · intro h0 hh
      refine Owned_of_shrink cfg s _ rfl rfl rfl ?_ ?_ h
      · intro m hm
        unfold holds_index at hm ⊢
        dsimp only at hm ⊢
        by_cases e : m = mm
        · rw [e, Function.update_same]
          exact ⟨⟨h0, Or.inr hh⟩, asid2idx_newasid cfg _ _ _ hi.bits_lo h64 hi.gen_dvd⟩
        · rw [Function.update_noteq e] at hm ⊢
          refine ⟨⟨hm.1, ?_⟩, rfl⟩
          rcases hm.2 with a | ⟨c, c1, c2⟩
          · exact Or.inl a
          · by_cases hc : c < cfg.ncpus ∧ s.reserved_asids c = s.context_id mm
            · rw [if_pos hc] at c2
              rw [← c2]
              exact Or.inl hnew
            · rw [if_neg hc] at c2
              exact Or.inr ⟨c, c1, c2⟩
      · intro m
        dsimp only
        by_cases e : m = mm
        · rw [e, Function.update_same]
          exact newasid_lt _ _ _ hi.bits_lo h64 hi.gen_dvd
        · rw [Function.update_noteq e]
          exact h.not_ahead m
    · intro _ _ hclear
      exact Owned_assign cfg s _ mm (asid2idx cfg s.asid_bits (s.context_id mm)) _
        rfl rfl rfl rfl rfl (fun m _ hm => h.marked m hm)
        (fun x y _ _ hx hy e => h.unique x y hx hy e) h.not_ahead hclear
        (asid2idx_newasid cfg _ _ _ hi.bits_lo h64 hi.gen_dvd)
        (newasid_lt _ _ _ hi.bits_lo h64 hi.gen_dvd)
    · intro _ hf
      obtain ⟨a, b, _⟩ := find_next_zero_bit_spec s.asid_map
        (NUM_USER_ASIDS cfg s.asid_bits) s.cur_idx
      have hlt : find_next_zero_bit s.asid_map (NUM_USER_ASIDS cfg s.asid_bits) s.cur_idx <
          NUM_USER_ASIDS cfg s.asid_bits := by
        unfold scan_rolls_over at hf
        simp only [beq_eq_false_iff_ne, ne_eq] at hf
        omega
      exact Owned_assign cfg s _ mm
        (find_next_zero_bit s.asid_map (NUM_USER_ASIDS cfg s.asid_bits) s.cur_idx) _
        rfl rfl rfl rfl rfl (fun m _ hm => h.marked m hm)
        (fun x y _ _ hx hy e => h.unique x y hx hy e) h.not_ahead (b hlt).2
        (asid2idx_or_generation cfg _ _ _ hi.bits_lo h63 hlt hi.gen_dvd)
        (fresh_id_lt cfg _ _ _ hi.bits_lo h64 hi.gen_dvd)
    · intro _ _
      obtain ⟨_, s2, s3⟩ := scan_after_rollover cfg s hn
      obtain ⟨f1, f2⟩ := rollover_frame cfg s
      have hi2 := rollover_Inv cfg s hi
      have hgen : (rollover cfg s).asid_generation = s.asid_generation + 2 ^ s.asid_bits := by
        rw [(rollover_generation cfg s).1, ASID_FIRST_VERSION_eq _ h63]
        exact Nat.mod_eq_of_lt hw
      have hdvd : 2 ^ s.asid_bits ∣ (rollover cfg s).asid_generation := by
        have := hi2.gen_dvd
        rw [f1] at this
        exact this
      rw [f1]
      refine Owned_assign cfg (rollover cfg s) _ mm
        (find_next_zero_bit (rollover cfg s).asid_map (NUM_USER_ASIDS cfg s.asid_bits) 1) _
        rfl rfl rfl rfl rfl ?_ ?_ ?_ s3 ?_ ?_
      · intro m _ hm
        rw [f1, f2]
        exact (rollover_holds cfg s hi hw h.not_ahead m hm).2
      · intro x y _ _ hx hy e
        rw [f1, f2] at e
        exact h.unique x y (rollover_holds cfg s hi hw h.not_ahead x hx).1
          (rollover_holds cfg s hi hw h.not_ahead y hy).1 e
      · intro m
        rw [f1, f2, hgen]
        exact lt_of_lt_of_le (h.not_ahead m) (Nat.le_add_right _ _)
      · simp only [set_asid]
        rw [f1]
        exact asid2idx_or_generation cfg _ _ _ hi.bits_lo h63 s2 hdvd
      · simp only [set_asid]
        rw [f1]
        exact fresh_id_lt cfg _ _ _ hi.bits_lo h64 hdvd

/-- The exclusive ownership of indices only depends on the width, the
generation, the bitmap, the reserved identifiers and the identifiers of the
address spaces. -/
theorem Owned_congr (cfg : Config) (t u : State)
    (e1 : u.asid_bits = t.asid_bits) (e2 : u.asid_generation = t.asid_generation)
    (e3 : u.asid_map = t.asid_map) (e4 : u.reserved_asids = t.reserved_asids)
    (e5 : u.context_id = t.context_id) (h : Owned cfg t) : Owned cfg u := by
  refine Owned_of_shrink cfg t u e1 e2 e3 ?_ ?_ h
  · intro m hm
    unfold holds_index at hm ⊢
    rw [e1, e2, e4, e5] at hm
    rw [e5]
    exact ⟨hm, rfl⟩
  · intro m
    rw [e5]
    exact h.not_ahead m

/-- With more usable identifiers than CPUs, in every state reached without a
wrap of the generation the indices are exclusively owned. -/
theorem ReachableNoWrap.owned {cfg : Config} {s : State} (h : ReachableNoWrap cfg s) :
    cfg.ncpus < NUM_USER_ASIDS cfg s.asid_bits - 1 → Owned cfg s := by
  induction h with
  | init fld r hr =>
    intro _
    obtain ⟨_, _, _, _, _, _, _, e8, _⟩ := asids_init_state cfg fld r hr
    refine ⟨?_, ?_, ?_⟩
    · intro m hm
      unfold holds_index at hm
      rw [e8] at hm
      exact absurd rfl hm.1
    · intro a b ha
      unfold holds_index at ha
      rw [e8] at ha
      exact absurd rfl ha.1
    · intro m
      rw [e8]
      exact Nat.add_pos_right _ (Nat.pow_pos (by norm_num))
  | switch s mm cpu hs _ hw ih =>
    intro hn
    rw [check_and_switch_context_asid_bits] at hn
    obtain ⟨e1, e2, e3, e4, _, e6⟩ := check_and_switch_context_core cfg s mm cpu
    exact Owned_congr cfg _ _ e1 e2 e3 e4 e6
      (renew_context_Owned cfg s mm hs.reachable.inv hn hw (ih hn))

theorem example_two_cpus_nowrap : ReachableNoWrap example_cfg example_two_cpus :=
  ReachableNoWrap.switch _ 1 1
    (ReachableNoWrap.switch _ 0 0 (ReachableNoWrap.init 0 ⟨false, example_init⟩ rfl)
      (by decide) (by decide))
    (by decide) (by decide)

/-- C21 (uniqueness across address spaces): assuming
`NUM_USER_ASIDS - 1 > ` number of possible CPUs and no 64-bit wrap-around of
the generation, in every state reachable from `asids_init` by sequential
`check_and_switch_context` calls, any two distinct address spaces whose
identifiers are both of the current generation have different `asid_map`
indices, hence different local ids, and the bit of each of them is set in
`asid_map`. -/
theorem C21_unique_index (cfg : Config) (s : State) (h : ReachableNoWrap cfg s)
    (hn : cfg.ncpus < NUM_USER_ASIDS cfg s.asid_bits - 1) (a b : Nat) (hab : a ≠ b)
    (ha : is_stale s.asid_bits (s.context_id a) s.asid_generation = false)
    (hb : is_stale s.asid_bits (s.context_id b) s.asid_generation = false) :
    asid2idx cfg s.asid_bits (s.context_id a) ≠ asid2idx cfg s.asid_bits (s.context_id b) ∧
    local_id s.asid_bits (s.context_id a) ≠ local_id s.asid_bits (s.context_id b) ∧
    s.asid_map (asid2idx cfg s.asid_bits (s.context_id a)) = true ∧
    s.asid_map (asid2idx cfg s.asid_bits (s.context_id b)) = true := by
  have ho := h.owned hn
  have hi := h.reachable.inv
  have hg0 := h.generation_ne_zero
  have hha : holds_index cfg s a :=
    ⟨current_ne_zero _ _ _ hi.gen_dvd hg0 ha, Or.inl ha⟩
  have hhb : holds_index cfg s b :=
    ⟨current_ne_zero _ _ _ hi.gen_dvd hg0 hb, Or.inl hb⟩
  have hne : asid2idx cfg s.asid_bits (s.context_id a) ≠
      asid2idx cfg s.asid_bits (s.context_id b) :=
    fun e => hab (ho.unique a b hha hhb e)
  refine ⟨hne, ?_, ho.marked a hha, ho.marked b hhb⟩
  intro e
  apply hne
  rw [asid2idx_of_local_id, asid2idx_of_local_id, e]

/-- C21 at a concrete input: address space 0 on CPU 0 and address space 1 on
CPU 1 have the identifiers 258 and 260, indices 1 and 2. -/
theorem C21_unique_index_witness :
    (example_two_cpus.context_id 0 = 258 ∧ example_two_cpus.context_id 1 = 260) ∧
    asid2idx example_cfg example_two_cpus.asid_bits (example_two_cpus.context_id 0) ≠
      asid2idx example_cfg example_two_cpus.asid_bits (example_two_cpus.context_id 1) :=
  ⟨by decide,
   (C21_unique_index example_cfg example_two_cpus example_two_cpus_nowrap (by decide) 0 1
     (by decide) (by decide) (by decide)).1⟩

/-! ## C24: identifiers and bitmap indices -/

/-- Clearing the lowest bit of a local id keeps it below the width. -/
theorem clear_low_bit_mod (l p : Nat) (hl : l < p) : 2 * (l / 2) % p = l - l % 2 := by
  rw [Nat.mod_eq_of_lt (by omega)]
  omega

/-- C24 (id/index conversion): in both build modes and for every width
`asid_bits` from 2 up to 63 (the shift `1UL << asid_bits` of a 64-bit word is
defined for widths below 64 only), `asid2idx(x) < NUM_USER_ASIDS` for every
word `x`, and `asid2idx(idx2asid(i)) = i` for every index
`i < NUM_USER_ASIDS`.  With `CONFIG_UNMAP_KERNEL_AT_EL0` (the halved mode)
`idx2asid(i)` is always even and `idx2asid(asid2idx(x))` is the local id of
`x` with its lowest bit cleared; without it `idx2asid(asid2idx(x))` is the
local id of `x`. -/
theorem C24_index_conversion (cfg : Config) (b : Nat) (h2 : 2 ≤ b) (h64 : b < 64) :
    (∀ x, asid2idx cfg b x < NUM_USER_ASIDS cfg b) ∧
    (∀ i, i < NUM_USER_ASIDS cfg b → asid2idx cfg b (idx2asid cfg b i) = i) ∧
    (cfg.kpti = true →
      (∀ i, idx2asid cfg b i % 2 = 0) ∧
      (∀ x, idx2asid cfg b (asid2idx cfg b x) = local_id b x - local_id b x % 2)) ∧
    (cfg.kpti = false → ∀ x, idx2asid cfg b (asid2idx cfg b x) = local_id b x) := by
  have h1 : 1 ≤ b := by omega
  have hle : b ≤ 64 := by omega
  refine ⟨fun x => asid2idx_lt cfg b x h1 h64,
    fun i hi => asid2idx_idx2asid cfg b i h1 h64 hi, ?_, ?_⟩
  · intro hk
    refine ⟨?_, ?_⟩
    · intro i
      rw [idx2asid_eq cfg b i h1 hle, if_pos hk]
      have hd : 2 ∣ 2 ^ b := dvd_pow_self 2 (by omega)
      have : 2 ∣ 2 * i % 2 ^ b := (Nat.dvd_mod_iff hd).mpr (dvd_mul_right 2 i)
      omega
    · intro x
      rw [idx2asid_eq cfg b _ h1 hle, asid2idx_eq cfg b x h1 hle, if_pos hk, if_pos hk,
        local_id_eq_mod b x h1 hle]
      exact clear_low_bit_mod _ _ (Nat.mod_lt _ (Nat.pow_pos (by norm_num)))
  · intro hk
    intro x
    rw [idx2asid_eq cfg b _ h1 hle, asid2idx_eq cfg b x h1 hle, local_id_eq_mod b x h1 hle]
    simp only [hk, Bool.false_eq_true, if_false]
    exact Nat.mod_mod _ _

/-- C24 at a concrete input: 8-bit identifiers in the halved mode. -/
theorem C24_index_conversion_witness :
    (asid2idx example_cfg 8 0x1234567 = 51 ∧ idx2asid example_cfg 8 51 = 102 ∧
      local_id 8 0x1234567 = 103) ∧
    ((∀ x, asid2idx example_cfg 8 x < NUM_USER_ASIDS example_cfg 8) ∧
    (∀ i, i < NUM_USER_ASIDS example_cfg 8 →
      asid2idx example_cfg 8 (idx2asid example_cfg 8 i) = i) ∧
    (example_cfg.kpti = true →
      (∀ i, idx2asid example_cfg 8 i % 2 = 0) ∧
      (∀ x, idx2asid example_cfg 8 (asid2idx example_cfg 8 x) =
        local_id 8 x - local_id 8 x % 2)) ∧
    (example_cfg.kpti = false →
      ∀ x, idx2asid example_cfg 8 (asid2idx example_cfg 8 x) = local_id 8 x)) :=
  ⟨by decide, C24_index_conversion example_cfg 8 (by decide) (by decide)⟩

/-! ## C28: the hardware width query -/

/-- C28 (hardware width query): for every value `fld` of the ASID field of
the ID register, `get_cpu_asid_bits` returns 16 if `fld = 2` and 8 otherwise,
and it prints the unknown-size warning exactly when `fld` is neither 0 nor 2.
It has no failing exit: for every `fld` it returns a width, 8 or 16. -/
theorem C28_get_cpu_asid_bits (fld : Int) :
    (get_cpu_asid_bits fld).1 = (if fld = 2 then 16 else 8) ∧
    ((get_cpu_asid_bits fld).2 = true ↔ (fld ≠ 0 ∧ fld ≠ 2)) ∧
    ((get_cpu_asid_bits fld).1 = 8 ∨ (get_cpu_asid_bits fld).1 = 16) := by
  unfold get_cpu_asid_bits
  by_cases h0 : fld = 0
  · subst h0
    simp
  · by_cases h2 : fld = 2
    · subst h2
      simp
    · simp [h0, h2]

/-! ## C2: identifiers active on two CPUs -/

/-- A context switch keeps every non-zero active identifier the identifier of
an address space. -/
theorem check_and_switch_context_Backed (cfg : Config) (s : State) (mm cpu : Nat)
    (hi : Inv cfg s) (hq : Quiet cfg s) (hb : Backed s) :
    Backed (check_and_switch_context cfg s mm cpu) := by
  intro c hc
  obtain ⟨a1, a2, _, _⟩ := check_and_switch_context_active_pending cfg s mm cpu
  by_cases e : c = cpu
  · rw [e]
    exact ⟨mm, a1.symm⟩
  · rw [a2 c e] at hc ⊢
    by_cases hr : rollover_in_call cfg s mm = true ∧ c < cfg.ncpus
    · rw [if_pos hr] at hc
      exact absurd rfl hc
    · rw [if_neg hr] at hc ⊢
      obtain ⟨m, hm⟩ := hb c hc
      refine ⟨m, ?_⟩
      rw [check_and_switch_context_context_id]
      by_cases hmm : m = mm ∧ is_stale s.asid_bits (s.context_id mm) s.asid_generation = true
      · exfalso
        have hcn : c < cfg.ncpus := by
          by_contra hcn
          exact hc (hq.impossible_idle c (by omega))
        rcases hi.active_current c hcn with z | z
        · exact hc z
        · rw [← hm, hmm.1, hmm.2] at z
          exact absurd z (by simp)
      · rw [if_neg hmm]
        exact hm

/-- In every reachable state each non-zero active identifier is the
identifier of an address space. -/
theorem Reachable.backed {cfg : Config} {s : State} (h : Reachable cfg s) : Backed s := by
  induction h with
  | init fld r hr =>
    obtain ⟨_, _, _, e4, _, _, _, _, _⟩ := asids_init_state cfg fld r hr
    intro c hc
    rw [e4] at hc
    exact absurd rfl hc
  | switch s mm cpu hs _ ih =>
    exact check_and_switch_context_Backed cfg s mm cpu hs.inv hs.quiet ih

theorem example_tight_shared_reachable : Reachable example_cfg_127 example_tight_shared :=
  Reachable.switch _ 127 2
    (Reachable.switch _ 128 1
      (Reachable.switch _ 0 0 example_overrun_reachable (by decide)) (by decide))
    (by decide)

/-- The three switches from `example_overrun` to `example_tight_shared`, by
evaluation.  Before them the generation is 512, address space 127 has the
identifier 512 and address space 0 still has 258, which CPU 0 has reserved.
CPU 0 back to address space 0: the reservation matches, the identifier
becomes 514 and replaces the reservation.  CPU 1 to the fresh address space
128: the cursor is at 128, the scan fails, the generation becomes 768, bit 0
stays clear, and the second scan fails too, so that the identifier is
`idx2asid(128) | 768 = 768`.  CPU 2 to address space 127: 512 is stale and
reserved nowhere, its index 0 is clear, so that it is renewed as 768. -/
theorem example_tight_shared_trace :
    example_overrun.asid_generation = 512 ∧
    example_overrun.context_id 127 = 512 ∧
    example_overrun.context_id 0 = 258 ∧
    example_overrun.reserved_asids 0 = 258 ∧
    (check_and_switch_context example_cfg_127 example_overrun 0 0).context_id 0 = 514 ∧
    (check_and_switch_context example_cfg_127 example_overrun 0 0).reserved_asids 0 = 514 ∧
    (check_and_switch_context example_cfg_127 example_overrun 0 0).cur_idx = 128 ∧
    (check_and_switch_context example_cfg_127
      (check_and_switch_context example_cfg_127 example_overrun 0 0) 128 1).asid_generation =
        768 ∧
    (check_and_switch_context example_cfg_127
      (check_and_switch_context example_cfg_127 example_overrun 0 0) 128 1).context_id 128 =
        768 ∧
    (check_and_switch_context example_cfg_127
      (check_and_switch_context example_cfg_127 example_overrun 0 0) 128 1).asid_map 0 =
        false ∧
    asid2idx example_cfg_127 8 512 = 0 := by
  decide!

/-- The values in `example_tight_shared`, by evaluation of the context
switches that lead to it. -/
theorem example_tight_shared_values :
    example_tight_shared.asid_bits = 8 ∧
    example_tight_shared.asid_generation = 768 ∧
    example_tight_shared.context_id 128 = 768 ∧
    example_tight_shared.context_id 127 = 768 ∧
    example_tight_shared.active_asids 1 = 768 ∧
    example_tight_shared.active_asids 2 = 768 := by
  decide!

/-- C2 fails as stated, in two ways.  After address space 0 has been switched
in on CPU 0 and on CPU 1, a reachable state, the two CPUs hold non-zero
active identifiers of the current generation with the same local id: both
hold the identifier 258 of that address space.  And with as many possible
CPUs as usable identifiers (127 CPUs, 8-bit ASIDs, halved mode), in the
reachable state `example_tight_shared` the two different address spaces 127
and 128 have the same identifier 768, of the current generation, and it is
the active identifier of CPU 2 and of CPU 1. -/
theorem C2_same_local_id_counterexample :
    (Reachable example_cfg example_shared_mm ∧
    (0 : Nat) ≠ 1 ∧ 0 < example_cfg.ncpus ∧ 1 < example_cfg.ncpus ∧
    example_shared_mm.active_asids 0 ≠ 0 ∧ example_shared_mm.active_asids 1 ≠ 0 ∧
    is_stale example_shared_mm.asid_bits (example_shared_mm.active_asids 0)
      example_shared_mm.asid_generation = false ∧
    is_stale example_shared_mm.asid_bits (example_shared_mm.active_asids 1)
      example_shared_mm.asid_generation = false ∧
    local_id example_shared_mm.asid_bits (example_shared_mm.active_asids 0) =
      local_id example_shared_mm.asid_bits (example_shared_mm.active_asids 1)) ∧
    (Reachable example_cfg_127 example_tight_shared ∧
    (1 : Nat) ≠ 2 ∧ 1 < example_cfg_127.ncpus ∧ 2 < example_cfg_127.ncpus ∧
    example_tight_shared.asid_generation = 768 ∧
    example_tight_shared.context_id 128 = 768 ∧
    example_tight_shared.context_id 127 = 768 ∧
    example_tight_shared.active_asids 1 = 768 ∧
    example_tight_shared.active_asids 2 = 768 ∧
    is_stale example_tight_shared.asid_bits (example_tight_shared.active_asids 1)
      example_tight_shared.asid_generation = false ∧
    is_stale example_tight_shared.asid_bits (example_tight_shared.active_asids 2)
      example_tight_shared.asid_generation = false ∧
    local_id example_tight_shared.asid_bits (example_tight_shared.active_asids 1) =
      local_id example_tight_shared.asid_bits (example_tight_shared.active_asids 2)) := by
  obtain ⟨v1, v2, v3, v4, v5, v6⟩ := example_tight_shared_values
  refine ⟨⟨example_shared_mm_reachable, by decide, by decide, by decide, by decide, by decide,
    by decide, by decide, by decide⟩,
    ⟨example_tight_shared_reachable, by decide, by decide, by decide, v2, v3, v4, v5, v6,
      ?_, ?_, ?_⟩⟩
  · rw [v1, v2, v5]
    decide
  · rw [v1, v2, v6]
    decide
  · rw [v5, v6]

/-- C2 as amended: in every reachable state, for all CPUs `c1`, `c2` whose
`active_asids` entries are both non-zero and of the current generation, each
entry is the identifier of an address space; and, when `NUM_USER_ASIDS - 1`
exceeds the number of possible CPUs and the generation has not wrapped
around, two entries that are the identifiers of different address spaces
have different bitmap indices and different local ids.  (CPUs that run the
same address space hold the same identifier.) -/
theorem C2_active_distinct_address_spaces (cfg : Config) (s : State) (c1 c2 : Nat)
    (h : Reachable cfg s)
    (h1 : s.active_asids c1 ≠ 0) (h2 : s.active_asids c2 ≠ 0)
    (g1 : (s.active_asids c1 ^^^ s.asid_generation) >>> s.asid_bits = 0)
    (g2 : (s.active_asids c2 ^^^ s.asid_generation) >>> s.asid_bits = 0) :
    (∃ a, s.context_id a = s.active_asids c1) ∧
    (∃ b, s.context_id b = s.active_asids c2) ∧
    (ReachableNoWrap cfg s → cfg.ncpus < NUM_USER_ASIDS cfg s.asid_bits - 1 →
      ∀ a b, s.context_id a = s.active_asids c1 → s.context_id b = s.active_asids c2 →
        a ≠ b →
        asid2idx cfg s.asid_bits (s.active_asids c1) ≠
          asid2idx cfg s.asid_bits (s.active_asids c2) ∧
        local_id s.asid_bits (s.active_asids c1) ≠
          local_id s.asid_bits (s.active_asids c2)) := by
  refine ⟨h.backed c1 h1, h.backed c2 h2, ?_⟩
  intro hnw hn a b ha hb hab
  have ho := hnw.owned hn
  have s1 : is_stale s.asid_bits (s.context_id a) s.asid_generation = false := by
    rw [ha]
    unfold is_stale
    simp [g1]
  have s2 : is_stale s.asid_bits (s.context_id b) s.asid_generation = false := by
    rw [hb]
    unfold is_stale
    simp [g2]
  have hha : holds_index cfg s a := ⟨by rw [ha]; exact h1, Or.inl s1⟩
  have hhb : holds_index cfg s b := ⟨by rw [hb]; exact h2, Or.inl s2⟩
  have hne : asid2idx cfg s.asid_bits (s.active_asids c1) ≠
      asid2idx cfg s.asid_bits (s.active_asids c2) := by
    intro e
    rw [← ha, ← hb] at e
    exact hab (ho.unique a b hha hhb e)
  refine ⟨hne, ?_⟩
  intro e
  apply hne
  rw [asid2idx_of_local_id, asid2idx_of_local_id, e]

/-- The amended C2 at a concrete input: address space 0 runs on CPU 0 and
address space 1 on CPU 1, with the identifiers 258 and 260; their local ids
2 and 4 differ. -/
theorem C2_active_distinct_address_spaces_witness :
    (example_two_cpus.active_asids 0 = 258 ∧ example_two_cpus.active_asids 1 = 260 ∧
      example_two_cpus.context_id 0 = 258 ∧ example_two_cpus.context_id 1 = 260) ∧
    local_id example_two_cpus.asid_bits (example_two_cpus.active_asids 0) ≠
      local_id example_two_cpus.asid_bits (example_two_cpus.active_asids 1) :=
  ⟨by decide,
   ((C2_active_distinct_address_spaces example_cfg example_two_cpus 0 1
      example_two_cpus_nowrap.reachable (by decide) (by decide) (by decide) (by decide)).2.2
      example_two_cpus_nowrap (by decide) 0 1 (by decide) (by decide) (by decide)).2⟩

/-! ## C4 after a rollover -/

/-- The values in `example_exhausted`, by evaluation of the 128 context
switches that lead to it: the generation is 512, CPU 0 has reserved 510 (the
identifier of address space 126, index 127), address space 127 has taken
index 1, and address space 0 still has its identifier 258 of the first
generation. -/
theorem example_exhausted_values :
    example_exhausted.asid_bits = 8 ∧
    example_exhausted.asid_generation = 512 ∧
    example_exhausted.reserved_asids 0 = 510 ∧
    example_exhausted.context_id 127 = 514 ∧
    example_exhausted.context_id 0 = 258 ∧
    new_context_reuses example_cfg example_exhausted 0 = false ∧
    (new_context example_cfg example_exhausted 0).1 = 516 ∧
    (new_context example_cfg example_exhausted 0).2.reserved_asids 0 = 510 := by
  decide!

/-- C4 at a concrete input: after the first rollover CPU 0 has reserved the
identifier 510 (local id 254).  Address space 0 comes back with the stale
identifier 258, which is reserved nowhere and whose index 1 is taken again,
so that `new_context` scans: it returns 516, local id 4, different from the
local id of every CPU's reserved identifier. -/
theorem C4_no_premature_reuse_witness :
    (example_exhausted.reserved_asids 0 = 510 ∧
      new_context_reuses example_cfg example_exhausted 0 = false ∧
      (new_context example_cfg example_exhausted 0).1 = 516 ∧
      (new_context example_cfg example_exhausted 0).2.reserved_asids 0 = 510) ∧
    (∀ c, c < example_cfg.ncpus →
      local_id example_exhausted.asid_bits (new_context example_cfg example_exhausted 0).1 ≠
        local_id example_exhausted.asid_bits
          ((new_context example_cfg example_exhausted 0).2.reserved_asids c)) :=
  ⟨⟨example_exhausted_values.2.2.1, example_exhausted_values.2.2.2.2.2.1,
    example_exhausted_values.2.2.2.2.2.2.1, example_exhausted_values.2.2.2.2.2.2.2⟩,
   (C4_no_premature_reuse example_cfg example_exhausted 0 example_exhausted_reachable
     (by rw [example_exhausted_values.1]; decide)
     example_exhausted_values.2.2.2.2.2.1).1⟩

end Asid

namespace EnergyModel

/-! ## `em_create_pd`: the table that is built -/

theorem em_rejected_eq_false (ap : Nat → Nat → ActivePower) (cpu i : Nat) :
    em_rejected ap cpu i = false ↔
      (em_report ap cpu i).ret = 0 ∧
      em_prev_freq ap cpu i < (em_report ap cpu i).freq ∧
      1 ≤ (em_report ap cpu i).power ∧ (em_report ap cpu i).power ≤ EM_CPU_MAX_POWER := by
  unfold em_rejected
  simp only [Bool.or_eq_false_iff, decide_eq_false_iff_not, not_not, not_le, gt_iff_lt, not_lt,
    and_assoc]
  constructor
  · rintro ⟨a, b, c, d⟩
    exact ⟨a, b, Nat.one_le_iff_ne_zero.mpr c, d⟩
  · rintro ⟨a, b, c, d⟩
    exact ⟨a, b, Nat.one_le_iff_ne_zero.mp c, d⟩

/-- The first loop run from state `k` on, when no report is rejected. -/
theorem em_build_table_ok (ap : Nat → Nat → ActivePower) (cpu : Nat) :
    ∀ (n k : Nat) (acc : List em_cap_state),
      (∀ i, k ≤ i → i < k + n → em_rejected ap cpu i = false) →
      em_build_table ap cpu n (em_freq_in ap cpu k) (em_prev_freq ap cpu k) acc =
        some (acc ++ (List.range' k n).map (em_entry ap cpu)) := by
  intro n
  induction n with
  | zero =>
    intro k acc _
    simp [em_build_table]
  | succ n ih =>
    intro k acc h
    obtain ⟨a, b, c, d⟩ := (em_rejected_eq_false ap cpu k).mp (h k le_rfl (by omega))
    have a2 : (ap (em_freq_in ap cpu k) cpu).ret = 0 := a
    have b2 : ¬ (ap (em_freq_in ap cpu k) cpu).freq ≤ em_prev_freq ap cpu k :=
      not_le.mpr b
    have c2 : ¬ ((ap (em_freq_in ap cpu k) cpu).power = 0 ∨
        (ap (em_freq_in ap cpu k) cpu).power > EM_CPU_MAX_POWER) := by
      rintro (x | x)
      · have : (em_report ap cpu k).power = 0 := x
        omega
      · have : (em_report ap cpu k).power > EM_CPU_MAX_POWER := x
        omega
    rw [em_build_table]
    simp only [a2, ne_eq, not_true_eq_false, if_false, b2, c2]
    have := ih (k + 1) (acc ++ [em_entry ap cpu k]) (fun i h1 h2 => h i (by omega) (by omega))
    rw [List.range'_succ, List.map_cons]
    rw [List.append_assoc, List.singleton_append] at this
    exact this

/-- The first loop run from state `k` on, when some report is rejected. -/
theorem em_build_table_rejected (ap : Nat → Nat → ActivePower) (cpu : Nat) :
    ∀ (n k : Nat) (acc : List em_cap_state),
      (∃ i, k ≤ i ∧ i < k + n ∧ em_rejected ap cpu i = true) →
      em_build_table ap cpu n (em_freq_in ap cpu k) (em_prev_freq ap cpu k) acc = none := by
  intro n
  induction n with
  | zero =>
    rintro k acc ⟨i, h1, h2, _⟩
    omega
  | succ n ih =>
    rintro k acc ⟨i, h1, h2, h3⟩
    rw [em_build_table]
    cases hk : em_rejected ap cpu k with
    | true =>
      unfold em_rejected at hk
      simp only [Bool.or_eq_true, decide_eq_true_eq] at hk
      rcases hk with ((x | x) | x) | x
      · have x2 : (ap (em_freq_in ap cpu k) cpu).ret ≠ 0 := x
        simp only [x2, ne_eq, not_false_eq_true, if_true]
      · have x2 : (ap (em_freq_in ap cpu k) cpu).freq ≤ em_prev_freq ap cpu k := x
        simp only [x2, if_true, ite_self]
      · have x2 : (ap (em_freq_in ap cpu k) cpu).power = 0 := x
        simp only [x2, true_or, if_true, ite_self]
      · have x2 : (ap (em_freq_in ap cpu k) cpu).power > EM_CPU_MAX_POWER := x
        simp only [x2, or_true, if_true, ite_self]
    | false =>
      obtain ⟨a, b, c, d⟩ := (em_rejected_eq_false ap cpu k).mp hk
      have a2 : (ap (em_freq_in ap cpu k) cpu).ret = 0 := a
      have b2 : ¬ (ap (em_freq_in ap cpu k) cpu).freq ≤ em_prev_freq ap cpu k :=
        not_le.mpr b
      have c2 : ¬ ((ap (em_freq_in ap cpu k) cpu).power = 0 ∨
          (ap (em_freq_in ap cpu k) cpu).power > EM_CPU_MAX_POWER) := by
        rintro (x | x)
        · have : (em_report ap cpu k).power = 0 := x
          omega
        · have : (em_report ap cpu k).power > EM_CPU_MAX_POWER := x
          omega
      simp only [a2, ne_eq, not_true_eq_false, if_false, b2, c2]
      have hne : i ≠ k := by
        intro e
        rw [e, hk] at h3
        exact absurd h3 (by simp)
      exact ih (k + 1) _ ⟨i, by omega, by omega, h3⟩

/-- The frequencies reported for accepted states increase strictly. -/
theorem em_report_freq_lt (ap : Nat → Nat → ActivePower) (cpu n : Nat)
    (h : ∀ i, i < n → em_rejected ap cpu i = false) :
    ∀ j, j < n → ∀ i, i < j → (em_report ap cpu i).freq < (em_report ap cpu j).freq := by
  intro j
  induction j with
  | zero =>
    intro _ i hi
    omega
  | succ j ih =>
    intro hj i hi
    have hb := ((em_rejected_eq_false ap cpu (j + 1)).mp (h (j + 1) hj)).2.1
    have hb2 : (em_report ap cpu j).freq < (em_report ap cpu (j + 1)).freq := hb
    rcases Nat.lt_succ_iff_lt_or_eq.mp hi with l | e
    · exact lt_trans (ih (by omega) i l) hb2
    · rw [e]; exact hb2


theorem em_entries_getD (ap : Nat → Nat → ActivePower) (cpu n i : Nat) (hi : i < n) :
    (((List.range' 0 n).map (em_entry ap cpu)).getD i ⟨0, 0, 0⟩) = em_entry ap cpu i := by
  rw [List.getD_eq_getElem?_getD, List.getElem?_map, List.getElem?_range' _ _ hi]
  simp

/-- The function `em_create_pd` when the callback is there, both allocations
succeed and no report is rejected. -/
theorem em_create_pd_ok (env : Env) (span : List Nat) (n : Nat) (cb : em_data_callback)
    (ap : Nat → Nat → ActivePower) (hn : 1 ≤ n) (hcb : cb.active_power = some ap)
    (hall : ∀ i, i < n → em_rejected ap (cpumask_first env span) i = false) :
    em_create_pd env span (n : Int) cb true true =
      some
        { table := (List.range n).map fun i =>
            { frequency := (em_report ap (cpumask_first env span) i).freq
              power := (em_report ap (cpumask_first env span) i).power
              cost :=
                ((em_report ap (cpumask_first env span) (n - 1)).freq *
                    (em_report ap (cpumask_first env span) i).power) % 2 ^ 64 /
                  (em_report ap (cpumask_first env span) i).freq }
          nr_cap_states := (n : Int)
          cpus := span } := by
  have hb := em_build_table_ok ap (cpumask_first env span) n 0 []
    (fun i _ h2 => hall i (by omega))
  have e1 : em_freq_in ap (cpumask_first env span) 0 = 0 := rfl
  have e2 : em_prev_freq ap (cpumask_first env span) 0 = 0 := rfl
  rw [e1, e2, List.nil_append] at hb
  have e3 : ((n : Int) - 1).toNat = n - 1 := by omega
  have e4 : ¬ ((n : Int) < 0) := by omega
  unfold em_create_pd
  simp only [hcb, Bool.not_true, Bool.false_eq_true, if_false, Int.toNat_ofNat, hb, e3, e4,
    decide_False, Bool.or_self]
  rw [em_entries_getD ap _ n (n - 1) (by omega)]
  unfold em_compute_costs div64_u64
  rw [List.map_map, List.range_eq_range']
  rfl

/-- The function `em_create_pd` yields no domain exactly in these cases. -/
theorem em_create_pd_none_iff (env : Env) (span : List Nat) (n : Nat) (cb : em_data_callback)
    (kzalloc_ok kcalloc_ok : Bool) (hn : 1 ≤ n) :
    em_create_pd env span (n : Int) cb kzalloc_ok kcalloc_ok = none ↔
      (cb.active_power = none ∨ kzalloc_ok = false ∨ kcalloc_ok = false ∨
        ∃ ap, cb.active_power = some ap ∧
          ∃ i, i < n ∧ em_rejected ap (cpumask_first env span) i = true) := by
  cases hcb : cb.active_power with
  | none =>
    unfold em_create_pd
    simp [hcb]
  | some ap =>
    cases kzalloc_ok with
    | false =>
      unfold em_create_pd
      simp [hcb]
    | true =>
      cases kcalloc_ok with
      | false =>
        unfold em_create_pd
        simp [hcb]
      | true =>
        by_cases hbad : ∃ i, i < n ∧ em_rejected ap (cpumask_first env span) i = true
        · have hb := em_build_table_rejected ap (cpumask_first env span) n 0 []
            (by
              obtain ⟨i, h1, h2⟩ := hbad
              exact ⟨i, Nat.zero_le i, by omega, h2⟩)
          have e1 : em_freq_in ap (cpumask_first env span) 0 = 0 := rfl
          have e2 : em_prev_freq ap (cpumask_first env span) 0 = 0 := rfl
          rw [e1, e2] at hb
          have e4 : ¬ ((n : Int) < 0) := by omega
          constructor
          · intro _
            exact Or.inr (Or.inr (Or.inr ⟨ap, rfl, hbad⟩))
          · intro _
            unfold em_create_pd
            simp only [hcb, Bool.not_true, Bool.false_eq_true, if_false, Int.toNat_ofNat, hb,
              e4, decide_False, Bool.or_self]
        · have hall : ∀ i, i < n → em_rejected ap (cpumask_first env span) i = false := by
            intro i hi
            cases e : em_rejected ap (cpumask_first env span) i with
            | false => rfl
            | true => exact absurd ⟨i, hi, e⟩ hbad
          rw [em_create_pd_ok env span n cb ap hn hcb hall]
          constructor
          · intro e
            exact absurd e (by simp)
          · rintro (x | x | x | ⟨ap2, e, hx⟩)
            · exact absurd x (by simp)
            · exact absurd x (by simp)
            · exact absurd x (by simp)
            · rw [Option.some.injEq] at e
              rw [← e] at hx
              exact absurd hx hbad

/-! ## C18: the table built by `em_create_pd` -/

/-- C18 fails as stated, twice.  With the callback present and no report
rejected, `em_create_pd` still yields no domain when an allocation fails.
And for one state of `2 ^ 63` kHz and 2 mW the cost stored is 0, while
`frequency[0] * power[0] / frequency[0]` is 2: the product is taken in 64
bits. -/
theorem C18_em_create_pd_counterexample :
    (example_cb.active_power = some example_active_power ∧
      (∀ i, i < 3 → em_rejected example_active_power (cpumask_first example_env [0, 1]) i =
        false) ∧
      em_create_pd example_env [0, 1] 3 example_cb false true = none ∧
      em_create_pd example_env [0, 1] 3 example_cb true false = none) ∧
    (em_create_pd example_env [0] 1 example_huge_cb true true =
        some { table := [{ frequency := 2 ^ 63, power := 2, cost := 0 }],
               nr_cap_states := 1, cpus := [0] } ∧
      2 ^ 63 * 2 / 2 ^ 63 = 2) :=
  ⟨⟨rfl, by decide, by decide, by decide⟩, by decide, by decide⟩

/-- C18 as amended: for `nr_states ≥ 1`, `em_create_pd` yields no domain
exactly if the `active_power` callback is missing, one of its two
allocations fails, or for some state `i < nr_states` the callback returns
non-zero, the reported frequency is not strictly greater than the previous
state's (0 before the first), or the reported power is 0 or greater than
`0xFFFF`.  Otherwise it yields a domain over `span` with a table of exactly
`nr_states` entries holding the reported frequencies and powers, with
strictly ascending frequency, every power in `[1, 0xFFFF]`, and
`cost[i] = ((frequency[nr_states - 1] * power[i]) mod 2 ^ 64) / frequency[i]`,
which is `floor(frequency[nr_states - 1] * power[i] / frequency[i])` whenever
that product is below `2 ^ 64`. -/
theorem C18_em_create_pd_table (env : Env) (span : List Nat) (n : Nat)
    (cb : em_data_callback) (kzalloc_ok kcalloc_ok : Bool) (hn : 1 ≤ n) :
    (em_create_pd env span (n : Int) cb kzalloc_ok kcalloc_ok = none ↔
      (cb.active_power = none ∨ kzalloc_ok = false ∨ kcalloc_ok = false ∨
        ∃ ap, cb.active_power = some ap ∧
          ∃ i, i < n ∧ em_rejected ap (cpumask_first env span) i = true)) ∧
    (∀ pd, em_create_pd env span (n : Int) cb kzalloc_ok kcalloc_ok = some pd →
      ∃ ap, cb.active_power = some ap ∧
        pd.table.length = n ∧ pd.nr_cap_states = (n : Int) ∧ pd.cpus = span ∧
        (∀ i, i < n → ∃ cs, pd.table[i]? = some cs ∧
          cs.frequency = (em_report ap (cpumask_first env span) i).freq ∧
          cs.power = (em_report ap (cpumask_first env span) i).power ∧
          1 ≤ cs.power ∧ cs.power ≤ 0xFFFF ∧
          cs.cost =
            ((em_report ap (cpumask_first env span) (n - 1)).freq * cs.power) % 2 ^ 64 /
              cs.frequency ∧
          ((em_report ap (cpumask_first env span) (n - 1)).freq * cs.power < 2 ^ 64 →
            cs.cost =
              (em_report ap (cpumask_first env span) (n - 1)).freq * cs.power /
                cs.frequency)) ∧
        (∀ (i j : Nat) (ci cj : em_cap_state), i < j →
          pd.table[i]? = some ci → pd.table[j]? = some cj →
          ci.frequency < cj.frequency)) := by
  have hiff := em_create_pd_none_iff env span n cb kzalloc_ok kcalloc_ok hn
  refine ⟨hiff, ?_⟩
  intro pd hpd
  have hnot : ¬ (cb.active_power = none ∨ kzalloc_ok = false ∨ kcalloc_ok = false ∨
      ∃ ap, cb.active_power = some ap ∧
        ∃ i, i < n ∧ em_rejected ap (cpumask_first env span) i = true) := by
    intro h
    rw [hiff.mpr h] at hpd
    exact absurd hpd (by simp)
  simp only [not_or, not_exists, not_and, Bool.not_eq_false] at hnot
  obtain ⟨h1, h2, h3, h4⟩ := hnot
  obtain ⟨ap, hcb⟩ := Option.ne_none_iff_exists'.mp h1
  have hall : ∀ i, i < n → em_rejected ap (cpumask_first env span) i = false := by
    intro i hi
    cases e : em_rejected ap (cpumask_first env span) i with
    | false => rfl
    | true => exact absurd e (h4 ap hcb i hi)
  have hok := em_create_pd_ok env span n cb ap hn hcb hall
  rw [h2, h3, hok, Option.some.injEq] at hpd
  subst hpd
  have hget : ∀ i, i < n →
      ((List.range n).map fun i =>
        ({ frequency := (em_report ap (cpumask_first env span) i).freq
           power := (em_report ap (cpumask_first env span) i).power
           cost :=
             ((em_report ap (cpumask_first env span) (n - 1)).freq *
                 (em_report ap (cpumask_first env span) i).power) % 2 ^ 64 /
               (em_report ap (cpumask_first env span) i).freq } : em_cap_state))[i]? =
        some
          { frequency := (em_report ap (cpumask_first env span) i).freq
            power := (em_report ap (cpumask_first env span) i).power
            cost :=
              ((em_report ap (cpumask_first env span) (n - 1)).freq *
                  (em_report ap (cpumask_first env span) i).power) % 2 ^ 64 /
                (em_report ap (cpumask_first env span) i).freq } := by
    intro i hi
    rw [List.getElem?_map, List.getElem?_range hi]
    rfl
  refine ⟨ap, hcb, by simp, rfl, rfl, ?_, ?_⟩
  · intro i hi
    obtain ⟨_, _, c, d⟩ := (em_rejected_eq_false ap _ i).mp (hall i hi)
    refine ⟨_, hget i hi, rfl, rfl, c, d, rfl, ?_⟩
    intro hlt
    simp only
    rw [Nat.mod_eq_of_lt hlt]
  · intro i j ci cj hij hi hj
    have hjn : j < n := by
      by_contra hcon
      rw [List.getElem?_eq_none (by simpa using hcon)] at hj
      exact absurd hj (by simp)
    rw [hget i (by omega), Option.some.injEq] at hi
    rw [hget j hjn, Option.some.injEq] at hj
    rw [← hi, ← hj]
    exact em_report_freq_lt ap _ n hall j hjn i hij

/-- The amended C18 at a concrete input: three operating points, 500 MHz /
100 mW, 1 GHz / 300 mW and 2 GHz / 900 mW, give the costs 400, 600 and
900. -/
theorem C18_em_create_pd_table_witness :
    em_create_pd example_env [0, 1] 3 example_cb true true =
      some { table := [⟨500000, 100, 400⟩, ⟨1000000, 300, 600⟩, ⟨2000000, 900, 900⟩],
             nr_cap_states := 3, cpus := [0, 1] } ∧
    (em_create_pd example_env [0, 1] ((3 : Nat) : Int) example_cb true true = none ↔
      (example_cb.active_power = none ∨ true = false ∨ true = false ∨
        ∃ ap, example_cb.active_power = some ap ∧
          ∃ i, i < 3 ∧ em_rejected ap (cpumask_first example_env [0, 1]) i = true)) :=
  ⟨by decide, (C18_em_create_pd_table example_env [0, 1] 3 example_cb true true (by decide)).1⟩

/-! ## C19: registration of a performance domain -/

/-- The first loop of `em_register_perf_domain` ends with 0 only if no CPU of
the span has a domain yet. -/
theorem em_check_span_zero (env : Env) (em_data : Nat → Option em_perf_domain) :
    ∀ (span : List Nat) (prev_cap : Nat),
      em_check_span env em_data span prev_cap = 0 → ∀ cpu, cpu ∈ span → em_data cpu = none := by
  intro span
  induction span with
  | nil =>
    intro _ _ cpu hc
    exact absurd hc (List.not_mem_nil _)
  | cons c rest ih =>
    intro prev_cap h cpu hc
    rw [em_check_span] at h
    cases hd : em_data c with
    | some pd =>
      rw [hd] at h
      simp [EEXIST] at h
    | none =>
      rw [hd] at h
      simp only [Option.isSome_none, Bool.false_eq_true, if_false] at h
      by_cases hcap : prev_cap ≠ 0 ∧ prev_cap ≠ env.arch_scale_cpu_capacity c
      · rw [if_pos hcap] at h
        simp [EINVAL] at h
      · rw [if_neg hcap] at h
        rcases List.mem_cons.mp hc with e | e
        · rw [e]; exact hd
        · exact ih _ h cpu e

/-- The first loop of `em_register_perf_domain` ends with `-EEXIST` when the
first CPU of the span has a domain. -/
theorem em_check_span_exists (env : Env) (em_data : Nat → Option em_perf_domain)
    (c : Nat) (rest : List Nat) (prev_cap : Nat) (h : (em_data c).isSome = true) :
    em_check_span env em_data (c :: rest) prev_cap = -EEXIST := by
  rw [em_check_span, if_pos h]

/-- The second loop of `em_register_perf_domain`. -/
theorem em_store_span (pd : em_perf_domain) :
    ∀ (span : List Nat) (em_data : Nat → Option em_perf_domain) (cpu : Nat),
      span.foldl (fun d c => Function.update d c (some pd)) em_data cpu =
        if cpu ∈ span then some pd else em_data cpu := by
  intro span
  induction span with
  | nil =>
    intro em_data cpu
    simp
  | cons c rest ih =>
    intro em_data cpu
    rw [List.foldl_cons, ih]
    by_cases h1 : cpu ∈ rest
    · simp [h1]
    · by_cases h2 : cpu = c
      · subst h2
        simp [h1]
      · simp [h1, h2, Function.update_noteq h2]

/-- The function `em_register_perf_domain` when its first loop ends with an
error. -/
theorem em_register_perf_domain_refused (env : Env) (em_data : Nat → Option em_perf_domain)
    (sp : List Nat) (n : Nat) (c : em_data_callback) (kz kc : Bool) (hn : n ≠ 0)
    (hne : em_check_span env em_data sp 0 ≠ 0) :
    em_register_perf_domain env em_data (some sp) n (some c) kz kc =
      (em_check_span env em_data sp 0, em_data) := by
  simp [em_register_perf_domain, hn, hne]

/-- C19: `em_register_perf_domain` returns `-EINVAL` when `span` is `NULL`,
`nr_states` is 0 or `cb` is `NULL`.  When it returns 0, a new domain (the
one built by `em_create_pd`) was created, no CPU of the span had a domain
before, `em_cpu_get` now returns that same domain for every CPU of the span
and is unchanged for every other CPU, and, the span being non-empty, any
further registration of the same span returns `-EEXIST` and changes
nothing.  Whenever it returns non-zero, `em_cpu_get` is unchanged for every
CPU. -/
theorem C19_em_register_perf_domain (env : Env) (em_data : Nat → Option em_perf_domain)
    (span : Option (List Nat)) (nr_states : Nat) (cb : Option em_data_callback)
    (kzalloc_ok kcalloc_ok : Bool) :
    ((span = none ∨ nr_states = 0 ∨ cb = none) →
      (em_register_perf_domain env em_data span nr_states cb kzalloc_ok kcalloc_ok).1 =
        -EINVAL) ∧
    ((em_register_perf_domain env em_data span nr_states cb kzalloc_ok kcalloc_ok).1 = 0 →
      ∃ sp c pd, span = some sp ∧ cb = some c ∧ nr_states ≠ 0 ∧
        em_create_pd env sp (int_of_unsigned nr_states) c kzalloc_ok kcalloc_ok = some pd ∧
        (∀ cpu, cpu ∈ sp →
          em_cpu_get em_data cpu = none ∧
          em_cpu_get (em_register_perf_domain env em_data span nr_states cb
            kzalloc_ok kcalloc_ok).2 cpu = some pd) ∧
        (∀ cpu, cpu ∉ sp →
          em_cpu_get (em_register_perf_domain env em_data span nr_states cb
            kzalloc_ok kcalloc_ok).2 cpu = em_cpu_get em_data cpu) ∧
        (sp ≠ [] →
          (em_register_perf_domain env
            (em_register_perf_domain env em_data span nr_states cb kzalloc_ok kcalloc_ok).2
            span nr_states cb kzalloc_ok kcalloc_ok) =
            (-EEXIST,
              (em_register_perf_domain env em_data span nr_states cb
                kzalloc_ok kcalloc_ok).2) ∧
          ∀ (n2 : Nat) (cb2 : em_data_callback) (kz2 kc2 : Bool), n2 ≠ 0 →
            em_register_perf_domain env
              (em_register_perf_domain env em_data span nr_states cb kzalloc_ok kcalloc_ok).2
              (some sp) n2 (some cb2) kz2 kc2 =
              (-EEXIST,
                (em_register_perf_domain env em_data span nr_states cb
                  kzalloc_ok kcalloc_ok).2))) ∧
    ((em_register_perf_domain env em_data span nr_states cb kzalloc_ok kcalloc_ok).1 ≠ 0 →
      ∀ cpu,
        em_cpu_get (em_register_perf_domain env em_data span nr_states cb
          kzalloc_ok kcalloc_ok).2 cpu = em_cpu_get em_data cpu) := by
  cases span with
  | none =>
    refine ⟨fun _ => rfl, ?_, fun _ _ => rfl⟩
    intro h
    simp [em_register_perf_domain, EINVAL] at h
  | some sp =>
    cases cb with
    | none =>
      refine ⟨fun _ => rfl, ?_, fun _ _ => rfl⟩
      intro h
      simp [em_register_perf_domain, EINVAL] at h
    | some c =>
      by_cases hn : nr_states = 0
      · have e : em_register_perf_domain env em_data (some sp) nr_states (some c)
            kzalloc_ok kcalloc_ok = (-EINVAL, em_data) := by
          simp [em_register_perf_domain, hn]
        rw [e]
        refine ⟨fun _ => rfl, ?_, fun _ _ => rfl⟩
        intro h
        simp [EINVAL] at h
      · by_cases hchk : em_check_span env em_data sp 0 = 0
        · cases hpd : em_create_pd env sp (int_of_unsigned nr_states) c kzalloc_ok kcalloc_ok with
          | none =>
            have e : em_register_perf_domain env em_data (some sp) nr_states (some c)
                kzalloc_ok kcalloc_ok = (-EINVAL, em_data) := by
              simp [em_register_perf_domain, hn, hchk, hpd]
            rw [e]
            refine ⟨fun _ => rfl, ?_, fun _ _ => rfl⟩
            intro h
            simp [EINVAL] at h
          | some pd =>
            have e : em_register_perf_domain env em_data (some sp) nr_states (some c)
                kzalloc_ok kcalloc_ok =
                (0, sp.foldl (fun d cpu => Function.update d cpu (some pd)) em_data) := by
              simp [em_register_perf_domain, hn, hchk, hpd]
            rw [e]
            refine ⟨?_, ?_, ?_⟩
            · rintro (x | x | x)
              · exact absurd x (by simp)
              · exact absurd x hn
              · exact absurd x (by simp)
            · intro _
              refine ⟨sp, c, pd, rfl, rfl, hn, hpd, ?_, ?_, ?_⟩
              · intro cpu hc
                refine ⟨em_check_span_zero env em_data sp 0 hchk cpu hc, ?_⟩
                unfold em_cpu_get
                simp only
                rw [em_store_span, if_pos hc]
              · intro cpu hc
                unfold em_cpu_get
                simp only
                rw [em_store_span, if_neg hc]
              · intro hne
                have hsecond : ∀ (n2 : Nat) (cb2 : em_data_callback) (kz2 kc2 : Bool),
                    n2 ≠ 0 →
                    em_register_perf_domain env
                      (sp.foldl (fun d cpu => Function.update d cpu (some pd)) em_data)
                      (some sp) n2 (some cb2) kz2 kc2 =
                      (-EEXIST,
                        sp.foldl (fun d cpu => Function.update d cpu (some pd)) em_data) := by
                  intro n2 cb2 kz2 kc2 hn2
                  obtain ⟨c0, rest, rfl⟩ := List.exists_cons_of_ne_nil hne
                  have hset : ((c0 :: rest).foldl
                      (fun d cpu => Function.update d cpu (some pd)) em_data c0).isSome =
                      true := by
                    rw [em_store_span, if_pos (List.mem_cons_self _ _)]
                    rfl
                  have hx := em_check_span_exists env _ c0 rest 0 hset
                  rw [em_register_perf_domain_refused env _ _ n2 cb2 kz2 kc2 hn2
                    (by rw [hx]; simp [EEXIST]), hx]
                exact ⟨hsecond nr_states c kzalloc_ok kcalloc_ok hn, hsecond⟩
            · intro h
              exact absurd rfl h
        · rw [em_register_perf_domain_refused env em_data sp nr_states c kzalloc_ok kcalloc_ok
            hn hchk]
          refine ⟨?_, ?_, fun _ _ => rfl⟩
          · rintro (x | x | x)
            · exact absurd x (by simp)
            · exact absurd x hn
            · exact absurd x (by simp)
          · intro h
            exact absurd h hchk

/-- C19 at concrete inputs: a `NULL` span is refused; registering CPUs 0 and
1 with three operating points succeeds and `em_cpu_get` finds the domain on
CPU 1 but nothing on CPU 2; registering the same span again gives
`-EEXIST`. -/
theorem C19_em_register_perf_domain_witness :
    ((em_register_perf_domain example_env example_em_data (some [0, 1]) 3 (some example_cb)
        true true).1 = 0 ∧
      em_cpu_get (em_register_perf_domain example_env example_em_data (some [0, 1]) 3
        (some example_cb) true true).2 1 =
        em_create_pd example_env [0, 1] 3 example_cb true true ∧
      em_cpu_get (em_register_perf_domain example_env example_em_data (some [0, 1]) 3
        (some example_cb) true true).2 2 = none ∧
      (em_register_perf_domain example_env
        (em_register_perf_domain example_env example_em_data (some [0, 1]) 3
          (some example_cb) true true).2
        (some [0, 1]) 3 (some example_cb) true true).1 = -EEXIST) ∧
    (em_register_perf_domain example_env example_em_data none 3 (some example_cb)
      true true).1 = -EINVAL :=
  ⟨by decide,
   (C19_em_register_perf_domain example_env example_em_data none 3 (some example_cb)
     true true).1 (Or.inl rfl)⟩

/-! ## C20: the energy estimate -/

/-- What the loop of `em_pd_energy` selects: the first entry whose frequency
reaches `freq`, or else the last entry visited (`cs0` if there is none). -/
theorem em_select_spec (freq : Nat) :
    ∀ (l : List em_cap_state) (cs0 : em_cap_state),
      (∃ k c, l[k]? = some c ∧ em_select freq l cs0 = c ∧ freq ≤ c.frequency ∧
        ∀ (j : Nat) (cj : em_cap_state), j < k → l[j]? = some cj → cj.frequency < freq) ∨
      ((∀ c, c ∈ l → c.frequency < freq) ∧ em_select freq l cs0 = l.getLastD cs0) := by
  intro l
  induction l with
  | nil =>
    intro cs0
    right
    exact ⟨fun c hc => absurd hc (List.not_mem_nil _), rfl⟩
  | cons c rest ih =>
    intro cs0
    by_cases h : c.frequency ≥ freq
    · left
      refine ⟨0, c, List.getElem?_cons_zero, ?_, h, ?_⟩
      · rw [em_select, if_pos h]
      · intro j cj hj
        omega
    · have e : em_select freq (c :: rest) cs0 = em_select freq rest c := by
        rw [em_select, if_neg h]
      rcases ih c with ⟨k, d, h1, h2, h3, h4⟩ | ⟨h1, h2⟩
      · left
        refine ⟨k + 1, d, ?_, by rw [e, h2], h3, ?_⟩
        · rw [List.getElem?_cons_succ]
          exact h1
        · intro j cj hj hget
          cases j with
          | zero =>
            rw [List.getElem?_cons_zero, Option.some.injEq] at hget
            rw [← hget]
            omega
          | succ j =>
            rw [List.getElem?_cons_succ] at hget
            exact h4 j cj (by omega) hget
      · right
        refine ⟨?_, ?_⟩
        · intro x hx
          rcases List.mem_cons.mp hx with y | y
          · rw [y]; omega
          · exact h1 x y
        · rw [e, h2, List.getLastD_cons]

theorem getLastD_eq_getElem? (l : List em_cap_state) (d : em_cap_state) (h : l ≠ []) :
    l[l.length - 1]? = some (l.getLastD d) := by
  induction l generalizing d with
  | nil => exact absurd rfl h
  | cons a t ih =>
    cases t with
    | nil => rfl
    | cons b t2 =>
      have := ih a (by simp)
      simp only [List.length_cons, Nat.add_sub_cancel] at this ⊢
      rw [List.getElem?_cons_succ]
      exact this

/-- The function `em_pd_energy` on a domain whose table has `nr_cap_states`
entries, at least one. -/
theorem em_pd_energy_eq (env : Env) (pd : em_perf_domain) (max_util sum_util : Nat)
    (top : em_cap_state) (hlen : pd.nr_cap_states = (pd.table.length : Int))
    (htop : pd.table[pd.table.length - 1]? = some top)
    (hscale : env.arch_scale_cpu_capacity (cpumask_first env pd.cpus) ≠ 0) :
    em_pd_energy env pd max_util sum_util =
      some
        (((em_select
              (env.map_util_freq max_util top.frequency
                (env.arch_scale_cpu_capacity (cpumask_first env pd.cpus)))
              pd.table top).cost * sum_util) % 2 ^ 64 /
          env.arch_scale_cpu_capacity (cpumask_first env pd.cpus)) := by
  have e1 : (pd.nr_cap_states - 1).toNat = pd.table.length - 1 := by
    rw [hlen]
    omega
  have e2 : pd.nr_cap_states.toNat = pd.table.length := by
    rw [hlen]
    exact Int.toNat_ofNat _
  have e3 : pd.table.getD (pd.table.length - 1) ⟨0, 0, 0⟩ = top := by
    rw [List.getD_eq_getElem?_getD, htop]
    rfl
  unfold em_pd_energy
  simp only [e1, e2, e3, List.take_length, hscale, if_false]

/-- C20: for every performance domain whose table has `nr_cap_states ≥ 1`
entries of ascending frequency (and a CPU capacity `scale_cpu` that is not
0), the last entry has the highest frequency of the table, and
`em_pd_energy` selects the lowest-index capacity state whose frequency is at
least `freq = map_util_freq(max_util, highest frequency, scale_cpu)`, or the
highest state if no state reaches `freq`, and returns
`cost(of that state) * sum_util / scale_cpu` in unsigned-long arithmetic
(the product modulo `2 ^ 64`); the selected state does not depend on
`sum_util`, and absent overflow of the product the result is monotonically
non-decreasing in `sum_util`. -/
theorem C20_em_pd_energy (env : Env) (pd : em_perf_domain) (max_util : Nat)
    (hn : 1 ≤ pd.table.length) (hlen : pd.nr_cap_states = (pd.table.length : Int))
    (hasc : ∀ (i j : Nat) (ci cj : em_cap_state), i < j →
      pd.table[i]? = some ci → pd.table[j]? = some cj → ci.frequency ≤ cj.frequency)
    (hscale : env.arch_scale_cpu_capacity (cpumask_first env pd.cpus) ≠ 0) :
    ∃ (top cs : em_cap_state) (k : Nat),
      pd.table[pd.table.length - 1]? = some top ∧
      (∀ c, c ∈ pd.table → c.frequency ≤ top.frequency) ∧
      k < pd.table.length ∧ pd.table[k]? = some cs ∧
      ((env.map_util_freq max_util top.frequency
            (env.arch_scale_cpu_capacity (cpumask_first env pd.cpus)) ≤ cs.frequency ∧
          ∀ (j : Nat) (cj : em_cap_state), j < k → pd.table[j]? = some cj →
            cj.frequency < env.map_util_freq max_util top.frequency
              (env.arch_scale_cpu_capacity (cpumask_first env pd.cpus))) ∨
        (k = pd.table.length - 1 ∧
          ∀ c, c ∈ pd.table →
            c.frequency < env.map_util_freq max_util top.frequency
              (env.arch_scale_cpu_capacity (cpumask_first env pd.cpus)))) ∧
      (∀ sum_util,
        em_pd_energy env pd max_util sum_util =
          some ((cs.cost * sum_util) % 2 ^ 64 /
            env.arch_scale_cpu_capacity (cpumask_first env pd.cpus))) ∧
      (∀ (u1 u2 e1 e2 : Nat), u1 ≤ u2 → cs.cost * u2 < 2 ^ 64 →
        em_pd_energy env pd max_util u1 = some e1 →
        em_pd_energy env pd max_util u2 = some e2 → e1 ≤ e2) := by
  have hne : pd.table ≠ [] := by
    intro e
    rw [e] at hn
    exact absurd hn (by simp)
  have htop := getLastD_eq_getElem? pd.table ⟨0, 0, 0⟩ hne
  have hmax : ∀ c, c ∈ pd.table → c.frequency ≤ (pd.table.getLastD ⟨0, 0, 0⟩).frequency := by
    intro c hc
    obtain ⟨i, hi, e⟩ := List.getElem_of_mem hc
    have hget : pd.table[i]? = some c := by
      rw [List.getElem?_eq_getElem hi, e]
    rcases Nat.lt_or_ge i (pd.table.length - 1) with l | g
    · exact hasc i _ c _ l hget htop
    · have : i = pd.table.length - 1 := by omega
      rw [this, htop, Option.some.injEq] at hget
      rw [hget]
  have henergy := fun u => em_pd_energy_eq env pd max_util u _ hlen htop hscale
  have hmono : ∀ (cs : em_cap_state),
      (∀ u, em_pd_energy env pd max_util u =
        some ((cs.cost * u) % 2 ^ 64 /
          env.arch_scale_cpu_capacity (cpumask_first env pd.cpus))) →
      ∀ (u1 u2 e1 e2 : Nat), u1 ≤ u2 → cs.cost * u2 < 2 ^ 64 →
        em_pd_energy env pd max_util u1 = some e1 →
        em_pd_energy env pd max_util u2 = some e2 → e1 ≤ e2 := by
    intro cs hcs u1 u2 e1 e2 hu hlt h1 h2
    rw [hcs u1, Option.some.injEq] at h1
    rw [hcs u2, Option.some.injEq] at h2
    have hle : cs.cost * u1 ≤ cs.cost * u2 := Nat.mul_le_mul_left _ hu
    rw [Nat.mod_eq_of_lt (lt_of_le_of_lt hle hlt)] at h1
    rw [Nat.mod_eq_of_lt hlt] at h2
    rw [← h1, ← h2]
    exact Nat.div_le_div_right hle
  rcases em_select_spec
      (env.map_util_freq max_util (pd.table.getLastD ⟨0, 0, 0⟩).frequency
        (env.arch_scale_cpu_capacity (cpumask_first env pd.cpus)))
      pd.table (pd.table.getLastD ⟨0, 0, 0⟩) with ⟨k, c, h1, h2, h3, h4⟩ | ⟨h1, h2⟩
  · have hk : k < pd.table.length := by
      by_contra hcon
      rw [List.getElem?_eq_none (by omega)] at h1
      exact absurd h1 (by simp)
    have hcs : ∀ u, em_pd_energy env pd max_util u =
        some ((c.cost * u) % 2 ^ 64 /
          env.arch_scale_cpu_capacity (cpumask_first env pd.cpus)) := by
      intro u
      rw [henergy u, h2]
    exact ⟨_, c, k, htop, hmax, hk, h1, Or.inl ⟨h3, h4⟩, hcs, hmono c hcs⟩
  · have hsel : em_select
        (env.map_util_freq max_util (pd.table.getLastD ⟨0, 0, 0⟩).frequency
          (env.arch_scale_cpu_capacity (cpumask_first env pd.cpus)))
        pd.table (pd.table.getLastD ⟨0, 0, 0⟩) = pd.table.getLastD ⟨0, 0, 0⟩ := by
      rw [h2]
      cases hl : pd.table with
      | nil => exact absurd hl hne
      | cons a t => simp only [List.getLastD_cons]
    have hcs : ∀ u, em_pd_energy env pd max_util u =
        some (((pd.table.getLastD ⟨0, 0, 0⟩).cost * u) % 2 ^ 64 /
          env.arch_scale_cpu_capacity (cpumask_first env pd.cpus)) := by
      intro u
      rw [henergy u, hsel]
    exact ⟨_, _, pd.table.length - 1, htop, hmax, by omega, htop, Or.inr ⟨rfl, h1⟩, hcs,
      hmono _ hcs⟩

theorem example_pd_ascending (i j : Nat) (ci cj : em_cap_state) (hij : i < j)
    (hi : example_pd.table[i]? = some ci) (hj : example_pd.table[j]? = some cj) :
    ci.frequency ≤ cj.frequency := by
  have hj3 : j < 3 := by
    by_contra hcon
    have hlen : example_pd.table.length ≤ j := by
      show 3 ≤ j
      omega
    rw [List.getElem?_eq_none hlen] at hj
    exact absurd hj (by simp)
  interval_cases j <;> interval_cases i <;>
    simp only [example_pd, List.getElem?_cons_zero, List.getElem?_cons_succ,
      Option.some.injEq] at hi hj <;>
    subst hi <;> subst hj <;> decide

/-- C20 at a concrete input: with operating points of 500 MHz, 1 GHz and
2 GHz (costs 400, 600 and 900), CPUs of capacity 1024 and a maximum
utilization of 600, the requested frequency is 1464843 kHz, the 2 GHz state
is selected, and a summed utilization of 1000 is estimated at
`900 * 1000 / 1024 = 878`. -/
theorem C20_em_pd_energy_witness :
    (example_env.map_util_freq 600 2000000 1024 = 1464843 ∧
      em_pd_energy example_env example_pd 600 1000 = some 878) ∧
    ∃ cs : em_cap_state, ∀ sum_util,
      em_pd_energy example_env example_pd 600 sum_util =
        some ((cs.cost * sum_util) % 2 ^ 64 /
          example_env.arch_scale_cpu_capacity (cpumask_first example_env example_pd.cpus)) :=
  ⟨by decide,
   let ⟨_, cs, _, h⟩ := C20_em_pd_energy example_env example_pd 600 (by decide) rfl
     example_pd_ascending (by decide)
   ⟨cs, h.2.2.2.2.2.1⟩⟩

end EnergyModel
